import Mathlib

/-!
# Verification of the orasort repository

Shallow embedding of the cache-accelerated, common-prefix-aware partition
sort (`src/orasort2.c` / `src/orasort2.cpp`) and of the naive precursor
(`src/orasort.c`), together with proofs of the specified properties.

Modelling conventions:
* A byte string is a `List Nat` of its bytes (a valid byte string has all
  bytes nonzero — no embedded terminator — and below 256).  The C string's
  closing NUL byte and the memory after it are modelled by total reads:
  `strByte s i` yields 0 at or past the string's end, matching what the C
  code observes via the terminator.  The one place where reading past the
  terminator matters (the comparator's deep scan) gets a dedicated
  in-bounds predicate, `slowScanInBounds`.
* C `int` indices are modelled by `Int`; machine `uint64_t` window values
  by `Nat` (they are below `2 ^ 64` whenever they come from `load_window`).
* `rand()` is modelled by a caller-supplied source of naturals; the C
  variant of the cached sort uses no randomness (fixed middle pivot), the
  C++ variants consume one value per partition call, supplied as a
  function of the `(low, high)` range (the ranges of the partition calls
  of one execution are pairwise distinct, so this loses no generality).
-/

namespace Orasort

/-- A valid byte string: every byte is nonzero (no embedded NUL) and below 256. -/
def ValidStr (s : List Nat) : Prop := ∀ b ∈ s, 0 < b ∧ b < 256

instance : DecidablePred ValidStr := fun s =>
  inferInstanceAs (Decidable (∀ b ∈ s, 0 < b ∧ b < 256))

/-- Reading byte `i` of the NUL-terminated buffer holding `s`:
0 at or past the string's end. -/
def strByte (s : List Nat) (i : Nat) : Nat := s.getD i 0

/-- Value of a byte buffer interpreted as a big-endian integer
(first byte most significant), as produced by the `bswap64` of the 8-byte
buffer in `refresh_cache` (orasort2.c lines 60-76). -/
def beVal : List Nat → Nat
  | [] => 0
  | b :: bs => b * 256 ^ bs.length + beVal bs

/-- The 8 bytes of `s` starting at `depth`, zero padded:
the `buf` of `refresh_cache` (orasort2.c line 63). -/
def windowBytes (s : List Nat) (depth : Nat) : List Nat :=
  (List.range 8).map fun i => strByte s (depth + i)

/-- `load_window(text, depth)` (spec §4.1): the window computation of
`refresh_cache` (orasort2.c lines 49-77) / `StringItem::refresh_cache`
(orasort2.cpp lines 34-65).  If `depth` is at or past the string's length
the window is 0; otherwise it is the zero-padded 8-byte slice at `depth`
packed big-endian. -/
def load_window (s : List Nat) (depth : Nat) : Nat :=
  if s.length ≤ depth then 0 else beVal (windowBytes s depth)

/-- Item model (orasort2.c lines 41-44): a string reference plus the cached
window. -/
structure StringItem where
  ptr : List Nat
  cache : Nat
deriving Repr, DecidableEq, Inhabited

/-- `refresh_cache(item, depth)`. -/
def StringItem.refresh_cache (it : StringItem) (depth : Nat) : StringItem :=
  { it with cache := load_window it.ptr depth }

/-- `clz64` / `__builtin_clzll` on a 64-bit value (orasort2.c lines 26-36):
the number of leading zero bits, for arguments below `2 ^ 64`. -/
def clz64 (x : Nat) : Nat := if x = 0 then 64 else 63 - Nat.log2 x

/-- The byte-by-byte matching scan of the comparator's slow path
(orasort2.c lines 96-99): the number of initial positions where both
buffers hold equal nonzero bytes; reading past a list's end yields the
terminator 0 and stops the scan. -/
def scanMatch : List Nat → List Nat → Nat
  | x :: xs, y :: ys => if x ≠ 0 ∧ y ≠ 0 ∧ x = y then scanMatch xs ys + 1 else 0
  | _, _ => 0

/-- `compare_and_count` (orasort2.c lines 81-103 / orasort2.cpp lines
95-129): returns the ordering (sign of an `Int`) and the matching byte
count.  The C++ port splits the fast path into separate `<` and `>`
branches with the same result. -/
def compare_and_count (a b : StringItem) (depth : Nat) : Int × Nat :=
  if a.cache ≠ b.cache then
    (if a.cache < b.cache then -1 else 1, clz64 (a.cache ^^^ b.cache) / 8)
  else
    ((strByte a.ptr (depth + 8 + scanMatch (a.ptr.drop (depth + 8)) (b.ptr.drop (depth + 8))) : Int)
        - (strByte b.ptr (depth + 8 + scanMatch (a.ptr.drop (depth + 8)) (b.ptr.drop (depth + 8))) : Int),
      8 + scanMatch (a.ptr.drop (depth + 8)) (b.ptr.drop (depth + 8)))

/-- `swap_items` (orasort2.c lines 105-109) on the item array. -/
def swap_items (l : List StringItem) (i j : Nat) : List StringItem :=
  (l.set i (l.getD j default)).set j (l.getD i default)

/-- The left scan of the partition loop (orasort2.c lines 134-143):
advance `i` while the item compares below the pivot, folding every
observed `match_len` into the running minimum. -/
def scanLeft (l : List StringItem) (pivot : StringItem) (depth : Nat) (i j : Int)
    (minc : Nat) : Int × Nat :=
  if i ≤ j then
    if 0 ≤ (compare_and_count (l.getD i.toNat default) pivot depth).1 then
      (i, min minc (compare_and_count (l.getD i.toNat default) pivot depth).2)
    else
      scanLeft l pivot depth (i + 1) j
        (min minc (compare_and_count (l.getD i.toNat default) pivot depth).2)
  else (i, minc)
termination_by (j + 1 - i).toNat
decreasing_by omega

/-- The right scan of the partition loop (orasort2.c lines 146-155). -/
def scanRight (l : List StringItem) (pivot : StringItem) (depth : Nat) (i j : Int)
    (minc : Nat) : Int × Nat :=
  if i ≤ j then
    if (compare_and_count (l.getD j.toNat default) pivot depth).1 ≤ 0 then
      (j, min minc (compare_and_count (l.getD j.toNat default) pivot depth).2)
    else
      scanRight l pivot depth i (j - 1)
        (min minc (compare_and_count (l.getD j.toNat default) pivot depth).2)
  else (j, minc)
termination_by (j - i + 1).toNat
decreasing_by omega

theorem scanLeft_le_fst (l : List StringItem) (pivot : StringItem) (depth : Nat)
    (i j : Int) (minc : Nat) : i ≤ (scanLeft l pivot depth i j minc).1 := by
  induction i, j, minc using scanLeft.induct l pivot depth with
  | case1 i j minc h hr => rw [scanLeft, if_pos h, if_pos hr]
  | case2 i j minc h hr ih => rw [scanLeft, if_pos h, if_neg hr]; omega
  | case3 i j minc h => rw [scanLeft, if_neg h]

theorem scanRight_fst_le (l : List StringItem) (pivot : StringItem) (depth : Nat)
    (i j : Int) (minc : Nat) : (scanRight l pivot depth i j minc).1 ≤ j := by
  induction j, minc using scanRight.induct l pivot depth i with
  | case1 j minc h hr => rw [scanRight, if_pos h, if_pos hr]
  | case2 j minc h hr ih => rw [scanRight, if_pos h, if_neg hr]; omega
  | case3 j minc h => rw [scanRight, if_neg h]

theorem scanRight_ge_fst (l : List StringItem) (pivot : StringItem) (depth : Nat)
    (i j : Int) (minc : Nat) : min (i - 1) j ≤ (scanRight l pivot depth i j minc).1 := by
  induction j, minc using scanRight.induct l pivot depth i with
  | case1 j minc h hr => rw [scanRight, if_pos h, if_pos hr]; omega
  | case2 j minc h hr ih => rw [scanRight, if_pos h, if_neg hr]; omega
  | case3 j minc h => rw [scanRight, if_neg h]; omega

/-- The right scan as run by one iteration of the partition loop: it
starts from the state the left scan left behind. -/
def scanTwo (l : List StringItem) (pivot : StringItem) (depth : Nat) (i j : Int)
    (minc : Nat) : Int × Nat :=
  scanRight l pivot depth (scanLeft l pivot depth i j minc).1 j
    (scanLeft l pivot depth i j minc).2

/-- The Hoare partition loop of `orasort_recursive` (orasort2.c lines
132-164): one iteration runs the two scans and either swaps and continues
or stops; returns the final array, the final right cursor `j`, and the
running minimum `min_common_with_pivot`. -/
def partitionLoop (l : List StringItem) (pivot : StringItem) (depth : Nat) (i j : Int)
    (minc : Nat) : List StringItem × Int × Nat :=
  if (scanLeft l pivot depth i j minc).1 ≤ (scanTwo l pivot depth i j minc).1 then
    partitionLoop
      (swap_items l (scanLeft l pivot depth i j minc).1.toNat
        (scanTwo l pivot depth i j minc).1.toNat)
      pivot depth ((scanLeft l pivot depth i j minc).1 + 1)
      ((scanTwo l pivot depth i j minc).1 - 1) (scanTwo l pivot depth i j minc).2
  else (l, (scanTwo l pivot depth i j minc).1, (scanTwo l pivot depth i j minc).2)
termination_by (j + 1 - i).toNat
decreasing_by
  have h1 := scanLeft_le_fst l pivot depth i j minc
  have h2 := scanRight_fst_le l pivot depth (scanLeft l pivot depth i j minc).1 j
    (scanLeft l pivot depth i j minc).2
  simp only [scanTwo] at *
  omega

theorem partitionLoop_fst_snd_bounds (l : List StringItem) (pivot : StringItem)
    (depth : Nat) (i j : Int) (minc : Nat) (low high : Int) :
    low + 1 ≤ i → low ≤ j → j ≤ high →
    low ≤ (partitionLoop l pivot depth i j minc).2.1 ∧
      (partitionLoop l pivot depth i j minc).2.1 ≤ high := by
  induction l, pivot, depth, i, j, minc using partitionLoop.induct with
  | case1 l pivot depth i j minc hij ih =>
    intro h1 h2 h3
    rw [partitionLoop, if_pos hij]
    have ha1 := scanLeft_le_fst l pivot depth i j minc
    have hb1 : (scanTwo l pivot depth i j minc).1 ≤ j :=
      scanRight_fst_le l pivot depth (scanLeft l pivot depth i j minc).1 j
        (scanLeft l pivot depth i j minc).2
    exact ih (by omega) (by omega) (by omega)
  | case2 l pivot depth i j minc hij =>
    intro h1 h2 h3
    rw [partitionLoop, if_neg hij]
    have ha1 := scanLeft_le_fst l pivot depth i j minc
    have hb1 : (scanTwo l pivot depth i j minc).1 ≤ j :=
      scanRight_fst_le l pivot depth (scanLeft l pivot depth i j minc).1 j
        (scanLeft l pivot depth i j minc).2
    have hb2 : min ((scanLeft l pivot depth i j minc).1 - 1) j ≤
        (scanTwo l pivot depth i j minc).1 :=
      scanRight_ge_fst l pivot depth (scanLeft l pivot depth i j minc).1 j
        (scanLeft l pivot depth i j minc).2
    dsimp only
    constructor <;> omega

/-- The cache refresh sweep before recursing (orasort2.c lines 177-178 and
185-186): refresh every item whose index lies in `[a, b]`. -/
def refreshRange (l : List StringItem) (a b : Int) (depth : Nat) : List StringItem :=
  l.mapIdx fun k it => if a ≤ (k : Int) ∧ (k : Int) ≤ b then it.refresh_cache depth else it

/-- The `min_common_with_pivot` sentinel reset (orasort2.c line 170): the
minimum is initialised to `INT_MAX` and reset to 0 when no comparison ever
lowered it. -/
def resetSentinel (m : Nat) : Nat := if m = 2147483647 then 0 else m

/-- The conditional cache-refresh step before a recursive call (orasort2.c
lines 177-178 and 185-186): refresh the windows of `[a, b]` at `nd` only
when the depth advanced. -/
def prepRange (l : List StringItem) (a b : Int) (depth nd : Nat) : List StringItem :=
  if depth < nd then refreshRange l a b nd else l

/-- One full partition call of `orasort_recursive` (orasort2.c lines
116-164): swap the chosen pivot to `low`, copy it out, and run the loop
over `[low + 1, high]` with the minimum initialised to `INT_MAX`. -/
def partitionAt (pidx : Int → Int → Int) (l : List StringItem) (low high : Int)
    (depth : Nat) : List StringItem × Int × Nat :=
  partitionLoop (swap_items l low.toNat (pidx low high).toNat)
    ((swap_items l low.toNat (pidx low high).toNat).getD low.toNat default)
    depth (low + 1) high 2147483647

/-- The split index returned by one partition call: the final `j`, where
the pivot is placed (orasort2.c line 167). -/
def pJ (pidx : Int → Int → Int) (l : List StringItem) (low high : Int) (depth : Nat) :
    Int :=
  (partitionAt pidx l low high depth).2.1

/-- The `new_depth` of one partition call (orasort2.c lines 170-172). -/
def pND (pidx : Int → Int → Int) (l : List StringItem) (low high : Int) (depth : Nat) :
    Nat :=
  depth + resetSentinel (partitionAt pidx l low high depth).2.2

/-- The array after one partition call, with the pivot restored to its
final slot `j` (orasort2.c line 167). -/
def pArr (pidx : Int → Int → Int) (l : List StringItem) (low high : Int) (depth : Nat) :
    List StringItem :=
  swap_items (partitionAt pidx l low high depth).1 low.toNat
    (pJ pidx l low high depth).toNat

theorem pJ_bounds (pidx : Int → Int → Int) (l : List StringItem) (low high : Int)
    (depth : Nat) (h : low < high) :
    low ≤ pJ pidx l low high depth ∧ pJ pidx l low high depth ≤ high :=
  partitionLoop_fst_snd_bounds _ _ depth (low + 1) high 2147483647 low high
    (by omega) (by omega) (by omega)

/-- `orasort_recursive` (orasort2.c lines 113-190) /
`OptimizedOrasort::sort_recursive` (orasort2.cpp lines 131-221),
parametrised by the pivot-index choice `pidx` (the C file uses the middle
element, the C++ file a random index).  The two guarded recursions of the
source (left sub-range then right sub-range, each preceded by a cache
refresh when the depth advanced) are spelled out branch by branch. -/
def orasort_recursive (pidx : Int → Int → Int) (l : List StringItem) (low high : Int)
    (depth : Nat) : List StringItem :=
  if low ≥ high then l else
  if pJ pidx l low high depth + 1 < high then
    orasort_recursive pidx
      (prepRange
        (if low < pJ pidx l low high depth - 1 then
          orasort_recursive pidx
            (prepRange (pArr pidx l low high depth) low (pJ pidx l low high depth - 1)
              depth (pND pidx l low high depth))
            low (pJ pidx l low high depth - 1) (pND pidx l low high depth)
        else pArr pidx l low high depth)
        (pJ pidx l low high depth + 1) high depth (pND pidx l low high depth))
      (pJ pidx l low high depth + 1) high (pND pidx l low high depth)
  else
    if low < pJ pidx l low high depth - 1 then
      orasort_recursive pidx
        (prepRange (pArr pidx l low high depth) low (pJ pidx l low high depth - 1)
          depth (pND pidx l low high depth))
        low (pJ pidx l low high depth - 1) (pND pidx l low high depth)
    else pArr pidx l low high depth
termination_by (high - low).toNat
decreasing_by
  · have := pJ_bounds pidx l low high depth (by omega)
    omega
  · have := pJ_bounds pidx l low high depth (by omega)
    omega
  · have := pJ_bounds pidx l low high depth (by omega)
    omega

/-- The pivot choice of the C cached variant (orasort2.c line 118): the
middle element of the range, a purely positional choice. -/
def mid_pivot_index (low high : Int) : Int := low + (high - low) / 2

/-- The pivot choice of the C++ cached variant (orasort2.cpp line 138) for
one drawn random value `r`: `low + rand() % (high - low + 1)`. -/
def rand_pivot_index (r : Nat) (low high : Int) : Int := low + (r : Int) % (high - low + 1)

/-- `optimized_orasort` (orasort2.c lines 194-216), success path of the
item-array allocation: wrap at depth 0, sort, write back. -/
def optimized_orasort (strings : List (List Nat)) : List (List Nat) :=
  if strings.length ≤ 1 then strings else
  let items := strings.map fun s => StringItem.mk s (load_window s 0)
  (orasort_recursive mid_pivot_index items 0 ((strings.length : Int) - 1) 0).map
    StringItem.ptr

/-- `optimized_orasort` with its allocation made explicit: when `allocOk`
is false (`malloc` returned NULL, orasort2.c line 199) the function just
returns, leaving the caller's array untouched and signalling nothing. -/
def optimized_orasort_alloc (allocOk : Bool) (strings : List (List Nat)) :
    List (List Nat) :=
  if strings.length ≤ 1 then strings else
  if allocOk = false then strings else optimized_orasort strings

/-- `OptimizedOrasort::sort` (orasort2.cpp lines 70-90); `rng` supplies the
`rand()` value drawn by each partition call. -/
def OptimizedOrasort.sort (rng : Int → Int → Nat) (data : List (List Nat)) :
    List (List Nat) :=
  if data.isEmpty then data else
  let items := data.map fun s => StringItem.mk s (load_window s 0)
  (orasort_recursive (fun lo hi => rand_pivot_index (rng lo hi) lo hi) items 0
    ((data.length : Int) - 1) 0).map StringItem.ptr

/-! ## The naive precursor variant (orasort.c) -/

/-- C `strcmp` on byte strings: scan while both bytes are nonzero and
equal, then return the difference of the bytes at the stopping position
(the terminator reads as 0). -/
def strcmpBytes : List Nat → List Nat → Int
  | [], [] => 0
  | [], y :: _ => 0 - (y : Int)
  | x :: _, [] => (x : Int) - 0
  | x :: xs, y :: ys => if x ≠ 0 ∧ x = y then strcmpBytes xs ys else (x : Int) - (y : Int)

/-- `compare_skip` (orasort.c lines 44-46): `strcmp(s1 + depth, s2 + depth)`.
Dropping past the end yields the empty string, as the C++ port
(orasort.cpp lines 47-53) makes explicit. -/
def compare_skip (s1 s2 : List Nat) (depth : Nat) : Int :=
  strcmpBytes (s1.drop depth) (s2.drop depth)

/-- Generic in-place swap of two list positions. -/
def listSwap (l : List α) (i j : Nat) (d : α) : List α :=
  (l.set i (l.getD j d)).set j (l.getD i d)

/-- The accumulation loop of `get_common_prefix` (orasort.c lines 20-39):
fold the minimum of the pairwise common lengths against `ref` over the
indices `[i, high]`; `none` is the `-1` sentinel.  The source caps each
pairwise scan at the running minimum and returns early at 0 — both are
observationally the plain minimum computed here. -/
def gcpLoop (l : List (List Nat)) (ref : List Nat) (depth : Nat) (i high : Int)
    (acc : Option Nat) : Option Nat :=
  if i ≤ high then
    gcpLoop l ref depth (i + 1) high
      (some (min
        (acc.getD (scanMatch (ref.drop depth) ((l.getD i.toNat []).drop depth)))
        (scanMatch (ref.drop depth) ((l.getD i.toNat []).drop depth))))
  else acc
termination_by (high + 1 - i).toNat
decreasing_by omega

/-- `get_common_prefix` (orasort.c lines 14-41): minimum number of bytes
beyond `depth` that every element of `[low + 1, high]` shares with
`arr[low]`; 0 for ranges of fewer than two elements. -/
def get_common_prefixLen (l : List (List Nat)) (low high : Int) (depth : Nat) : Nat :=
  if low ≥ high then 0 else
  (gcpLoop l (l.getD low.toNat []) depth (low + 1) high none).getD 0

/-- The left scan of the naive partition (orasort.c line 65):
`while (i <= high && compare_skip(arr[i], pivot, new_depth) < 0) i++`. -/
def lscan (l : List (List Nat)) (pivot : List Nat) (nd : Nat) (i high : Int) : Int :=
  if i ≤ high ∧ compare_skip (l.getD i.toNat []) pivot nd < 0 then
    lscan l pivot nd (i + 1) high
  else i
termination_by (high + 1 - i).toNat
decreasing_by omega

/-- The right scan of the naive partition (orasort.c line 66):
`while (j > low && compare_skip(arr[j], pivot, new_depth) > 0) j--`. -/
def rscan (l : List (List Nat)) (pivot : List Nat) (nd : Nat) (j low : Int) : Int :=
  if low < j ∧ 0 < compare_skip (l.getD j.toNat []) pivot nd then
    rscan l pivot nd (j - 1) low
  else j
termination_by (j - low).toNat
decreasing_by omega

theorem lscan_ge (l : List (List Nat)) (pivot : List Nat) (nd : Nat) (i high : Int) :
    i ≤ lscan l pivot nd i high := by
  induction i, high using lscan.induct l pivot nd with
  | case1 i high h ih => rw [lscan, if_pos h]; omega
  | case2 i high h => rw [lscan, if_neg h]

theorem rscan_le (l : List (List Nat)) (pivot : List Nat) (nd : Nat) (j low : Int) :
    rscan l pivot nd j low ≤ j := by
  induction j, low using rscan.induct l pivot nd with
  | case1 j low h ih => rw [rscan, if_pos h]; omega
  | case2 j low h => rw [rscan, if_neg h]

/-- The naive partition loop (orasort.c lines 64-73): scan, then swap and
advance while the cursors have not crossed; returns the final array and
both cursors. -/
def lgLoop (l : List (List Nat)) (pivot : List Nat) (nd : Nat) (low high i j : Int) :
    List (List Nat) × Int × Int :=
  if i ≤ j then
    if lscan l pivot nd i high ≤ rscan l pivot nd j low then
      lgLoop (listSwap l (lscan l pivot nd i high).toNat (rscan l pivot nd j low).toNat [])
        pivot nd low high (lscan l pivot nd i high + 1) (rscan l pivot nd j low - 1)
    else (l, lscan l pivot nd i high, rscan l pivot nd j low)
  else (l, i, j)
termination_by (j + 1 - i).toNat
decreasing_by
  have h1 := lscan_ge l pivot nd i high
  have h2 := rscan_le l pivot nd j low
  omega

/-- One full partition call of the naive variant (orasort.c lines 55-74):
swap the chosen pivot to `low`, read it off, and run the loop. -/
def lgPartitionAt (pidx : Int → Int → Int) (l : List (List Nat)) (low high : Int)
    (nd : Nat) : List (List Nat) × Int × Int :=
  lgLoop (listSwap l low.toNat (pidx low high).toNat [])
    ((listSwap l low.toNat (pidx low high).toNat []).getD low.toNat [])
    nd low high (low + 1) high

/-- The final left cursor `i` of the naive partition. -/
def lgI (pidx : Int → Int → Int) (l : List (List Nat)) (low high : Int) (nd : Nat) :
    Int :=
  (lgPartitionAt pidx l low high nd).2.1

/-- The final right cursor `j` of the naive partition. -/
def lgJf (pidx : Int → Int → Int) (l : List (List Nat)) (low high : Int) (nd : Nat) :
    Int :=
  (lgPartitionAt pidx l low high nd).2.2

/-- The array after the naive partition, with the pivot swapped back to
slot `j` (orasort.c line 74). -/
def lgArr (pidx : Int → Int → Int) (l : List (List Nat)) (low high : Int) (nd : Nat) :
    List (List Nat) :=
  listSwap (lgPartitionAt pidx l low high nd).1 low.toNat
    (lgJf pidx l low high nd).toNat []

/-- The depth for the recursive calls of the naive variant: the entry
depth advanced by the scanned common length (orasort.c lines 52-53). -/
def lgND (l : List (List Nat)) (low high : Int) (depth : Nat) : Nat :=
  depth + get_common_prefixLen l low high depth

theorem lgLoop_bounds (l : List (List Nat)) (pivot : List Nat) (nd : Nat)
    (low high i j : Int) :
    i ≤ (lgLoop l pivot nd low high i j).2.1 ∧
      (lgLoop l pivot nd low high i j).2.2 ≤ j := by
  induction l, pivot, nd, low, high, i, j using lgLoop.induct with
  | case1 l pivot nd low high i j hij hle ih =>
    rw [lgLoop, if_pos hij, if_pos hle]
    have h1 := lscan_ge l pivot nd i high
    have h2 := rscan_le l pivot nd j low
    omega
  | case2 l pivot nd low high i j hij hle =>
    rw [lgLoop, if_pos hij, if_neg hle]
    have h1 := lscan_ge l pivot nd i high
    have h2 := rscan_le l pivot nd j low
    constructor <;> dsimp only <;> omega
  | case3 l pivot nd low high i j hij =>
    rw [lgLoop, if_neg hij]
    constructor <;> dsimp only <;> omega

/-- `common_prefix_quicksort_recursive` (orasort.c lines 48-81): scan the
common length, partition at the advanced depth, recurse on `[low, j-1]`
and `[i, high]`. -/
def common_prefix_quicksort_recursive (pidx : Int → Int → Int) (l : List (List Nat))
    (low high : Int) (depth : Nat) : List (List Nat) :=
  if low ≥ high then l else
  common_prefix_quicksort_recursive pidx
    (common_prefix_quicksort_recursive pidx
      (lgArr pidx l low high (lgND l low high depth))
      low (lgJf pidx l low high (lgND l low high depth) - 1)
      (lgND l low high depth))
    (lgI pidx l low high (lgND l low high depth)) high (lgND l low high depth)
termination_by (high - low).toNat
decreasing_by
  · have := (lgLoop_bounds (listSwap l low.toNat (pidx low high).toNat [])
      ((listSwap l low.toNat (pidx low high).toNat []).getD low.toNat [])
      (lgND l low high depth) low high (low + 1) high).2
    simp only [lgJf, lgPartitionAt] at *
    omega
  · have := (lgLoop_bounds (listSwap l low.toNat (pidx low high).toNat [])
      ((listSwap l low.toNat (pidx low high).toNat []).getD low.toNat [])
      (lgND l low high depth) low high (low + 1) high).1
    simp only [lgI, lgPartitionAt] at *
    omega

/-- `legrand_sort` (orasort.c lines 83-86): random-pivot naive sort over
the whole array; `rng` supplies the `rand()` draws. -/
def legrand_sort (rng : Int → Int → Nat) (arr : List (List Nat)) : List (List Nat) :=
  common_prefix_quicksort_recursive (fun lo hi => rand_pivot_index (rng lo hi) lo hi)
    arr 0 ((arr.length : Int) - 1) 0

/-! ## The naive C++ port (orasort.cpp) -/

/-- The left scan of `LegrandSort::sort_recursive` (orasort.cpp line 72):
`while (i <= j && compare_skip(arr[i], pivot, new_depth) < 0) i++`.
Unlike the C variant's guard `i <= high`, both C++ scans are bounded by
the other cursor.  `LegrandSort::compare_skip` (orasort.cpp lines 47-53)
substitutes the empty string when `depth` passes a string's length, which
is exactly `compare_skip` here (`List.drop` past the end is `[]`). -/
def ppLscan (l : List (List Nat)) (pivot : List Nat) (nd : Nat) (i j : Int) : Int :=
  if i ≤ j ∧ compare_skip (l.getD i.toNat []) pivot nd < 0 then
    ppLscan l pivot nd (i + 1) j
  else i
termination_by (j + 1 - i).toNat
decreasing_by omega

/-- The right scan of `LegrandSort::sort_recursive` (orasort.cpp line 73):
`while (i <= j && compare_skip(arr[j], pivot, new_depth) > 0) j--`, with
`i` already advanced by the left scan and fixed during this one. -/
def ppRscan (l : List (List Nat)) (pivot : List Nat) (nd : Nat) (i j : Int) : Int :=
  if i ≤ j ∧ 0 < compare_skip (l.getD j.toNat []) pivot nd then
    ppRscan l pivot nd i (j - 1)
  else j
termination_by (j - i + 1).toNat
decreasing_by omega

theorem ppLscan_ge (l : List (List Nat)) (pivot : List Nat) (nd : Nat) (i j : Int) :
    i ≤ ppLscan l pivot nd i j := by
  induction i, j using ppLscan.induct l pivot nd with
  | case1 i j h ih => rw [ppLscan, if_pos h]; omega
  | case2 i j h => rw [ppLscan, if_neg h]

theorem ppRscan_le (l : List (List Nat)) (pivot : List Nat) (nd : Nat) (i j : Int) :
    ppRscan l pivot nd i j ≤ j := by
  induction j using ppRscan.induct l pivot nd i with
  | case1 j h ih => rw [ppRscan, if_pos h]; omega
  | case2 j h => rw [ppRscan, if_neg h]

/-- The `while (true)` partition loop of `LegrandSort::sort_recursive`
(orasort.cpp lines 71-82): run both scans, then swap and advance while
the cursors have not crossed; returns the final array and both cursors. -/
def ppLoop (l : List (List Nat)) (pivot : List Nat) (nd : Nat) (i j : Int) :
    List (List Nat) × Int × Int :=
  if ppLscan l pivot nd i j ≤ ppRscan l pivot nd (ppLscan l pivot nd i j) j then
    ppLoop (listSwap l (ppLscan l pivot nd i j).toNat
        (ppRscan l pivot nd (ppLscan l pivot nd i j) j).toNat [])
      pivot nd (ppLscan l pivot nd i j + 1)
      (ppRscan l pivot nd (ppLscan l pivot nd i j) j - 1)
  else (l, ppLscan l pivot nd i j, ppRscan l pivot nd (ppLscan l pivot nd i j) j)
termination_by (j + 1 - i).toNat
decreasing_by
  have h1 := ppLscan_ge l pivot nd i j
  have h2 := ppRscan_le l pivot nd (ppLscan l pivot nd i j) j
  omega

theorem ppLoop_bounds (l : List (List Nat)) (pivot : List Nat) (nd : Nat)
    (i j : Int) :
    i ≤ (ppLoop l pivot nd i j).2.1 ∧ (ppLoop l pivot nd i j).2.2 ≤ j := by
  induction l, pivot, nd, i, j using ppLoop.induct with
  | case1 l pivot nd i j hle ih =>
    rw [ppLoop, if_pos hle]
    have h1 := ppLscan_ge l pivot nd i j
    have h2 := ppRscan_le l pivot nd (ppLscan l pivot nd i j) j
    omega
  | case2 l pivot nd i j hle =>
    rw [ppLoop, if_neg hle]
    have h1 := ppLscan_ge l pivot nd i j
    have h2 := ppRscan_le l pivot nd (ppLscan l pivot nd i j) j
    constructor <;> dsimp only <;> omega

/-- One full partition call of the C++ naive variant (orasort.cpp lines
62-84): swap the chosen pivot to `low`, copy it out, and run the loop. -/
def ppPartitionAt (pidx : Int → Int → Int) (l : List (List Nat)) (low high : Int)
    (nd : Nat) : List (List Nat) × Int × Int :=
  ppLoop (listSwap l low.toNat (pidx low high).toNat [])
    ((listSwap l low.toNat (pidx low high).toNat []).getD low.toNat [])
    nd (low + 1) high

/-- The final left cursor `i` of the C++ naive partition. -/
def ppI (pidx : Int → Int → Int) (l : List (List Nat)) (low high : Int) (nd : Nat) :
    Int :=
  (ppPartitionAt pidx l low high nd).2.1

/-- The final right cursor `j` of the C++ naive partition. -/
def ppJf (pidx : Int → Int → Int) (l : List (List Nat)) (low high : Int) (nd : Nat) :
    Int :=
  (ppPartitionAt pidx l low high nd).2.2

/-- The array after the C++ naive partition, with the pivot swapped back
to slot `j` (orasort.cpp line 84). -/
def ppArr (pidx : Int → Int → Int) (l : List (List Nat)) (low high : Int) (nd : Nat) :
    List (List Nat) :=
  listSwap (ppPartitionAt pidx l low high nd).1 low.toNat
    (ppJf pidx l low high nd).toNat []

/-- `LegrandSort::sort_recursive` (orasort.cpp lines 55-89): scan the
common length, partition at the advanced depth, recurse on `[low, j-1]`
and `[i, high]`.  `LegrandSort::get_common_prefix` (orasort.cpp lines
15-45) is observationally the same plain minimum as the C variant's
(orasort.c lines 14-41), so the depth advance is the shared `lgND`: its
early `return 0` when `depth` reaches a pair's shorter length is that
pair's zero-length scan (one suffix is empty), its length-bounded
character loop stops exactly where the NUL-guarded scan of a NUL-free
string stops, and the cap/early-zero exits never change the minimum. -/
def LegrandSort.sort_recursive (pidx : Int → Int → Int) (l : List (List Nat))
    (low high : Int) (depth : Nat) : List (List Nat) :=
  if low ≥ high then l else
  LegrandSort.sort_recursive pidx
    (LegrandSort.sort_recursive pidx
      (ppArr pidx l low high (lgND l low high depth))
      low (ppJf pidx l low high (lgND l low high depth) - 1)
      (lgND l low high depth))
    (ppI pidx l low high (lgND l low high depth)) high (lgND l low high depth)
termination_by (high - low).toNat
decreasing_by
  · have := (ppLoop_bounds (listSwap l low.toNat (pidx low high).toNat [])
      ((listSwap l low.toNat (pidx low high).toNat []).getD low.toNat [])
      (lgND l low high depth) (low + 1) high).2
    simp only [ppJf, ppPartitionAt] at *
    omega
  · have := (ppLoop_bounds (listSwap l low.toNat (pidx low high).toNat [])
      ((listSwap l low.toNat (pidx low high).toNat []).getD low.toNat [])
      (lgND l low high depth) (low + 1) high).1
    simp only [ppI, ppPartitionAt] at *
    omega

/-- `LegrandSort::sort` (orasort.cpp lines 9-12): return on an empty
vector, otherwise run the recursion over the whole index range; `rng`
supplies the `rand()` draws. -/
def LegrandSort.sort (rng : Int → Int → Nat) (arr : List (List Nat)) :
    List (List Nat) :=
  if arr.isEmpty then arr else
  LegrandSort.sort_recursive (fun lo hi => rand_pivot_index (rng lo hi) lo hi)
    arr 0 ((arr.length : Int) - 1) 0

/-! ## Semantic-layer definitions used by the statements -/

/-- A valid item at `depth`: its string is a valid byte string and its
cached window is exactly the loaded window at `depth`. -/
def ValidItem (it : StringItem) (depth : Nat) : Prop :=
  ValidStr it.ptr ∧ it.cache = load_window it.ptr depth

/-- Byte `i` (0-based, most significant first) of a 64-bit window value. -/
def winByte (w i : Nat) : Nat := w / 256 ^ (7 - i) % 256

/-- Big-endian value of the `n`-byte zero-padded slice at the front of a
string (so `padVal 8 (s.drop d)` is the loaded window of `s` at `d`). -/
def padVal : Nat → List Nat → Nat
  | 0, _ => 0
  | _ + 1, [] => 0
  | n + 1, b :: bs => b * 256 ^ n + padVal n bs

/-- All byte positions the comparator's slow path reads lie at or before
each string's terminator: it reads offsets `depth + 8 + t` of both strings
for `0 ≤ t ≤ k`, where `k` is where the scan stops. -/
def slowScanInBounds (a b : StringItem) (depth : Nat) : Prop :=
  ∀ t ≤ scanMatch (a.ptr.drop (depth + 8)) (b.ptr.drop (depth + 8)),
    depth + 8 + t ≤ a.ptr.length ∧ depth + 8 + t ≤ b.ptr.length

/-! ## Byte-string comparison theory -/

theorem getD_drop (s : List α) (n i : Nat) (d : α) :
    (s.drop n).getD i d = s.getD (n + i) d := by
  simp [List.getD_eq_getElem?_getD, List.getElem?_drop]

theorem strByte_drop (s : List Nat) (n i : Nat) :
    strByte (s.drop n) i = strByte s (n + i) :=
  getD_drop s n i 0

theorem getD_eq_of_take_eq {u v : List α} {n i : Nat} (h : u.take n = v.take n)
    (hi : i < n) (d : α) : u.getD i d = v.getD i d := by
  have hu : (u.take n)[i]? = u[i]? := by rw [List.getElem?_take, if_pos hi]
  have hv : (v.take n)[i]? = v[i]? := by rw [List.getElem?_take, if_pos hi]
  simp [List.getD_eq_getElem?_getD, ← hu, ← hv, h]

theorem scanMatch_le_left (u v : List Nat) : scanMatch u v ≤ u.length := by
  induction u generalizing v with
  | nil => cases v <;> simp [scanMatch]
  | cons x xs ih =>
    cases v with
    | nil => simp [scanMatch]
    | cons y ys =>
      rw [scanMatch]
      split
      · have := ih ys
        simp
        omega
      · simp

theorem scanMatch_le_right (u v : List Nat) : scanMatch u v ≤ v.length := by
  induction u generalizing v with
  | nil => cases v <;> simp [scanMatch]
  | cons x xs ih =>
    cases v with
    | nil => simp [scanMatch]
    | cons y ys =>
      rw [scanMatch]
      split
      · have := ih ys
        simp
        omega
      · simp

theorem scanMatch_agrees (u v : List Nat) :
    ∀ t < scanMatch u v, u.getD t 0 = v.getD t 0 := by
  induction u generalizing v with
  | nil => intro t ht; cases v <;> simp [scanMatch] at ht
  | cons x xs ih =>
    intro t ht
    cases v with
    | nil => simp [scanMatch] at ht
    | cons y ys =>
      rw [scanMatch] at ht
      split at ht
      · rename_i hg
        cases t with
        | zero => simpa using hg.2.2
        | succ t => exact ih ys t (by omega)
      · omega

theorem strcmpBytes_eq_scan (u v : List Nat) :
    strcmpBytes u v =
      (u.getD (scanMatch u v) 0 : Int) - (v.getD (scanMatch u v) 0 : Int) := by
  induction u generalizing v with
  | nil => cases v <;> simp [strcmpBytes, scanMatch, strByte]
  | cons x xs ih =>
    cases v with
    | nil => simp [strcmpBytes, scanMatch]
    | cons y ys =>
      rw [strcmpBytes, scanMatch]
      by_cases hg : x ≠ 0 ∧ x = y
      · have hg' : x ≠ 0 ∧ y ≠ 0 ∧ x = y := ⟨hg.1, hg.2 ▸ hg.1, hg.2⟩
        rw [if_pos hg, if_pos hg']
        simpa using ih ys
      · have hg' : ¬(x ≠ 0 ∧ y ≠ 0 ∧ x = y) := by
          intro h
          exact hg ⟨h.1, h.2.2⟩
        rw [if_neg hg, if_neg hg']
        simp

theorem strcmpBytes_self (u : List Nat) : strcmpBytes u u = 0 := by
  induction u with
  | nil => rfl
  | cons x xs ih =>
    rw [strcmpBytes]
    split
    · exact ih
    · omega

theorem strcmpBytes_antisymm (u v : List Nat) :
    strcmpBytes v u = -strcmpBytes u v := by
  induction u generalizing v with
  | nil => cases v <;> simp [strcmpBytes]
  | cons x xs ih =>
    cases v with
    | nil => simp [strcmpBytes]
    | cons y ys =>
      rw [strcmpBytes, strcmpBytes]
      by_cases hg : x ≠ 0 ∧ x = y
      · have hg' : y ≠ 0 ∧ y = x := ⟨hg.2 ▸ hg.1, hg.2.symm⟩
        rw [if_pos hg, if_pos hg']
        exact ih ys
      · have hg' : ¬(y ≠ 0 ∧ y = x) := by
          intro h
          exact hg ⟨h.2 ▸ h.1, h.2.symm⟩
        rw [if_neg hg, if_neg hg']
        omega

theorem strcmpBytes_eq_zero_iff {u v : List Nat} (hu : ValidStr u) (hv : ValidStr v) :
    strcmpBytes u v = 0 ↔ u = v := by
  induction u generalizing v with
  | nil =>
    cases v with
    | nil => simp [strcmpBytes]
    | cons y ys =>
      have hy := hv y (List.mem_cons_self y ys)
      simp [strcmpBytes]
      omega
  | cons x xs ih =>
    cases v with
    | nil =>
      have hx := hu x (List.mem_cons_self x xs)
      simp [strcmpBytes]
      omega
    | cons y ys =>
      have hx := hu x (List.mem_cons_self x xs)
      rw [strcmpBytes]
      by_cases hg : x ≠ 0 ∧ x = y
      · rw [if_pos hg]
        have := ih (fun b hb => hu b (List.mem_cons_of_mem x hb))
          (v := ys) (fun b hb => hv b (List.mem_cons_of_mem y hb))
        rw [this]
        simp [hg.2]
      · rw [if_neg hg]
        have hxy : x ≠ y := by
          intro h
          exact hg ⟨by omega, h⟩
        constructor
        · intro h
          exact absurd (by omega : x = y) hxy
        · intro h
          cases h
          exact absurd rfl hxy

theorem strcmpBytes_lt_iff_lex {u v : List Nat} (hu : ValidStr u) (hv : ValidStr v) :
    strcmpBytes u v < 0 ↔ List.Lex (· < ·) u v := by
  induction u generalizing v with
  | nil =>
    cases v with
    | nil =>
      simp only [strcmpBytes]
      constructor
      · omega
      · intro h
        cases h
    | cons y ys =>
      have hy := hv y (List.mem_cons_self y ys)
      simp only [strcmpBytes]
      constructor
      · intro _
        exact List.Lex.nil
      · intro _
        omega
  | cons x xs ih =>
    cases v with
    | nil =>
      simp only [strcmpBytes]
      constructor
      · omega
      · intro h
        cases h
    | cons y ys =>
      have hx := hu x (List.mem_cons_self x xs)
      rw [strcmpBytes]
      by_cases hg : x ≠ 0 ∧ x = y
      · rw [if_pos hg]
        cases hg.2
        have hrec := ih (fun b hb => hu b (List.mem_cons_of_mem x hb))
          (v := ys) (fun b hb => hv b (List.mem_cons_of_mem x hb))
        rw [hrec]
        constructor
        · intro h
          exact List.Lex.cons h
        · intro h
          cases h with
          | cons h => exact h
          | rel h => omega
      · rw [if_neg hg]
        have hxy : x ≠ y := by
          intro h
          exact hg ⟨by omega, h⟩
        constructor
        · intro h
          exact List.Lex.rel (by omega)
        · intro h
          cases h with
          | cons h => exact absurd rfl hxy
          | rel h => omega

theorem strcmpBytes_drop_of_take_eq {u v : List Nat} (hu : ValidStr u)
    (hv : ValidStr v) (n : Nat) (h : u.take n = v.take n) :
    strcmpBytes u v = strcmpBytes (u.drop n) (v.drop n) := by
  induction n generalizing u v with
  | zero => simp
  | succ n ih =>
    cases u with
    | nil =>
      cases v with
      | nil => simp
      | cons y ys => simp at h
    | cons x xs =>
      cases v with
      | nil => simp at h
      | cons y ys =>
        simp only [List.take_succ_cons, List.cons.injEq] at h
        have hx := hu x (List.mem_cons_self x xs)
        rw [strcmpBytes, if_pos ⟨by omega, h.1⟩]
        simp only [List.drop_succ_cons]
        exact ih (fun b hb => hu b (List.mem_cons_of_mem x hb))
          (fun b hb => hv b (List.mem_cons_of_mem y hb)) h.2

/-! ## Window (packed big-endian slice) theory -/

theorem padVal_nil (n : Nat) : padVal n [] = 0 := by
  cases n <;> rfl

theorem ValidStr.tail {x : Nat} {xs : List Nat} (h : ValidStr (x :: xs)) :
    ValidStr xs := fun b hb => h b (List.mem_cons_of_mem x hb)

theorem ValidStr.head {x : Nat} {xs : List Nat} (h : ValidStr (x :: xs)) :
    0 < x ∧ x < 256 := h x (List.mem_cons_self x xs)

theorem ValidStr.drop {s : List Nat} (h : ValidStr s) (n : Nat) :
    ValidStr (s.drop n) := fun b hb => h b ((List.drop_sublist n s).subset hb)

theorem padVal_lt {s : List Nat} (hs : ValidStr s) (n : Nat) : padVal n s < 256 ^ n := by
  induction n generalizing s with
  | zero => simp [padVal]
  | succ n ih =>
    cases s with
    | nil => rw [padVal_nil]; positivity
    | cons b bs =>
      have hb := hs.head
      have hp := ih hs.tail
      rw [padVal]
      calc b * 256 ^ n + padVal n bs < b * 256 ^ n + 256 ^ n := by omega
        _ = (b + 1) * 256 ^ n := by ring
        _ ≤ 256 * 256 ^ n := Nat.mul_le_mul_right _ (by omega)
        _ = 256 ^ (n + 1) := by ring

theorem beVal_range (n : Nat) (u : List Nat) :
    beVal ((List.range n).map fun i => strByte u i) = padVal n u := by
  induction n generalizing u with
  | zero => simp [beVal, padVal]
  | succ n ih =>
    rw [List.range_succ_eq_map]
    simp only [List.map_cons, List.map_map]
    rw [beVal]
    have hlen : (List.map ((fun i => strByte u i) ∘ (· + 1)) (List.range n)).length = n := by
      simp
    cases u with
    | nil =>
      have hmap : List.map ((fun i => strByte ([] : List Nat) i) ∘ (· + 1)) (List.range n)
          = List.map (fun i => strByte ([] : List Nat) i) (List.range n) := by
        apply List.map_congr_left
        intro a _
        simp [strByte]
      rw [hlen, hmap, ih]
      simp [strByte, padVal_nil]
    | cons b bs =>
      have hmap : List.map ((fun i => strByte (b :: bs) i) ∘ (· + 1)) (List.range n)
          = List.map (fun i => strByte bs i) (List.range n) := by
        apply List.map_congr_left
        intro a _
        simp [strByte]
      rw [hlen, hmap, ih]
      simp [strByte, padVal]

theorem load_window_eq_padVal (s : List Nat) (d : Nat) :
    load_window s d = padVal 8 (s.drop d) := by
  rw [load_window]
  split
  · rename_i h
    rw [List.drop_eq_nil_of_le h, padVal_nil]
  · rw [windowBytes]
    have hmap : (List.range 8).map (fun i => strByte s (d + i))
        = (List.range 8).map fun i => strByte (s.drop d) i := by
      apply List.map_congr_left
      intro a _
      rw [strByte_drop]
    rw [hmap, beVal_range]

theorem digit_lt_iff {E b c pb pc : Nat} (h1 : pb < E) (h2 : pc < E) :
    b * E + pb < c * E + pc ↔ b < c ∨ (b = c ∧ pb < pc) := by
  constructor
  · intro h
    rcases Nat.lt_trichotomy b c with hbc | hbc | hbc
    · exact Or.inl hbc
    · exact Or.inr ⟨hbc, by subst hbc; omega⟩
    · exfalso
      have : (c + 1) * E ≤ b * E := Nat.mul_le_mul_right _ (by omega)
      have : c * E + E ≤ b * E := by linarith [this]
      linarith
  · intro h
    rcases h with hbc | ⟨hbc, hp⟩
    · have : (b + 1) * E ≤ c * E := Nat.mul_le_mul_right _ (by omega)
      have : b * E + E ≤ c * E := by linarith [this]
      linarith
    · subst hbc
      omega

theorem digit_eq_iff {E b c pb pc : Nat} (h1 : pb < E) (h2 : pc < E) :
    b * E + pb = c * E + pc ↔ b = c ∧ pb = pc := by
  constructor
  · intro h
    rcases Nat.lt_trichotomy b c with hbc | hbc | hbc
    · exact absurd h (by have := (digit_lt_iff h1 h2).mpr (Or.inl hbc); omega)
    · exact ⟨hbc, by subst hbc; omega⟩
    · exact absurd h (by have := (digit_lt_iff h2 h1).mpr (Or.inl hbc); omega)
  · intro h
    rw [h.1, h.2]

theorem padVal_eq_iff {u v : List Nat} (hu : ValidStr u) (hv : ValidStr v) (n : Nat) :
    padVal n u = padVal n v ↔ u.take n = v.take n := by
  induction n generalizing u v with
  | zero => simp [padVal]
  | succ n ih =>
    cases u with
    | nil =>
      cases v with
      | nil => simp
      | cons c cs =>
        have hc := hv.head
        have hp : 0 < padVal (n + 1) (c :: cs) := by
          rw [padVal]
          have : 0 < 256 ^ n := by positivity
          have : 1 * 256 ^ n ≤ c * 256 ^ n := Nat.mul_le_mul_right _ (by omega)
          omega
        rw [padVal_nil]
        simp only [List.take_nil]
        constructor
        · omega
        · intro h
          exact absurd h.symm (by simp)
    | cons b bs =>
      cases v with
      | nil =>
        have hb := hu.head
        have hp : 0 < padVal (n + 1) (b :: bs) := by
          rw [padVal]
          have : 0 < 256 ^ n := by positivity
          have : 1 * 256 ^ n ≤ b * 256 ^ n := Nat.mul_le_mul_right _ (by omega)
          omega
        rw [padVal_nil]
        simp only [List.take_nil]
        constructor
        · omega
        · intro h
          exact absurd h (by simp)
      | cons c cs =>
        rw [padVal, padVal,
          digit_eq_iff (padVal_lt hu.tail n) (padVal_lt hv.tail n),
          ih hu.tail hv.tail]
        simp

theorem padVal_lt_iff {u v : List Nat} (hu : ValidStr u) (hv : ValidStr v) (n : Nat)
    (hne : padVal n u ≠ padVal n v) :
    (padVal n u < padVal n v ↔ strcmpBytes u v < 0) := by
  induction n generalizing u v with
  | zero => simp [padVal] at hne
  | succ n ih =>
    cases u with
    | nil =>
      cases v with
      | nil => simp at hne
      | cons c cs =>
        have hc := hv.head
        have hp : 0 < padVal (n + 1) (c :: cs) := by
          rw [padVal]
          have : 0 < 256 ^ n := by positivity
          have : 1 * 256 ^ n ≤ c * 256 ^ n := Nat.mul_le_mul_right _ (by omega)
          omega
        rw [padVal_nil]
        simp only [strcmpBytes]
        constructor
        · intro _
          omega
        · intro _
          omega
    | cons b bs =>
      cases v with
      | nil =>
        have hb := hu.head
        rw [padVal_nil]
        simp only [strcmpBytes]
        constructor
        · omega
        · intro h
          omega
      | cons c cs =>
        have hb := hu.head
        have hc := hv.head
        rw [padVal, padVal,
          digit_lt_iff (padVal_lt hu.tail n) (padVal_lt hv.tail n)]
        rw [strcmpBytes]
        rcases Nat.lt_trichotomy b c with hbc | hbc | hbc
        · rw [if_neg (by omega)]
          constructor
          · intro _
            omega
          · intro _
            exact Or.inl hbc
        · subst hbc
          rw [if_pos ⟨by omega, rfl⟩]
          have hne' : padVal n bs ≠ padVal n cs := by
            intro h
            rw [padVal, padVal, h] at hne
            exact hne rfl
          rw [← ih hu.tail hv.tail hne']
          constructor
          · intro h
            rcases h with h | h
            · omega
            · exact h.2
          · intro h
            exact Or.inr ⟨rfl, h⟩
        · rw [if_neg (by omega)]
          constructor
          · intro h
            rcases h with h | h
            · omega
            · omega
          · intro h
            omega

/-! ## Byte extraction from windows, and the clz-based match length -/

theorem padVal_div_mod {s : List Nat} (hs : ValidStr s) :
    ∀ n i, i < n → padVal n s / 256 ^ (n - 1 - i) % 256 = strByte s i := by
  intro n
  induction n generalizing s with
  | zero => omega
  | succ n ih =>
    intro i hi
    cases s with
    | nil => simp [padVal_nil, strByte]
    | cons b bs =>
      have hb := hs.head
      have hp := padVal_lt hs.tail n
      cases i with
      | zero =>
        have he : n + 1 - 1 - 0 = n := by omega
        rw [he, padVal]
        have hdiv : (b * 256 ^ n + padVal n bs) / 256 ^ n = b := by
          rw [Nat.add_comm, Nat.mul_comm, Nat.add_mul_div_left _ _ (by positivity)]
          rw [Nat.div_eq_of_lt hp]
          omega
        rw [hdiv, Nat.mod_eq_of_lt hb.2]
        rfl
      | succ t =>
        have ht : t < n := by omega
        have he : n + 1 - 1 - (t + 1) = n - 1 - t := by omega
        have hsplit : 256 ^ n = 256 ^ (n - 1 - t) * 256 ^ (t + 1) := by
          rw [← pow_add]
          congr 1
          omega
        rw [he, padVal]
        have hdiv : (b * 256 ^ n + padVal n bs) / 256 ^ (n - 1 - t)
            = padVal n bs / 256 ^ (n - 1 - t) + b * 256 ^ (t + 1) := by
          rw [hsplit, ← Nat.mul_assoc, Nat.mul_comm b (256 ^ (n - 1 - t)),
            Nat.mul_assoc, Nat.add_comm,
            Nat.add_mul_div_left _ _ (by positivity)]
        rw [hdiv]
        have hmod : (padVal n bs / 256 ^ (n - 1 - t) + b * 256 ^ (t + 1)) % 256
            = padVal n bs / 256 ^ (n - 1 - t) % 256 := by
          have : b * 256 ^ (t + 1) = b * 256 ^ t * 256 := by ring
          rw [this, Nat.add_mul_mod_self_right]
        rw [hmod, ih hs.tail t ht]
        rfl

theorem winByte_padVal {s : List Nat} (hs : ValidStr s) {i : Nat} (hi : i < 8) :
    winByte (padVal 8 s) i = strByte s i := by
  have h := padVal_div_mod hs 8 i hi
  rw [winByte]
  have : 7 - i = 8 - 1 - i := by omega
  rw [this]
  exact h

theorem shiftRight_xor (x y n : Nat) : (x ^^^ y) >>> n = (x >>> n) ^^^ (y >>> n) := by
  apply Nat.eq_of_testBit_eq
  intro i
  simp [Nat.testBit_shiftRight, Nat.testBit_xor]

theorem mod_two_pow_xor (x y n : Nat) :
    (x ^^^ y) % 2 ^ n = x % 2 ^ n ^^^ y % 2 ^ n := by
  apply Nat.eq_of_testBit_eq
  intro i
  simp only [Nat.testBit_mod_two_pow, Nat.testBit_xor]
  by_cases h : i < n <;> simp [h]

theorem winByte_shift (w i : Nat) : winByte w i = (w >>> (8 * (7 - i))) % 2 ^ 8 := by
  rw [winByte, Nat.shiftRight_eq_div_pow]
  have h : (2 : Nat) ^ (8 * (7 - i)) = 256 ^ (7 - i) := by
    rw [pow_mul]
    norm_num
  rw [h]
  norm_num

theorem winByte_xor (x y i : Nat) :
    winByte (x ^^^ y) i = winByte x i ^^^ winByte y i := by
  rw [winByte_shift, winByte_shift, winByte_shift, shiftRight_xor, mod_two_pow_xor]

theorem clz64_spec {x y : Nat} (hx : x < 2 ^ 64) (hy : y < 2 ^ 64) (hne : x ≠ y) :
    clz64 (x ^^^ y) / 8 ≤ 7 ∧
    (∀ i < clz64 (x ^^^ y) / 8, winByte x i = winByte y i) ∧
    winByte x (clz64 (x ^^^ y) / 8) ≠ winByte y (clz64 (x ^^^ y) / 8) := by
  have hd0 : x ^^^ y ≠ 0 := by
    intro h
    exact hne (Nat.xor_eq_zero.mp h)
  have hdlt : x ^^^ y < 2 ^ 64 := Nat.xor_lt_two_pow hx hy
  have hL1 : 2 ^ Nat.log2 (x ^^^ y) ≤ x ^^^ y := (Nat.le_log2 hd0).mp le_rfl
  have hL2 : x ^^^ y < 2 ^ (Nat.log2 (x ^^^ y) + 1) :=
    (Nat.log2_lt hd0).mp (Nat.lt_succ_self _)
  have hL64 : Nat.log2 (x ^^^ y) < 64 := (Nat.log2_lt hd0).mpr hdlt
  have hclz : clz64 (x ^^^ y) = 63 - Nat.log2 (x ^^^ y) := by
    rw [clz64, if_neg hd0]
  rw [hclz]
  refine ⟨by omega, ?_, ?_⟩
  · intro i hi
    have hz : winByte (x ^^^ y) i = 0 := by
      have hle : Nat.log2 (x ^^^ y) + 1 ≤ 8 * (7 - i) := by omega
      have hlt : x ^^^ y < 256 ^ (7 - i) := by
        calc x ^^^ y < 2 ^ (Nat.log2 (x ^^^ y) + 1) := hL2
          _ ≤ 2 ^ (8 * (7 - i)) := Nat.pow_le_pow_right (by omega) hle
          _ = 256 ^ (7 - i) := by
            rw [show (256 : Nat) = 2 ^ 8 from rfl, ← pow_mul]
      rw [winByte, Nat.div_eq_of_lt hlt]
    rw [winByte_xor] at hz
    have := Nat.xor_eq_zero.mp hz
    exact this
  · intro heq
    have hz : winByte (x ^^^ y) ((63 - Nat.log2 (x ^^^ y)) / 8) = 0 := by
      rw [winByte_xor, heq, Nat.xor_self]
    have hm7 : (63 - Nat.log2 (x ^^^ y)) / 8 ≤ 7 := by omega
    have hge : 256 ^ (7 - (63 - Nat.log2 (x ^^^ y)) / 8) ≤ x ^^^ y := by
      calc 256 ^ (7 - (63 - Nat.log2 (x ^^^ y)) / 8)
          = 2 ^ (8 * (7 - (63 - Nat.log2 (x ^^^ y)) / 8)) := by
            rw [show (256 : Nat) = 2 ^ 8 from rfl, ← pow_mul]
        _ ≤ 2 ^ Nat.log2 (x ^^^ y) := Nat.pow_le_pow_right (by omega) (by omega)
        _ ≤ x ^^^ y := hL1
    have hlt2 : x ^^^ y < 256 * 256 ^ (7 - (63 - Nat.log2 (x ^^^ y)) / 8) := by
      calc x ^^^ y < 2 ^ (Nat.log2 (x ^^^ y) + 1) := hL2
        _ ≤ 2 ^ (8 * (7 - (63 - Nat.log2 (x ^^^ y)) / 8) + 8) :=
            Nat.pow_le_pow_right (by omega) (by omega)
        _ = 2 ^ (8 * (7 - (63 - Nat.log2 (x ^^^ y)) / 8)) * 2 ^ 8 := pow_add 2 _ 8
        _ = 256 * 256 ^ (7 - (63 - Nat.log2 (x ^^^ y)) / 8) := by
            rw [pow_mul]
            norm_num
            ring
    rw [winByte] at hz
    have hdivlt : (x ^^^ y) / 256 ^ (7 - (63 - Nat.log2 (x ^^^ y)) / 8) < 256 :=
      (Nat.div_lt_iff_lt_mul (by positivity)).mpr hlt2
    rw [Nat.mod_eq_of_lt hdivlt] at hz
    have : 256 ^ (7 - (63 - Nat.log2 (x ^^^ y)) / 8) ≤ 0 := by
      have h1 : 1 ≤ (x ^^^ y) / 256 ^ (7 - (63 - Nat.log2 (x ^^^ y)) / 8) :=
        (Nat.one_le_div_iff (by positivity)).mpr hge
      omega
    have : (0 : Nat) < 256 ^ (7 - (63 - Nat.log2 (x ^^^ y)) / 8) := by positivity
    omega

/-! ## Comparator semantics -/

theorem load_window_lt (s : List Nat) (d : Nat) (hs : ValidStr s) :
    load_window s d < 2 ^ 64 := by
  rw [load_window_eq_padVal]
  calc padVal 8 (s.drop d) < 256 ^ 8 := padVal_lt (hs.drop d) 8
    _ = 2 ^ 64 := by norm_num

/-- With valid caches at `depth`, the comparator's ordering output agrees
with `strcmp` of the two suffixes from `depth` (orasort2.c lines 81-103
against the plain byte scan). -/
theorem compare_and_count_sign {a b : StringItem} {d : Nat}
    (ha : ValidItem a d) (hb : ValidItem b d) :
    ((compare_and_count a b d).1 < 0 ↔ strcmpBytes (a.ptr.drop d) (b.ptr.drop d) < 0) ∧
    ((compare_and_count a b d).1 = 0 ↔ strcmpBytes (a.ptr.drop d) (b.ptr.drop d) = 0) ∧
    (0 < (compare_and_count a b d).1 ↔ 0 < strcmpBytes (a.ptr.drop d) (b.ptr.drop d)) := by
  obtain ⟨hva, hca⟩ := ha
  obtain ⟨hvb, hcb⟩ := hb
  have hvx := hva.drop d
  have hvy := hvb.drop d
  rw [compare_and_count]
  by_cases hne : a.cache ≠ b.cache
  · rw [if_pos hne]
    have hpx : a.cache = padVal 8 (a.ptr.drop d) := by rw [hca, load_window_eq_padVal]
    have hpy : b.cache = padVal 8 (b.ptr.drop d) := by rw [hcb, load_window_eq_padVal]
    have hpadne : padVal 8 (a.ptr.drop d) ≠ padVal 8 (b.ptr.drop d) := by
      rw [← hpx, ← hpy]
      exact hne
    have hsne : strcmpBytes (a.ptr.drop d) (b.ptr.drop d) ≠ 0 := fun h =>
      hpadne (by rw [(strcmpBytes_eq_zero_iff hvx hvy).mp h])
    by_cases hlt : a.cache < b.cache
    · rw [if_pos hlt]
      have hs1 : strcmpBytes (a.ptr.drop d) (b.ptr.drop d) < 0 :=
        (padVal_lt_iff hvx hvy 8 hpadne).mp (by rw [← hpx, ← hpy]; exact hlt)
      dsimp only
      refine ⟨?_, ?_, ?_⟩ <;> omega
    · rw [if_neg hlt]
      have hlt2 : padVal 8 (b.ptr.drop d) < padVal 8 (a.ptr.drop d) := by
        rw [← hpx, ← hpy]
        omega
      have hs1 : strcmpBytes (b.ptr.drop d) (a.ptr.drop d) < 0 :=
        (padVal_lt_iff hvy hvx 8 (Ne.symm hpadne)).mp hlt2
      have hs2 : 0 < strcmpBytes (a.ptr.drop d) (b.ptr.drop d) := by
        have := strcmpBytes_antisymm (a.ptr.drop d) (b.ptr.drop d)
        omega
      dsimp only
      refine ⟨?_, ?_, ?_⟩ <;> omega
  · rw [if_neg hne]
    push_neg at hne
    have htake : (a.ptr.drop d).take 8 = (b.ptr.drop d).take 8 := by
      apply (padVal_eq_iff hvx hvy 8).mp
      rw [← load_window_eq_padVal, ← load_window_eq_padVal, ← hca, ← hcb]
      exact hne
    have hstr : strcmpBytes (a.ptr.drop d) (b.ptr.drop d)
        = strcmpBytes ((a.ptr.drop d).drop 8) ((b.ptr.drop d).drop 8) :=
      strcmpBytes_drop_of_take_eq hvx hvy 8 htake
    rw [List.drop_drop] at hstr
    rw [List.drop_drop] at hstr
    have hscan := strcmpBytes_eq_scan (a.ptr.drop (d + 8)) (b.ptr.drop (d + 8))
    rw [getD_drop, getD_drop] at hscan
    dsimp only
    rw [hstr, hscan]
    simp [strByte]

/-- With valid caches at `depth`, every `match_len` the comparator reports
is sound: the two strings agree (in padded-byte semantics) on that many
bytes beyond `depth`. -/
theorem compare_and_count_matchLen {a b : StringItem} {d : Nat}
    (ha : ValidItem a d) (hb : ValidItem b d) :
    ∀ i < (compare_and_count a b d).2, strByte a.ptr (d + i) = strByte b.ptr (d + i) := by
  obtain ⟨hva, hca⟩ := ha
  obtain ⟨hvb, hcb⟩ := hb
  have hvx := hva.drop d
  have hvy := hvb.drop d
  intro i hi
  rw [compare_and_count] at hi
  by_cases hne : a.cache ≠ b.cache
  · rw [if_pos hne] at hi
    dsimp only at hi
    have hxc : a.cache < 2 ^ 64 := by
      rw [hca]
      exact load_window_lt a.ptr d hva
    have hyc : b.cache < 2 ^ 64 := by
      rw [hcb]
      exact load_window_lt b.ptr d hvb
    have hspec := clz64_spec hxc hyc hne
    have hwb := hspec.2.1 i hi
    have hia : i < 8 := by
      have := hspec.1
      omega
    rw [hca, load_window_eq_padVal, winByte_padVal hvx hia] at hwb
    rw [hcb, load_window_eq_padVal, winByte_padVal hvy hia] at hwb
    rw [strByte_drop, strByte_drop] at hwb
    exact hwb
  · rw [if_neg hne] at hi
    dsimp only at hi
    push_neg at hne
    have htake : (a.ptr.drop d).take 8 = (b.ptr.drop d).take 8 := by
      apply (padVal_eq_iff hvx hvy 8).mp
      rw [← load_window_eq_padVal, ← load_window_eq_padVal, ← hca, ← hcb]
      exact hne
    by_cases hi8 : i < 8
    · have h := getD_eq_of_take_eq htake hi8 (0 : Nat)
      rw [getD_drop, getD_drop] at h
      exact h
    · have hk : i - 8 < scanMatch (a.ptr.drop (d + 8)) (b.ptr.drop (d + 8)) := by omega
      have h := scanMatch_agrees _ _ (i - 8) hk
      rw [getD_drop, getD_drop] at h
      have hidx : d + 8 + (i - 8) = d + i := by omega
      rw [hidx] at h
      exact h

/-- Refreshing a valid string's cache at `nd` yields a valid item at `nd`. -/
theorem ValidItem.refresh {it : StringItem} (h : ValidStr it.ptr) (nd : Nat) :
    ValidItem (it.refresh_cache nd) nd :=
  ⟨h, rfl⟩

/-! ## Scan characterisations for the cached partition loop -/

/-- The item stored at (C `int`) index `t`. -/
def itemAt (l : List StringItem) (t : Int) : StringItem := l.getD t.toNat default

theorem scanLeft_stopped (l : List StringItem) (pivot : StringItem) (depth : Nat)
    (i j : Int) (minc : Nat) :
    (scanLeft l pivot depth i j minc).1 ≤ j →
    0 ≤ (compare_and_count (itemAt l (scanLeft l pivot depth i j minc).1) pivot depth).1 := by
  induction i, j, minc using scanLeft.induct l pivot depth with
  | case1 i j minc h hr =>
    rw [scanLeft, if_pos h, if_pos hr]
    intro _
    exact hr
  | case2 i j minc h hr ih =>
    rw [scanLeft, if_pos h, if_neg hr]
    exact ih
  | case3 i j minc h =>
    rw [scanLeft, if_neg h]
    intro ht
    omega

theorem scanLeft_passed (l : List StringItem) (pivot : StringItem) (depth : Nat)
    (i j : Int) (minc : Nat) :
    ∀ t, i ≤ t → t < (scanLeft l pivot depth i j minc).1 →
    (compare_and_count (itemAt l t) pivot depth).1 < 0 := by
  induction i, j, minc using scanLeft.induct l pivot depth with
  | case1 i j minc h hr =>
    rw [scanLeft, if_pos h, if_pos hr]
    intro t h1 h2
    omega
  | case2 i j minc h hr ih =>
    rw [scanLeft, if_pos h, if_neg hr]
    intro t h1 h2
    rcases eq_or_lt_of_le h1 with rfl | hlt
    · exact lt_of_not_ge hr
    · exact ih t (by omega) h2
  | case3 i j minc h =>
    rw [scanLeft, if_neg h]
    intro t h1 h2
    omega

theorem scanLeft_fst_ub (l : List StringItem) (pivot : StringItem) (depth : Nat)
    (i j : Int) (minc : Nat) :
    (scanLeft l pivot depth i j minc).1 ≤ max i (j + 1) := by
  induction i, j, minc using scanLeft.induct l pivot depth with
  | case1 i j minc h hr =>
    rw [scanLeft, if_pos h, if_pos hr]
    simp
  | case2 i j minc h hr ih =>
    rw [scanLeft, if_pos h, if_neg hr]
    simp only [le_max_iff] at ih ⊢
    omega
  | case3 i j minc h =>
    rw [scanLeft, if_neg h]
    simp

theorem scanLeft_snd_le (l : List StringItem) (pivot : StringItem) (depth : Nat)
    (i j : Int) (minc : Nat) : (scanLeft l pivot depth i j minc).2 ≤ minc := by
  induction i, j, minc using scanLeft.induct l pivot depth with
  | case1 i j minc h hr =>
    rw [scanLeft, if_pos h, if_pos hr]
    simp
  | case2 i j minc h hr ih =>
    rw [scanLeft, if_pos h, if_neg hr]
    omega
  | case3 i j minc h =>
    rw [scanLeft, if_neg h]

theorem scanLeft_snd_le_compared (l : List StringItem) (pivot : StringItem)
    (depth : Nat) (i j : Int) (minc : Nat) :
    ∀ t, i ≤ t → t ≤ j → t ≤ (scanLeft l pivot depth i j minc).1 →
    (scanLeft l pivot depth i j minc).2
      ≤ (compare_and_count (itemAt l t) pivot depth).2 := by
  induction i, j, minc using scanLeft.induct l pivot depth with
  | case1 i j minc h hr =>
    rw [scanLeft, if_pos h, if_pos hr]
    intro t h1 h2 h3
    have : t = i := by omega
    subst this
    simp [itemAt]
  | case2 i j minc h hr ih =>
    rw [scanLeft, if_pos h, if_neg hr]
    intro t h1 h2 h3
    rcases eq_or_lt_of_le h1 with rfl | hlt
    · have := scanLeft_snd_le l pivot depth (i + 1) j
        (min minc (compare_and_count (l.getD i.toNat default) pivot depth).2)
      simp only [itemAt]
      omega
    · exact ih t (by omega) h2 h3
  | case3 i j minc h =>
    rw [scanLeft, if_neg h]
    intro t h1 h2 h3
    omega

theorem scanRight_stopped (l : List StringItem) (pivot : StringItem) (depth : Nat)
    (i j : Int) (minc : Nat) :
    i ≤ (scanRight l pivot depth i j minc).1 →
    (compare_and_count (itemAt l (scanRight l pivot depth i j minc).1) pivot depth).1
      ≤ 0 := by
  induction j, minc using scanRight.induct l pivot depth i with
  | case1 j minc h hr =>
    rw [scanRight, if_pos h, if_pos hr]
    intro _
    exact hr
  | case2 j minc h hr ih =>
    rw [scanRight, if_pos h, if_neg hr]
    exact ih
  | case3 j minc h =>
    rw [scanRight, if_neg h]
    intro ht
    omega

theorem scanRight_passed (l : List StringItem) (pivot : StringItem) (depth : Nat)
    (i j : Int) (minc : Nat) :
    ∀ t, (scanRight l pivot depth i j minc).1 < t → t ≤ j →
    0 < (compare_and_count (itemAt l t) pivot depth).1 := by
  induction j, minc using scanRight.induct l pivot depth i with
  | case1 j minc h hr =>
    rw [scanRight, if_pos h, if_pos hr]
    intro t h1 h2
    omega
  | case2 j minc h hr ih =>
    rw [scanRight, if_pos h, if_neg hr]
    intro t h1 h2
    rcases eq_or_lt_of_le h2 with rfl | hlt
    · exact lt_of_not_ge hr
    · exact ih t h1 (by omega)
  | case3 j minc h =>
    rw [scanRight, if_neg h]
    intro t h1 h2
    omega

theorem scanRight_snd_le (l : List StringItem) (pivot : StringItem) (depth : Nat)
    (i j : Int) (minc : Nat) : (scanRight l pivot depth i j minc).2 ≤ minc := by
  induction j, minc using scanRight.induct l pivot depth i with
  | case1 j minc h hr =>
    rw [scanRight, if_pos h, if_pos hr]
    simp
  | case2 j minc h hr ih =>
    rw [scanRight, if_pos h, if_neg hr]
    omega
  | case3 j minc h =>
    rw [scanRight, if_neg h]

theorem scanRight_snd_le_compared (l : List StringItem) (pivot : StringItem)
    (depth : Nat) (i j : Int) (minc : Nat) :
    ∀ t, i ≤ t → t ≤ j → (scanRight l pivot depth i j minc).1 ≤ t →
    (scanRight l pivot depth i j minc).2
      ≤ (compare_and_count (itemAt l t) pivot depth).2 := by
  induction j, minc using scanRight.induct l pivot depth i with
  | case1 j minc h hr =>
    rw [scanRight, if_pos h, if_pos hr]
    intro t h1 h2 h3
    have : t = j := by omega
    subst this
    simp [itemAt]
  | case2 j minc h hr ih =>
    rw [scanRight, if_pos h, if_neg hr]
    intro t h1 h2 h3
    rcases eq_or_lt_of_le h2 with rfl | hlt
    · have := scanRight_snd_le l pivot depth i (t - 1)
        (min minc (compare_and_count (l.getD t.toNat default) pivot depth).2)
      simp only [itemAt]
      omega
    · exact ih t h1 (by omega) h3
  | case3 j minc h =>
    rw [scanRight, if_neg h]
    intro t h1 h2 h3
    omega

/-! ## Swap lemmas -/

theorem length_listSwap (l : List α) (i j : Nat) (d : α) :
    (listSwap l i j d).length = l.length := by
  simp [listSwap]

theorem getD_set_eq_ite (l : List α) (i t : Nat) (a d : α) :
    (l.set i a).getD t d = if i = t ∧ i < l.length then a else l.getD t d := by
  simp only [List.getD_eq_getElem?_getD, List.getElem?_set]
  by_cases h1 : i = t
  · subst h1
    by_cases h2 : i < l.length
    · simp [h2]
    · simp only [h2, if_neg, if_false, and_false, if_neg (by omega : ¬(i = i ∧ i < l.length))]
      rw [List.getElem?_eq_none (by omega)]
      rfl
  · simp [h1]

theorem getD_listSwap (l : List α) (i j t : Nat) (d : α) (hi : i < l.length)
    (hj : j < l.length) :
    (listSwap l i j d).getD t d =
      if j = t then l.getD i d else if i = t then l.getD j d else l.getD t d := by
  rw [listSwap, getD_set_eq_ite, getD_set_eq_ite]
  simp only [List.length_set]
  by_cases h1 : j = t
  · rw [if_pos ⟨h1, hj⟩, if_pos h1]
  · rw [if_neg (fun hc => h1 hc.1)]
    by_cases h2 : i = t
    · rw [if_pos ⟨h2, hi⟩, if_neg h1, if_pos h2]
    · rw [if_neg (fun hc => h2 hc.1), if_neg h1, if_neg h2]

theorem cons_set_perm (d : α) : ∀ (xs : List α) (t : Nat) (x : α), t < xs.length →
    (xs.getD t d :: xs.set t x).Perm (x :: xs) := by
  intro xs
  induction xs with
  | nil =>
    intro t x ht
    simp at ht
  | cons y ys ih =>
    intro t x ht
    cases t with
    | zero =>
      simp only [List.getD_cons_zero, List.set_cons_zero]
      exact List.Perm.swap x y ys
    | succ t =>
      simp only [List.getD_cons_succ, List.set_cons_succ]
      refine List.Perm.trans (List.Perm.swap y (ys.getD t d) (ys.set t x)) ?_
      refine List.Perm.trans (List.Perm.cons y (ih t x (by simpa using ht))) ?_
      exact List.Perm.swap x y ys

theorem listSwap_perm (d : α) : ∀ (l : List α) (i j : Nat), i < l.length →
    j < l.length → (listSwap l i j d).Perm l := by
  intro l
  induction l with
  | nil =>
    intro i j hi _
    simp at hi
  | cons x xs ih =>
    intro i j hi hj
    cases i with
    | zero =>
      cases j with
      | zero =>
        simp [listSwap]
      | succ t =>
        have ht : t < xs.length := by simpa using hj
        simp only [listSwap, List.getD_cons_succ, List.getD_cons_zero,
          List.set_cons_zero, List.set_cons_succ]
        exact cons_set_perm d xs t x ht
    | succ s =>
      cases j with
      | zero =>
        have hs : s < xs.length := by simpa using hi
        simp only [listSwap, List.getD_cons_zero, List.getD_cons_succ,
          List.set_cons_succ, List.set_cons_zero]
        exact cons_set_perm d xs s x hs
      | succ t =>
        have hs : s < xs.length := by simpa using hi
        have ht : t < xs.length := by simpa using hj
        simp only [listSwap, List.getD_cons_succ, List.set_cons_succ]
        exact ((show (listSwap xs s t d).Perm xs from ih s t hs ht)).cons x

theorem swap_items_eq (l : List StringItem) (i j : Nat) :
    swap_items l i j = listSwap l i j default := rfl

theorem length_swap_items (l : List StringItem) (i j : Nat) :
    (swap_items l i j).length = l.length :=
  length_listSwap l i j default

theorem swap_items_perm (l : List StringItem) (i j : Nat) (hi : i < l.length)
    (hj : j < l.length) : (swap_items l i j).Perm l :=
  listSwap_perm default l i j hi hj

theorem itemAt_swap_items (l : List StringItem) (p q t : Int)
    (hpl : p.toNat < l.length) (hql : q.toNat < l.length)
    (hp : 0 ≤ p) (hq : 0 ≤ q) (ht : 0 ≤ t) :
    itemAt (swap_items l p.toNat q.toNat) t =
      if q = t then itemAt l p else if p = t then itemAt l q else itemAt l t := by
  rw [itemAt, swap_items_eq, getD_listSwap _ _ _ _ _ hpl hql]
  by_cases h1 : q = t
  · rw [if_pos (by omega : q.toNat = t.toNat), if_pos h1]
    rfl
  · rw [if_neg (by omega : ¬q.toNat = t.toNat), if_neg h1]
    by_cases h2 : p = t
    · rw [if_pos (by omega : p.toNat = t.toNat), if_pos h2]
      rfl
    · rw [if_neg (by omega : ¬p.toNat = t.toNat), if_neg h2]
      rfl

/-! ## The cached partition loop: full specification -/

theorem scanTwo_fst_le (l : List StringItem) (pivot : StringItem) (depth : Nat)
    (i j : Int) (minc : Nat) : (scanTwo l pivot depth i j minc).1 ≤ j :=
  scanRight_fst_le l pivot depth _ j _

theorem scanTwo_ge (l : List StringItem) (pivot : StringItem) (depth : Nat)
    (i j : Int) (minc : Nat) :
    min ((scanLeft l pivot depth i j minc).1 - 1) j ≤ (scanTwo l pivot depth i j minc).1 :=
  scanRight_ge_fst l pivot depth _ j _

theorem scanTwo_stopped (l : List StringItem) (pivot : StringItem) (depth : Nat)
    (i j : Int) (minc : Nat) :
    (scanLeft l pivot depth i j minc).1 ≤ (scanTwo l pivot depth i j minc).1 →
    (compare_and_count (itemAt l (scanTwo l pivot depth i j minc).1) pivot depth).1 ≤ 0 :=
  scanRight_stopped l pivot depth _ j _

theorem scanTwo_passed (l : List StringItem) (pivot : StringItem) (depth : Nat)
    (i j : Int) (minc : Nat) :
    ∀ t, (scanTwo l pivot depth i j minc).1 < t → t ≤ j →
    0 < (compare_and_count (itemAt l t) pivot depth).1 :=
  scanRight_passed l pivot depth _ j _

theorem scanTwo_snd_le (l : List StringItem) (pivot : StringItem) (depth : Nat)
    (i j : Int) (minc : Nat) :
    (scanTwo l pivot depth i j minc).2 ≤ (scanLeft l pivot depth i j minc).2 :=
  scanRight_snd_le l pivot depth _ j _

theorem scanTwo_snd_le_compared (l : List StringItem) (pivot : StringItem)
    (depth : Nat) (i j : Int) (minc : Nat) :
    ∀ t, (scanLeft l pivot depth i j minc).1 ≤ t → t ≤ j →
    (scanTwo l pivot depth i j minc).1 ≤ t →
    (scanTwo l pivot depth i j minc).2 ≤ (compare_and_count (itemAt l t) pivot depth).2 :=
  scanRight_snd_le_compared l pivot depth _ j _

/-- Full functional specification of the partition loop: it permutes the
array touching only `[i, j]`, its final `j` splits the range with
everything left of it comparing `≤ 0` against the pivot and everything
right of it comparing `≥ 0`, and its final minimum bounds (through the
comparator's `match_len` soundness, supplied as the last hypothesis) the
byte agreement with the pivot of every element of `[low + 1, high]`. -/
theorem partitionLoop_spec (low high : Int) (l : List StringItem) (pivot : StringItem)
    (depth : Nat) (i j : Int) (minc : Nat) :
    0 ≤ low → high < (l.length : Int) →
    low + 1 ≤ i → i ≤ j + 2 → j ≤ high →
    (∀ t : Int, low + 1 ≤ t → t < i →
      (compare_and_count (itemAt l t) pivot depth).1 ≤ 0) →
    (∀ t : Int, j < t → t ≤ high →
      0 ≤ (compare_and_count (itemAt l t) pivot depth).1) →
    (∀ t : Int, low + 1 ≤ t → t ≤ high → (t < i ∨ j < t) →
      ∀ s < minc, strByte (itemAt l t).ptr (depth + s) = strByte pivot.ptr (depth + s)) →
    (∀ t : Int, low + 1 ≤ t → t ≤ high →
      ∀ s < (compare_and_count (itemAt l t) pivot depth).2,
        strByte (itemAt l t).ptr (depth + s) = strByte pivot.ptr (depth + s)) →
    (partitionLoop l pivot depth i j minc).1.length = l.length ∧
    (partitionLoop l pivot depth i j minc).1.Perm l ∧
    (∀ t : Int, (t < i ∨ j < t) →
      itemAt (partitionLoop l pivot depth i j minc).1 t = itemAt l t) ∧
    min (i - 1) j ≤ (partitionLoop l pivot depth i j minc).2.1 ∧
    (partitionLoop l pivot depth i j minc).2.1 ≤ j ∧
    (∀ t : Int, low + 1 ≤ t → t ≤ (partitionLoop l pivot depth i j minc).2.1 →
      (compare_and_count (itemAt (partitionLoop l pivot depth i j minc).1 t)
        pivot depth).1 ≤ 0) ∧
    (∀ t : Int, (partitionLoop l pivot depth i j minc).2.1 < t → t ≤ high →
      0 ≤ (compare_and_count (itemAt (partitionLoop l pivot depth i j minc).1 t)
        pivot depth).1) ∧
    (∀ t : Int, low + 1 ≤ t → t ≤ high →
      ∀ s < (partitionLoop l pivot depth i j minc).2.2,
        strByte (itemAt (partitionLoop l pivot depth i j minc).1 t).ptr (depth + s)
          = strByte pivot.ptr (depth + s)) ∧
    (partitionLoop l pivot depth i j minc).2.2 ≤ minc ∧
    (∀ t : Int, low + 1 ≤ t → t ≤ high → ∃ u : Int, low + 1 ≤ u ∧ u ≤ high ∧
      itemAt (partitionLoop l pivot depth i j minc).1 t = itemAt l u) := by
  induction l, pivot, depth, i, j, minc using partitionLoop.induct with
  | case1 l pivot depth i j minc hij ih =>
    intro hlow hlen h0 h2 hjh hB hC hF hml
    have hI1 := scanLeft_le_fst l pivot depth i j minc
    have hJ1le := scanTwo_fst_le l pivot depth i j minc
    have hM1le := scanLeft_snd_le l pivot depth i j minc
    have hM2le := scanTwo_snd_le l pivot depth i j minc
    have hIJ : (scanLeft l pivot depth i j minc).1 ≤ (scanTwo l pivot depth i j minc).1 :=
      hij
    have hbI : 0 ≤ (scanLeft l pivot depth i j minc).1 := by omega
    have hbJ : 0 ≤ (scanTwo l pivot depth i j minc).1 := by omega
    have hbIl : (scanLeft l pivot depth i j minc).1.toNat < l.length := by omega
    have hbJl : (scanTwo l pivot depth i j minc).1.toNat < l.length := by omega
    have hswap : ∀ t : Int, itemAt (swap_items l
        (scanLeft l pivot depth i j minc).1.toNat
        (scanTwo l pivot depth i j minc).1.toNat) t =
        if (scanTwo l pivot depth i j minc).1 = t
          then itemAt l (scanLeft l pivot depth i j minc).1
          else if (scanLeft l pivot depth i j minc).1 = t
            then itemAt l (scanTwo l pivot depth i j minc).1
            else itemAt l t := by
      intro t
      by_cases ht : 0 ≤ t
      · exact itemAt_swap_items l _ _ t hbIl hbJl hbI hbJ ht
      · rw [if_neg (by omega), if_neg (by omega)]
        have h1 : t.toNat = 0 := by omega
        rw [itemAt, itemAt, h1]
        have h2 : ¬((scanTwo l pivot depth i j minc).1 = t) := by omega
        have h3 : ¬((scanLeft l pivot depth i j minc).1 = t) := by omega
        rw [swap_items_eq, getD_listSwap _ _ _ _ _ hbIl hbJl]
        rw [if_neg (by omega), if_neg (by omega)]
    have hlen' : high < ((swap_items l (scanLeft l pivot depth i j minc).1.toNat
        (scanTwo l pivot depth i j minc).1.toNat).length : Int) := by
      rw [length_swap_items]
      exact hlen
    -- the reestablished invariants for the recursive call
    have hB' : ∀ t : Int, low + 1 ≤ t → t < (scanLeft l pivot depth i j minc).1 + 1 →
        (compare_and_count (itemAt (swap_items l
          (scanLeft l pivot depth i j minc).1.toNat
          (scanTwo l pivot depth i j minc).1.toNat) t) pivot depth).1 ≤ 0 := by
      intro t h1 h3
      rw [hswap t]
      by_cases hq : (scanTwo l pivot depth i j minc).1 = t
      · rw [if_pos hq]
        have hEq : (scanLeft l pivot depth i j minc).1
            = (scanTwo l pivot depth i j minc).1 := by omega
        rw [hEq]
        exact scanTwo_stopped l pivot depth i j minc hij
      · rw [if_neg hq]
        by_cases hp : (scanLeft l pivot depth i j minc).1 = t
        · rw [if_pos hp]
          exact scanTwo_stopped l pivot depth i j minc hij
        · rw [if_neg hp]
          by_cases hti : t < i
          · exact hB t h1 hti
          · have := scanLeft_passed l pivot depth i j minc t (by omega) (by omega)
            omega
    have hC' : ∀ t : Int, (scanTwo l pivot depth i j minc).1 - 1 < t → t ≤ high →
        0 ≤ (compare_and_count (itemAt (swap_items l
          (scanLeft l pivot depth i j minc).1.toNat
          (scanTwo l pivot depth i j minc).1.toNat) t) pivot depth).1 := by
      intro t h1 h3
      rw [hswap t]
      by_cases hq : (scanTwo l pivot depth i j minc).1 = t
      · rw [if_pos hq]
        have := scanLeft_stopped l pivot depth i j minc (by omega)
        exact this
      · rw [if_neg hq]
        by_cases hp : (scanLeft l pivot depth i j minc).1 = t
        · rw [if_pos hp]
          have := scanTwo_stopped l pivot depth i j minc hij
          omega
        · rw [if_neg hp]
          by_cases htj : j < t
          · exact hC t htj h3
          · have := scanTwo_passed l pivot depth i j minc t (by omega) (by omega)
            omega
    have hF' : ∀ t : Int, low + 1 ≤ t → t ≤ high →
        (t < (scanLeft l pivot depth i j minc).1 + 1 ∨
          (scanTwo l pivot depth i j minc).1 - 1 < t) →
        ∀ s < (scanTwo l pivot depth i j minc).2,
        strByte (itemAt (swap_items l (scanLeft l pivot depth i j minc).1.toNat
          (scanTwo l pivot depth i j minc).1.toNat) t).ptr (depth + s)
          = strByte pivot.ptr (depth + s) := by
      intro t h1 h3 hside s hs
      rw [hswap t]
      by_cases hq : (scanTwo l pivot depth i j minc).1 = t
      · rw [if_pos hq]
        have hcmp := scanLeft_snd_le_compared l pivot depth i j minc
          (scanLeft l pivot depth i j minc).1 hI1 (by omega) le_rfl
        exact hml (scanLeft l pivot depth i j minc).1 (by omega) (by omega) s (by omega)
      · rw [if_neg hq]
        by_cases hp : (scanLeft l pivot depth i j minc).1 = t
        · rw [if_pos hp]
          have hcmp := scanTwo_snd_le_compared l pivot depth i j minc
            (scanTwo l pivot depth i j minc).1 hij (by omega) le_rfl
          exact hml (scanTwo l pivot depth i j minc).1 (by omega) (by omega) s (by omega)
        · rw [if_neg hp]
          by_cases hti : t < i
          · exact hF t h1 h3 (Or.inl hti) s (by omega)
          · by_cases htj : j < t
            · exact hF t h1 h3 (Or.inr htj) s (by omega)
            · by_cases htI : t < (scanLeft l pivot depth i j minc).1
              · have hcmp := scanLeft_snd_le_compared l pivot depth i j minc t
                  (by omega) (by omega) (by omega)
                exact hml t (by omega) (by omega) s (by omega)
              · have hcmp := scanTwo_snd_le_compared l pivot depth i j minc t
                  (by omega) (by omega) (by omega)
                exact hml t (by omega) (by omega) s (by omega)
    have hml' : ∀ t : Int, low + 1 ≤ t → t ≤ high →
        ∀ s < (compare_and_count (itemAt (swap_items l
          (scanLeft l pivot depth i j minc).1.toNat
          (scanTwo l pivot depth i j minc).1.toNat) t) pivot depth).2,
        strByte (itemAt (swap_items l (scanLeft l pivot depth i j minc).1.toNat
          (scanTwo l pivot depth i j minc).1.toNat) t).ptr (depth + s)
          = strByte pivot.ptr (depth + s) := by
      intro t h1 h3
      rw [hswap t]
      by_cases hq : (scanTwo l pivot depth i j minc).1 = t
      · rw [if_pos hq]
        exact hml (scanLeft l pivot depth i j minc).1 (by omega) (by omega)
      · rw [if_neg hq]
        by_cases hp : (scanLeft l pivot depth i j minc).1 = t
        · rw [if_pos hp]
          exact hml (scanTwo l pivot depth i j minc).1 (by omega) (by omega)
        · rw [if_neg hp]
          exact hml t h1 h3
    have hrec := ih hlow hlen' (by omega) (by omega) (by omega) hB' hC' hF' hml'
    rw [partitionLoop, if_pos hij]
    obtain ⟨r1, r2, r3, r4, r5, r6, r7, r8, r9, r10⟩ := hrec
    refine ⟨?_, ?_, ?_, ?_, ?_, ?_, ?_, ?_, ?_, ?_⟩
    · rw [r1, length_swap_items]
    · exact r2.trans (swap_items_perm l _ _ hbIl hbJl)
    · intro t hside
      rw [r3 t (by omega), hswap t]
      rw [if_neg (by omega), if_neg (by omega)]
    · omega
    · omega
    · exact r6
    · exact r7
    · exact r8
    · omega
    · intro t ht1 ht2
      obtain ⟨u, hu1, hu2, hu3⟩ := r10 t ht1 ht2
      rw [hu3, hswap u]
      by_cases hq : (scanTwo l pivot depth i j minc).1 = u
      · rw [if_pos hq]
        exact ⟨(scanLeft l pivot depth i j minc).1, by omega, by omega, rfl⟩
      · rw [if_neg hq]
        by_cases hp : (scanLeft l pivot depth i j minc).1 = u
        · rw [if_pos hp]
          exact ⟨(scanTwo l pivot depth i j minc).1, by omega, by omega, rfl⟩
        · rw [if_neg hp]
          exact ⟨u, hu1, hu2, rfl⟩
  | case2 l pivot depth i j minc hij =>
    intro hlow hlen h0 h2 hjh hB hC hF hml
    have hI1 := scanLeft_le_fst l pivot depth i j minc
    have hI1ub := scanLeft_fst_ub l pivot depth i j minc
    have hJ1le := scanTwo_fst_le l pivot depth i j minc
    have hJ1ge := scanTwo_ge l pivot depth i j minc
    have hM1le := scanLeft_snd_le l pivot depth i j minc
    have hM2le := scanTwo_snd_le l pivot depth i j minc
    rw [partitionLoop, if_neg hij]
    dsimp only
    refine ⟨rfl, List.Perm.refl l, fun t _ => rfl, ?_, ?_, ?_, ?_, ?_, ?_,
      fun t ht1 ht2 => ⟨t, ht1, ht2, rfl⟩⟩
    · simp only [le_max_iff] at hI1ub
      omega
    · exact hJ1le
    · intro t h1 h3
      by_cases hti : t < i
      · exact hB t h1 hti
      · have := scanLeft_passed l pivot depth i j minc t (by omega) (by omega)
        omega
    · intro t h1 h3
      by_cases htj : j < t
      · exact hC t htj h3
      · have := scanTwo_passed l pivot depth i j minc t (by omega) (by omega)
        omega
    · intro t h1 h3 s hs
      by_cases hti : t < i
      · exact hF t h1 h3 (Or.inl hti) s (by omega)
      · by_cases htj : j < t
        · exact hF t h1 h3 (Or.inr htj) s (by omega)
        · by_cases htI : t ≤ (scanLeft l pivot depth i j minc).1
          · have hcmp := scanLeft_snd_le_compared l pivot depth i j minc t
              (by omega) (by omega) (by omega)
            exact hml t (by omega) (by omega) s (by omega)
          · have hcmp := scanTwo_snd_le_compared l pivot depth i j minc t
              (by omega) (by omega) (by omega)
            exact hml t (by omega) (by omega) s (by omega)
    · omega

/-! ## Refresh-range and order-lifting lemmas -/

theorem length_refreshRange (l : List StringItem) (a b : Int) (nd : Nat) :
    (refreshRange l a b nd).length = l.length :=
  List.length_mapIdx

theorem ptr_refreshRange (l : List StringItem) (a b : Int) (nd : Nat) (t : Int) :
    (itemAt (refreshRange l a b nd) t).ptr = (itemAt l t).ptr := by
  rw [itemAt, itemAt, List.getD_eq_getElem?_getD, List.getD_eq_getElem?_getD,
    refreshRange, List.getElem?_mapIdx]
  cases h : l[t.toNat]? with
  | none => rfl
  | some it =>
    simp only [Option.map_some', Option.getD_some]
    split <;> rfl

theorem map_ptr_refreshRange (l : List StringItem) (a b : Int) (nd : Nat) :
    (refreshRange l a b nd).map StringItem.ptr = l.map StringItem.ptr := by
  apply List.ext_getElem?
  intro i
  rw [List.getElem?_map, List.getElem?_map, refreshRange, List.getElem?_mapIdx]
  cases h : l[i]? with
  | none => rfl
  | some it =>
    simp only [Option.map_some']
    congr 1
    split <;> rfl

theorem itemAt_refreshRange_in (l : List StringItem) (a b : Int) (nd : Nat) (t : Int)
    (h1 : a ≤ t) (h2 : t ≤ b) (h0 : 0 ≤ a) (hlen : t < (l.length : Int)) :
    itemAt (refreshRange l a b nd) t = (itemAt l t).refresh_cache nd := by
  have hl : t.toNat < l.length := by omega
  rw [itemAt, itemAt, List.getD_eq_getElem?_getD, List.getD_eq_getElem?_getD,
    refreshRange, List.getElem?_mapIdx, List.getElem?_eq_getElem hl]
  simp only [Option.map_some', Option.getD_some]
  have hcond : a ≤ ((t.toNat : Int)) ∧ ((t.toNat : Int)) ≤ b := by omega
  rw [if_pos hcond]

theorem itemAt_refreshRange_out (l : List StringItem) (a b : Int) (nd : Nat) (t : Int)
    (h0 : 0 ≤ t) (h : t < a ∨ b < t) :
    itemAt (refreshRange l a b nd) t = itemAt l t := by
  rw [itemAt, itemAt, List.getD_eq_getElem?_getD, List.getD_eq_getElem?_getD,
    refreshRange, List.getElem?_mapIdx]
  cases hh : l[t.toNat]? with
  | none => rfl
  | some it =>
    simp only [Option.map_some', Option.getD_some]
    have hcond : ¬(a ≤ ((t.toNat : Int)) ∧ ((t.toNat : Int)) ≤ b) := by omega
    rw [if_neg hcond]

theorem length_prepRange (l : List StringItem) (a b : Int) (depth nd : Nat) :
    (prepRange l a b depth nd).length = l.length := by
  rw [prepRange]
  split
  · exact length_refreshRange l a b nd
  · rfl

theorem ptr_prepRange (l : List StringItem) (a b : Int) (depth nd : Nat) (t : Int) :
    (itemAt (prepRange l a b depth nd) t).ptr = (itemAt l t).ptr := by
  rw [prepRange]
  split
  · exact ptr_refreshRange l a b nd t
  · rfl

theorem map_ptr_prepRange (l : List StringItem) (a b : Int) (depth nd : Nat) :
    (prepRange l a b depth nd).map StringItem.ptr = l.map StringItem.ptr := by
  rw [prepRange]
  split
  · exact map_ptr_refreshRange l a b nd
  · rfl

theorem itemAt_prepRange_out (l : List StringItem) (a b : Int) (depth nd : Nat)
    (t : Int) (h0 : 0 ≤ t) (h : t < a ∨ b < t) :
    itemAt (prepRange l a b depth nd) t = itemAt l t := by
  rw [prepRange]
  split
  · exact itemAt_refreshRange_out l a b nd t h0 h
  · rfl

theorem cache_prepRange_in (l : List StringItem) (a b : Int) (depth nd : Nat) (t : Int)
    (h1 : a ≤ t) (h2 : t ≤ b) (h0 : 0 ≤ a) (hlen : t < (l.length : Int))
    (hdep : depth ≤ nd)
    (hc : (itemAt l t).cache = load_window (itemAt l t).ptr depth) :
    (itemAt (prepRange l a b depth nd) t).cache
      = load_window (itemAt (prepRange l a b depth nd) t).ptr nd := by
  rw [prepRange]
  split
  · rw [itemAt_refreshRange_in l a b nd t h1 h2 h0 hlen]
    rfl
  · rename_i hnd
    have : nd = depth := by omega
    rw [this]
    exact hc

theorem strBytes_agree_cases {x y : List Nat} (hx : ValidStr x) (hy : ValidStr y)
    (d : Nat) (h : ∀ s < d, strByte x s = strByte y s) :
    x.take d = y.take d ∨ x = y := by
  induction d generalizing x y with
  | zero => simp
  | succ d ih =>
    cases x with
    | nil =>
      cases y with
      | nil => exact Or.inr rfl
      | cons c cs =>
        have hc := hy.head
        have := h 0 (by omega)
        simp [strByte] at this
        omega
    | cons b bs =>
      cases y with
      | nil =>
        have hb := hx.head
        have := h 0 (by omega)
        simp [strByte] at this
        omega
      | cons c cs =>
        have hbc : b = c := by
          have := h 0 (by omega)
          simpa [strByte] using this
        have htl : ∀ s < d, strByte bs s = strByte cs s := by
          intro s hs
          have := h (s + 1) (by omega)
          simpa [strByte] using this
        rcases ih hx.tail hy.tail htl with hto | hto
        · left
          simp [hbc, hto]
        · right
          simp [hbc, hto]

theorem strcmpBytes_le_lift {x y : List Nat} (hx : ValidStr x) (hy : ValidStr y)
    (d : Nat) (hag : ∀ s < d, strByte x s = strByte y s)
    (h : strcmpBytes (x.drop d) (y.drop d) ≤ 0) : strcmpBytes x y ≤ 0 := by
  rcases strBytes_agree_cases hx hy d hag with hto | hto
  · rw [strcmpBytes_drop_of_take_eq hx hy d hto]
    exact h
  · rw [hto, strcmpBytes_self]

theorem strcmpBytes_nonpos_iff {x y : List Nat} (hx : ValidStr x) (hy : ValidStr y) :
    strcmpBytes x y ≤ 0 ↔ x ≤ y := by
  constructor
  · intro h
    rcases lt_or_eq_of_le h with hlt | heq
    · exact le_of_lt ((strcmpBytes_lt_iff_lex hx hy).mp hlt)
    · exact le_of_eq ((strcmpBytes_eq_zero_iff hx hy).mp heq)
  · intro h
    rcases lt_or_eq_of_le h with hlt | heq
    · exact le_of_lt ((strcmpBytes_lt_iff_lex hx hy).mpr hlt)
    · rw [heq, strcmpBytes_self]

theorem strcmpBytes_trans {x y z : List Nat} (hx : ValidStr x) (hy : ValidStr y)
    (hz : ValidStr z) (h1 : strcmpBytes x y ≤ 0) (h2 : strcmpBytes y z ≤ 0) :
    strcmpBytes x z ≤ 0 :=
  (strcmpBytes_nonpos_iff hx hz).mpr
    (le_trans ((strcmpBytes_nonpos_iff hx hy).mp h1)
      ((strcmpBytes_nonpos_iff hy hz).mp h2))

/-! ## One full partition call of the cached sort -/

theorem resetSentinel_le (m : Nat) : resetSentinel m ≤ m := by
  rw [resetSentinel]
  split <;> omega

/-- Everything the recursive driver needs about one partition call
(pivot swap, loop, pivot restore) of the cached sort. -/
theorem partitionAt_spec (pidx : Int → Int → Int) (l : List StringItem)
    (low high : Int) (depth : Nat)
    (hpx : low ≤ pidx low high ∧ pidx low high ≤ high)
    (hlh : low < high) (hlow : 0 ≤ low) (hlen : high < (l.length : Int))
    (hP3 : ∀ t : Int, low ≤ t → t ≤ high → ValidStr (itemAt l t).ptr)
    (hP4 : ∀ t : Int, low ≤ t → t ≤ high →
      (itemAt l t).cache = load_window (itemAt l t).ptr depth)
    (hP5 : ∀ t u : Int, low ≤ t → t ≤ high → low ≤ u → u ≤ high →
      ∀ s < depth, strByte (itemAt l t).ptr s = strByte (itemAt l u).ptr s) :
    (pArr pidx l low high depth).length = l.length ∧
    (pArr pidx l low high depth).Perm l ∧
    (∀ t : Int, 0 ≤ t → (t < low ∨ high < t) →
      itemAt (pArr pidx l low high depth) t = itemAt l t) ∧
    (low ≤ pJ pidx l low high depth ∧ pJ pidx l low high depth ≤ high) ∧
    (∀ t : Int, low ≤ t → t ≤ high → ∃ u : Int, low ≤ u ∧ u ≤ high ∧
      itemAt (pArr pidx l low high depth) t = itemAt l u) ∧
    itemAt (pArr pidx l low high depth) (pJ pidx l low high depth)
      = itemAt l (pidx low high) ∧
    (∀ t : Int, low ≤ t → t ≤ pJ pidx l low high depth - 1 →
      strcmpBytes (itemAt (pArr pidx l low high depth) t).ptr
        (itemAt (pArr pidx l low high depth) (pJ pidx l low high depth)).ptr ≤ 0) ∧
    (∀ t : Int, pJ pidx l low high depth + 1 ≤ t → t ≤ high →
      strcmpBytes (itemAt (pArr pidx l low high depth) (pJ pidx l low high depth)).ptr
        (itemAt (pArr pidx l low high depth) t).ptr ≤ 0) ∧
    (∀ t : Int, low ≤ t → t ≤ high → t ≠ pJ pidx l low high depth →
      ∀ s < resetSentinel (partitionAt pidx l low high depth).2.2,
        strByte (itemAt (pArr pidx l low high depth) t).ptr (depth + s)
          = strByte (itemAt (pArr pidx l low high depth)
              (pJ pidx l low high depth)).ptr (depth + s)) := by
  have hpxl : (pidx low high).toNat < l.length := by omega
  have hlowl : low.toNat < l.length := by omega
  -- the array after the pivot swap, and the pivot itself
  have hswap0 : ∀ t : Int, 0 ≤ t →
      itemAt (swap_items l low.toNat (pidx low high).toNat) t =
      if pidx low high = t then itemAt l low
      else if low = t then itemAt l (pidx low high) else itemAt l t := by
    intro t ht
    exact itemAt_swap_items l low (pidx low high) t hlowl hpxl hlow (by omega) ht
  have hpiv : itemAt (swap_items l low.toNat (pidx low high).toNat) low
      = itemAt l (pidx low high) := by
    rw [hswap0 low hlow]
    by_cases hc : pidx low high = low
    · rw [if_pos hc, hc]
    · rw [if_neg hc, if_pos rfl]
  have hV1 : ∀ t : Int, low ≤ t → t ≤ high →
      ValidItem (itemAt (swap_items l low.toNat (pidx low high).toNat) t) depth := by
    intro t h1 h2
    rw [hswap0 t (by omega)]
    by_cases hc1 : pidx low high = t
    · rw [if_pos hc1]
      exact ⟨hP3 low le_rfl (by omega), hP4 low le_rfl (by omega)⟩
    · rw [if_neg hc1]
      by_cases hc2 : low = t
      · rw [if_pos hc2]
        exact ⟨hP3 _ hpx.1 hpx.2, hP4 _ hpx.1 hpx.2⟩
      · rw [if_neg hc2]
        exact ⟨hP3 t h1 h2, hP4 t h1 h2⟩
  have hlen1 : high < ((swap_items l low.toNat (pidx low high).toNat).length : Int) := by
    rw [length_swap_items]
    exact hlen
  have hpvI : ValidItem ((swap_items l low.toNat (pidx low high).toNat).getD
      low.toNat default) depth := hV1 low le_rfl (by omega)
  have hml : ∀ t : Int, low + 1 ≤ t → t ≤ high →
      ∀ s < (compare_and_count
        (itemAt (swap_items l low.toNat (pidx low high).toNat) t)
        ((swap_items l low.toNat (pidx low high).toNat).getD low.toNat default)
        depth).2,
      strByte (itemAt (swap_items l low.toNat (pidx low high).toNat) t).ptr (depth + s)
        = strByte ((swap_items l low.toNat (pidx low high).toNat).getD
            low.toNat default).ptr (depth + s) := by
    intro t h1 h2
    exact compare_and_count_matchLen (hV1 t (by omega) h2) hpvI
  have hspec := partitionLoop_spec low high
    (swap_items l low.toNat (pidx low high).toNat)
    ((swap_items l low.toNat (pidx low high).toNat).getD low.toNat default)
    depth (low + 1) high 2147483647 hlow hlen1 le_rfl (by omega) le_rfl
    (fun t h1 h2 => absurd h2 (by omega))
    (fun t h1 h2 => absurd h1 (by omega))
    (fun t h1 h2 hside => absurd hside (by omega))
    hml
  obtain ⟨r1, r2, r3, r4, r5, r6, r7, r8, r9, r10⟩ := hspec
  -- pJ, pArr in terms of the loop
  have hJdef : pJ pidx l low high depth =
      (partitionLoop (swap_items l low.toNat (pidx low high).toNat)
        ((swap_items l low.toNat (pidx low high).toNat).getD low.toNat default)
        depth (low + 1) high 2147483647).2.1 := rfl
  have hArr : pArr pidx l low high depth =
      swap_items (partitionLoop (swap_items l low.toNat (pidx low high).toNat)
        ((swap_items l low.toNat (pidx low high).toNat).getD low.toNat default)
        depth (low + 1) high 2147483647).1 low.toNat (pJ pidx l low high depth).toNat :=
    rfl
  have hJb : low ≤ pJ pidx l low high depth ∧ pJ pidx l low high depth ≤ high :=
    pJ_bounds pidx l low high depth hlh
  have hlen2 : (partitionLoop (swap_items l low.toNat (pidx low high).toNat)
      ((swap_items l low.toNat (pidx low high).toNat).getD low.toNat default)
      depth (low + 1) high 2147483647).1.length = l.length := by
    rw [r1, length_swap_items]
  have hlowl2 : low.toNat < (partitionLoop (swap_items l low.toNat
      (pidx low high).toNat)
      ((swap_items l low.toNat (pidx low high).toNat).getD low.toNat default)
      depth (low + 1) high 2147483647).1.length := by omega
  have hJl2 : (pJ pidx l low high depth).toNat < (partitionLoop (swap_items l low.toNat
      (pidx low high).toNat)
      ((swap_items l low.toNat (pidx low high).toNat).getD low.toNat default)
      depth (low + 1) high 2147483647).1.length := by omega
  have hswap2 : ∀ t : Int, 0 ≤ t → itemAt (pArr pidx l low high depth) t =
      if pJ pidx l low high depth = t then
        itemAt (partitionLoop (swap_items l low.toNat (pidx low high).toNat)
          ((swap_items l low.toNat (pidx low high).toNat).getD low.toNat default)
          depth (low + 1) high 2147483647).1 low
      else if low = t then
        itemAt (partitionLoop (swap_items l low.toNat (pidx low high).toNat)
          ((swap_items l low.toNat (pidx low high).toNat).getD low.toNat default)
          depth (low + 1) high 2147483647).1 (pJ pidx l low high depth)
      else itemAt (partitionLoop (swap_items l low.toNat (pidx low high).toNat)
          ((swap_items l low.toNat (pidx low high).toNat).getD low.toNat default)
          depth (low + 1) high 2147483647).1 t := by
    intro t ht
    rw [hArr]
    exact itemAt_swap_items _ _ _ t hlowl2 hJl2 hlow (by omega) ht
  -- the value sitting at position low after the loop is still the pivot
  have hlowval : itemAt (partitionLoop (swap_items l low.toNat (pidx low high).toNat)
      ((swap_items l low.toNat (pidx low high).toNat).getD low.toNat default)
      depth (low + 1) high 2147483647).1 low
      = itemAt l (pidx low high) := by
    rw [r3 low (by omega)]
    exact hpiv
  have hjfval : itemAt (pArr pidx l low high depth) (pJ pidx l low high depth)
      = itemAt l (pidx low high) := by
    rw [hswap2 _ (by omega), if_pos rfl]
    exact hlowval
  -- the pivot argument of the loop is itself the pivot item
  have hpivarg : (swap_items l low.toNat (pidx low high).toNat).getD low.toNat default
      = itemAt l (pidx low high) := hpiv
  -- the item-source mapping of pArr over [low, high]
  have hmap : ∀ t : Int, low ≤ t → t ≤ high → ∃ u : Int, low ≤ u ∧ u ≤ high ∧
      itemAt (pArr pidx l low high depth) t = itemAt l u := by
    intro t h1 h2
    have step2 : ∃ v : Int, low ≤ v ∧ v ≤ high ∧
        itemAt (pArr pidx l low high depth) t =
        itemAt (partitionLoop (swap_items l low.toNat (pidx low high).toNat)
          ((swap_items l low.toNat (pidx low high).toNat).getD low.toNat default)
          depth (low + 1) high 2147483647).1 v := by
      rw [hswap2 t (by omega)]
      by_cases hc1 : pJ pidx l low high depth = t
      · rw [if_pos hc1]
        exact ⟨low, le_rfl, by omega, rfl⟩
      · rw [if_neg hc1]
        by_cases hc2 : low = t
        · rw [if_pos hc2]
          exact ⟨pJ pidx l low high depth, hJb.1, hJb.2, rfl⟩
        · rw [if_neg hc2]
          exact ⟨t, h1, h2, rfl⟩
    obtain ⟨v, hv1, hv2, hv3⟩ := step2
    have step1 : ∃ w : Int, low ≤ w ∧ w ≤ high ∧
        itemAt (partitionLoop (swap_items l low.toNat (pidx low high).toNat)
          ((swap_items l low.toNat (pidx low high).toNat).getD low.toNat default)
          depth (low + 1) high 2147483647).1 v =
        itemAt (swap_items l low.toNat (pidx low high).toNat) w := by
      by_cases hcv : low + 1 ≤ v
      · obtain ⟨w, hw1, hw2, hw3⟩ := r10 v hcv hv2
        exact ⟨w, by omega, hw2, hw3⟩
      · have hveq : v = low := by omega
        refine ⟨low, le_rfl, by omega, ?_⟩
        rw [hveq]
        exact r3 low (by omega)
    obtain ⟨w, hw1, hw2, hw3⟩ := step1
    have step0 : ∃ u : Int, low ≤ u ∧ u ≤ high ∧
        itemAt (swap_items l low.toNat (pidx low high).toNat) w = itemAt l u := by
      rw [hswap0 w (by omega)]
      by_cases hc1 : pidx low high = w
      · rw [if_pos hc1]
        exact ⟨low, le_rfl, by omega, rfl⟩
      · rw [if_neg hc1]
        by_cases hc2 : low = w
        · rw [if_pos hc2]
          exact ⟨pidx low high, hpx.1, hpx.2, rfl⟩
        · rw [if_neg hc2]
          exact ⟨w, hw1, hw2, rfl⟩
    obtain ⟨u, hu1, hu2, hu3⟩ := step0
    exact ⟨u, hu1, hu2, by rw [hv3, hw3, hu3]⟩
  -- validity of the loop result over [low, high]
  have hV2 : ∀ t : Int, low ≤ t → t ≤ high →
      ValidItem (itemAt (partitionLoop (swap_items l low.toNat (pidx low high).toNat)
        ((swap_items l low.toNat (pidx low high).toNat).getD low.toNat default)
        depth (low + 1) high 2147483647).1 t) depth := by
    intro t h1 h2
    by_cases hcv : low + 1 ≤ t
    · obtain ⟨w, hw1, hw2, hw3⟩ := r10 t hcv h2
      rw [hw3]
      exact hV1 w (by omega) hw2
    · have hteq : t = low := by omega
      rw [hteq, r3 low (by omega)]
      exact hV1 low le_rfl (by omega)
  have hV3 : ∀ t : Int, low ≤ t → t ≤ high →
      ValidItem (itemAt (pArr pidx l low high depth) t) depth := by
    intro t h1 h2
    obtain ⟨u, hu1, hu2, hu3⟩ := hmap t h1 h2
    rw [hu3]
    exact ⟨hP3 u hu1 hu2, hP4 u hu1 hu2⟩
  -- pairwise agreement below depth between any in-range values of pArr
  have hAg : ∀ t u : Int, low ≤ t → t ≤ high → low ≤ u → u ≤ high →
      ∀ s < depth, strByte (itemAt (pArr pidx l low high depth) t).ptr s
        = strByte (itemAt (pArr pidx l low high depth) u).ptr s := by
    intro t u h1 h2 h3 h4 s hs
    obtain ⟨t', ht1, ht2, ht3⟩ := hmap t h1 h2
    obtain ⟨u', hu1, hu2, hu3⟩ := hmap u h3 h4
    rw [ht3, hu3]
    exact hP5 t' u' ht1 ht2 hu1 hu2 s hs
  refine ⟨?_, ?_, ?_, hJb, hmap, hjfval, ?_, ?_, ?_⟩
  · rw [hArr, length_swap_items, hlen2]
  · rw [hArr]
    exact (swap_items_perm _ _ _ hlowl2 hJl2).trans
      (r2.trans (swap_items_perm l _ _ hlowl hpxl))
  · intro t ht hside
    rw [hswap2 t ht, if_neg (by omega), if_neg (by omega), r3 t (by omega),
      hswap0 t ht, if_neg (by omega), if_neg (by omega)]
  · -- left of the split: ≤ pivot on whole strings
    intro t h1 h2
    have hjf1 : low + 1 ≤ pJ pidx l low high depth := by omega
    have hcmple : (compare_and_count
        (itemAt (pArr pidx l low high depth) t) (itemAt l (pidx low high)) depth).1
        ≤ 0 := by
      rw [hswap2 t (by omega), if_neg (by omega)]
      by_cases hc2 : low = t
      · rw [if_pos hc2, ← hpivarg]
        exact r6 (pJ pidx l low high depth) hjf1 hJdef.le
      · rw [if_neg hc2, ← hpivarg]
        exact r6 t (by omega) (by rw [← hJdef]; omega)
    have hva := hV3 t (by omega) (by omega)
    have hvp : ValidItem (itemAt l (pidx low high)) depth :=
      ⟨hP3 _ hpx.1 hpx.2, hP4 _ hpx.1 hpx.2⟩
    have hsig := compare_and_count_sign hva hvp
    have hsuffle : strcmpBytes ((itemAt (pArr pidx l low high depth) t).ptr.drop depth)
        ((itemAt l (pidx low high)).ptr.drop depth) ≤ 0 := by
      rcases lt_or_eq_of_le hcmple with hlt | heq
      · have := hsig.1.mp hlt
        omega
      · have := hsig.2.1.mp heq
        omega
    rw [hjfval]
    apply strcmpBytes_le_lift (hV3 t (by omega) (by omega)).1 hvp.1 depth _ hsuffle
    intro s hsd
    have := hAg t (pJ pidx l low high depth) (by omega) (by omega) hJb.1 hJb.2 s hsd
    rw [hjfval] at this
    exact this
  · -- right of the split: pivot ≤ item on whole strings
    intro t h1 h2
    have hcmpge : 0 ≤ (compare_and_count
        (itemAt (pArr pidx l low high depth) t) (itemAt l (pidx low high)) depth).1 := by
      rw [hswap2 t (by omega), if_neg (by omega), if_neg (by omega), ← hpivarg]
      exact r7 t (by rw [← hJdef]; omega) h2
    have hva := hV3 t (by omega) (by omega)
    have hvp : ValidItem (itemAt l (pidx low high)) depth :=
      ⟨hP3 _ hpx.1 hpx.2, hP4 _ hpx.1 hpx.2⟩
    have hsig := compare_and_count_sign hva hvp
    have hsuffge : strcmpBytes ((itemAt l (pidx low high)).ptr.drop depth)
        ((itemAt (pArr pidx l low high depth) t).ptr.drop depth) ≤ 0 := by
      have hanti := strcmpBytes_antisymm
        ((itemAt (pArr pidx l low high depth) t).ptr.drop depth)
        ((itemAt l (pidx low high)).ptr.drop depth)
      rcases lt_or_eq_of_le hcmpge with hlt | heq
      · have := hsig.2.2.mp hlt
        omega
      · have := hsig.2.1.mp heq.symm
        omega
    rw [hjfval]
    apply strcmpBytes_le_lift hvp.1 (hV3 t (by omega) (by omega)).1 depth _ hsuffge
    intro s hsd
    have := hAg (pJ pidx l low high depth) t hJb.1 hJb.2 (by omega) (by omega) s hsd
    rw [hjfval] at this
    exact this
  · -- agreement with the pivot over the reported shared length
    intro t h1 h2 hne s hs
    have hs' : s < (partitionLoop (swap_items l low.toNat (pidx low high).toNat)
        ((swap_items l low.toNat (pidx low high).toNat).getD low.toNat default)
        depth (low + 1) high 2147483647).2.2 := by
      have := resetSentinel_le (partitionAt pidx l low high depth).2.2
      have heq : (partitionAt pidx l low high depth).2.2 =
          (partitionLoop (swap_items l low.toNat (pidx low high).toNat)
            ((swap_items l low.toNat (pidx low high).toNat).getD low.toNat default)
            depth (low + 1) high 2147483647).2.2 := rfl
      omega
    rw [hjfval]
    have hpivptr : ((swap_items l low.toNat (pidx low high).toNat).getD
        low.toNat default).ptr = (itemAt l (pidx low high)).ptr := by
      rw [hpivarg]
    rw [hswap2 t (by omega), if_neg (by omega)]
    by_cases hc2 : low = t
    · rw [if_pos hc2]
      have := r8 (pJ pidx l low high depth) (by omega) hJb.2 s hs'
      rw [hpivptr] at this
      exact this
    · rw [if_neg hc2]
      have := r8 t (by omega) h2 s hs'
      rw [hpivptr] at this
      exact this

/-! ## The recursive driver of the cached sort -/

/-- The conditional refresh before a recursive call preserves the
positional hypotheses of the driver, advancing the cache depth to `nd`. -/
theorem prep_hyps (X : List StringItem) (a b : Int) (depth nd : Nat) (pv : List Nat)
    (ha : 0 ≤ a) (hb : b < (X.length : Int)) (hdn : depth ≤ nd)
    (h3 : ∀ t : Int, a ≤ t → t ≤ b → ValidStr (itemAt X t).ptr)
    (h4 : ∀ t : Int, a ≤ t → t ≤ b →
      (itemAt X t).cache = load_window (itemAt X t).ptr depth)
    (h5 : ∀ t u : Int, a ≤ t → t ≤ b → a ≤ u → u ≤ b →
      ∀ s < depth, strByte (itemAt X t).ptr s = strByte (itemAt X u).ptr s)
    (hP : ∀ t : Int, a ≤ t → t ≤ b → ∀ s : Nat, depth + s < nd →
      strByte (itemAt X t).ptr (depth + s) = strByte pv (depth + s)) :
    (∀ t : Int, a ≤ t → t ≤ b → ValidStr (itemAt (prepRange X a b depth nd) t).ptr) ∧
    (∀ t : Int, a ≤ t → t ≤ b → (itemAt (prepRange X a b depth nd) t).cache
        = load_window (itemAt (prepRange X a b depth nd) t).ptr nd) ∧
    (∀ t u : Int, a ≤ t → t ≤ b → a ≤ u → u ≤ b → ∀ s < nd,
      strByte (itemAt (prepRange X a b depth nd) t).ptr s
        = strByte (itemAt (prepRange X a b depth nd) u).ptr s) := by
  refine ⟨?_, ?_, ?_⟩
  · intro t h1 h2
    rw [ptr_prepRange]
    exact h3 t h1 h2
  · intro t h1 h2
    exact cache_prepRange_in X a b depth nd t h1 h2 ha (by omega) hdn (h4 t h1 h2)
  · intro t u h1 h2 h1' h2' s hs
    rw [ptr_prepRange, ptr_prepRange]
    by_cases hsd : s < depth
    · exact h5 t u h1 h2 h1' h2' s hsd
    · have hs1 := hP t h1 h2 (s - depth) (by omega)
      have hs2 := hP u h1' h2' (s - depth) (by omega)
      have he : depth + (s - depth) = s := by omega
      rw [he] at hs1 hs2
      rw [hs1, hs2]

/-- Composing one partition step (array `A`, split `jf`) with a sorted
left half (`Y`) and a sorted right half (`Z`) yields the driver's full
positional specification. -/
theorem assemble_spec (l A Y Z : List StringItem) (low high jf : Int)
    (hjb : low ≤ jf ∧ jf ≤ high) (hlow : 0 ≤ low)
    (hP3 : ∀ t : Int, low ≤ t → t ≤ high → ValidStr (itemAt l t).ptr)
    (hA5 : ∀ t : Int, low ≤ t → t ≤ high → ∃ u : Int, low ≤ u ∧ u ≤ high ∧
      itemAt A t = itemAt l u)
    (hA7 : ∀ t : Int, low ≤ t → t ≤ jf - 1 →
      strcmpBytes (itemAt A t).ptr (itemAt A jf).ptr ≤ 0)
    (hA8 : ∀ t : Int, jf + 1 ≤ t → t ≤ high →
      strcmpBytes (itemAt A jf).ptr (itemAt A t).ptr ≤ 0)
    (hY1 : Y.length = l.length)
    (hY2 : (Y.map StringItem.ptr).Perm (l.map StringItem.ptr))
    (hY3 : ∀ t : Int, 0 ≤ t → (t < low ∨ high < t) → itemAt Y t = itemAt l t)
    (hY4 : ∀ t : Int, jf ≤ t → t ≤ high → itemAt Y t = itemAt A t)
    (hY6 : ∀ t : Int, low ≤ t → t ≤ jf - 1 → ∃ u : Int, low ≤ u ∧ u ≤ jf - 1 ∧
      (itemAt Y t).ptr = (itemAt A u).ptr)
    (hY7 : ∀ t u : Int, low ≤ t → t ≤ u → u ≤ jf - 1 →
      strcmpBytes (itemAt Y t).ptr (itemAt Y u).ptr ≤ 0)
    (hZ1 : Z.length = Y.length)
    (hZ2 : (Z.map StringItem.ptr).Perm (Y.map StringItem.ptr))
    (hZ3 : ∀ t : Int, 0 ≤ t → (t < jf + 1 ∨ high < t) → itemAt Z t = itemAt Y t)
    (hZ4 : ∀ t : Int, jf + 1 ≤ t → t ≤ high → ∃ u : Int, jf + 1 ≤ u ∧ u ≤ high ∧
      (itemAt Z t).ptr = (itemAt Y u).ptr)
    (hZ5 : ∀ t u : Int, jf + 1 ≤ t → t ≤ u → u ≤ high →
      strcmpBytes (itemAt Z t).ptr (itemAt Z u).ptr ≤ 0) :
    Z.length = l.length ∧
    ((Z.map StringItem.ptr).Perm (l.map StringItem.ptr)) ∧
    (∀ t : Int, 0 ≤ t → (t < low ∨ high < t) → itemAt Z t = itemAt l t) ∧
    (∀ t : Int, low ≤ t → t ≤ high → ∃ u : Int, low ≤ u ∧ u ≤ high ∧
      (itemAt Z t).ptr = (itemAt l u).ptr) ∧
    (∀ t u : Int, low ≤ t → t ≤ u → u ≤ high →
      strcmpBytes (itemAt Z t).ptr (itemAt Z u).ptr ≤ 0) := by
  have hZjf : itemAt Z jf = itemAt A jf := by
    rw [hZ3 jf (by omega) (by omega), hY4 jf le_rfl hjb.2]
  have hO4 : ∀ t : Int, low ≤ t → t ≤ high → ∃ u : Int, low ≤ u ∧ u ≤ high ∧
      (itemAt Z t).ptr = (itemAt l u).ptr := by
    intro t h1 h2
    by_cases hc1 : jf + 1 ≤ t
    · obtain ⟨u, hu1, hu2, hu3⟩ := hZ4 t hc1 h2
      have h4 := hY4 u (by omega) hu2
      obtain ⟨v, hv1, hv2, hv3⟩ := hA5 u (by omega) hu2
      exact ⟨v, hv1, hv2, by rw [hu3, h4, hv3]⟩
    · by_cases hc2 : t ≤ jf - 1
      · obtain ⟨u, hu1, hu2, hu3⟩ := hY6 t h1 hc2
        obtain ⟨v, hv1, hv2, hv3⟩ := hA5 u hu1 (by omega)
        refine ⟨v, hv1, hv2, ?_⟩
        rw [hZ3 t (by omega) (by omega), hu3, hv3]
      · have ht : t = jf := by omega
        obtain ⟨v, hv1, hv2, hv3⟩ := hA5 jf hjb.1 hjb.2
        refine ⟨v, hv1, hv2, ?_⟩
        rw [ht, hZjf, hv3]
  have hZv : ∀ t : Int, low ≤ t → t ≤ high → ValidStr (itemAt Z t).ptr := by
    intro t h1 h2
    obtain ⟨u, hu1, hu2, hu3⟩ := hO4 t h1 h2
    rw [hu3]
    exact hP3 u hu1 hu2
  have hAjv : ValidStr (itemAt A jf).ptr := by
    obtain ⟨v, hv1, hv2, hv3⟩ := hA5 jf hjb.1 hjb.2
    rw [hv3]
    exact hP3 v hv1 hv2
  have hleft : ∀ t : Int, low ≤ t → t ≤ jf - 1 →
      strcmpBytes (itemAt Z t).ptr (itemAt A jf).ptr ≤ 0 := by
    intro t h1 h2
    obtain ⟨u, hu1, hu2, hu3⟩ := hY6 t h1 h2
    rw [hZ3 t (by omega) (by omega), hu3]
    exact hA7 u hu1 hu2
  have hright : ∀ u : Int, jf + 1 ≤ u → u ≤ high →
      strcmpBytes (itemAt A jf).ptr (itemAt Z u).ptr ≤ 0 := by
    intro u h1 h2
    obtain ⟨w, hw1, hw2, hw3⟩ := hZ4 u h1 h2
    rw [hw3, hY4 w (by omega) hw2]
    exact hA8 w hw1 hw2
  refine ⟨hZ1.trans hY1, hZ2.trans hY2, ?_, hO4, ?_⟩
  · intro t ht hside
    rw [hZ3 t ht (by omega), hY3 t ht hside]
  · intro t u h1 h2 h3
    by_cases hcu : u ≤ jf - 1
    · rw [hZ3 t (by omega) (by omega), hZ3 u (by omega) (by omega)]
      exact hY7 t u h1 h2 hcu
    · by_cases hct : jf + 1 ≤ t
      · exact hZ5 t u hct h2 h3
      · by_cases hcu2 : u = jf
        · by_cases hct2 : t = jf
          · rw [hct2, hcu2]
            exact le_of_eq (strcmpBytes_self _)
          · rw [hcu2, hZjf]
            exact hleft t h1 (by omega)
        · by_cases hct2 : t = jf
          · rw [hct2, hZjf]
            exact hright u (by omega) h3
          · exact strcmpBytes_trans (hZv t h1 (by omega)) hAjv
              (hZv u (by omega) h3) (hleft t h1 (by omega)) (hright u (by omega) h3)

/-- Full positional specification of `orasort_recursive` (orasort2.c lines
113-190): given valid strings with caches loaded at `depth` and pairwise
byte agreement below `depth` on `[low, high]`, the driver keeps the length,
permutes the pointers, leaves positions outside `[low, high]` untouched,
draws every in-range pointer from an in-range input position, and sorts the
range by full-string `strcmp`. -/
theorem orasort_recursive_spec (pidx : Int → Int → Int)
    (hpidx : ∀ a b : Int, a < b → a ≤ pidx a b ∧ pidx a b ≤ b)
    (l : List StringItem) (low high : Int) (depth : Nat) :
    0 ≤ low → high < (l.length : Int) →
    (∀ t : Int, low ≤ t → t ≤ high → ValidStr (itemAt l t).ptr) →
    (∀ t : Int, low ≤ t → t ≤ high →
      (itemAt l t).cache = load_window (itemAt l t).ptr depth) →
    (∀ t u : Int, low ≤ t → t ≤ high → low ≤ u → u ≤ high →
      ∀ s < depth, strByte (itemAt l t).ptr s = strByte (itemAt l u).ptr s) →
    (orasort_recursive pidx l low high depth).length = l.length ∧
    ((orasort_recursive pidx l low high depth).map StringItem.ptr).Perm
      (l.map StringItem.ptr) ∧
    (∀ t : Int, 0 ≤ t → (t < low ∨ high < t) →
      itemAt (orasort_recursive pidx l low high depth) t = itemAt l t) ∧
    (∀ t : Int, low ≤ t → t ≤ high → ∃ u : Int, low ≤ u ∧ u ≤ high ∧
      (itemAt (orasort_recursive pidx l low high depth) t).ptr
        = (itemAt l u).ptr) ∧
    (∀ t u : Int, low ≤ t → t ≤ u → u ≤ high →
      strcmpBytes (itemAt (orasort_recursive pidx l low high depth) t).ptr
        (itemAt (orasort_recursive pidx l low high depth) u).ptr ≤ 0) := by
  induction l, low, high, depth using orasort_recursive.induct pidx with
  | case1 l low high depth hge =>
    intro hlow hlen hP3 hP4 hP5
    rw [orasort_recursive, if_pos hge]
    refine ⟨rfl, List.Perm.refl _, fun t _ _ => rfl,
      fun t h1 h2 => ⟨t, h1, h2, rfl⟩, ?_⟩
    intro t u h1 h2 h3
    have htu : t = u := by omega
    rw [htu]
    exact le_of_eq (strcmpBytes_self _)
  | case2 l low high depth hge hc1 ihL ihR =>
    intro hlow hlen hP3 hP4 hP5
    have hlh : low < high := by omega
    obtain ⟨A1, A2, A3, hjb, A5, A6, A7, A8, A9⟩ :=
      partitionAt_spec pidx l low high depth (hpidx low high hlh) hlh hlow hlen
        hP3 hP4 hP5
    have hndrfl : pND pidx l low high depth
        = depth + resetSentinel (partitionAt pidx l low high depth).2.2 := rfl
    have hdn : depth ≤ pND pidx l low high depth := by omega
    have hX3 : ∀ t : Int, low ≤ t → t ≤ high →
        ValidStr (itemAt (pArr pidx l low high depth) t).ptr := by
      intro t h1 h2
      obtain ⟨u, hu1, hu2, hu3⟩ := A5 t h1 h2
      rw [hu3]
      exact hP3 u hu1 hu2
    have hX4 : ∀ t : Int, low ≤ t → t ≤ high →
        (itemAt (pArr pidx l low high depth) t).cache
          = load_window (itemAt (pArr pidx l low high depth) t).ptr depth := by
      intro t h1 h2
      obtain ⟨u, hu1, hu2, hu3⟩ := A5 t h1 h2
      rw [hu3]
      exact hP4 u hu1 hu2
    have hX5 : ∀ t u : Int, low ≤ t → t ≤ high → low ≤ u → u ≤ high → ∀ s < depth,
        strByte (itemAt (pArr pidx l low high depth) t).ptr s
          = strByte (itemAt (pArr pidx l low high depth) u).ptr s := by
      intro t u h1 h2 h1' h2' s hs
      obtain ⟨v, hv1, hv2, hv3⟩ := A5 t h1 h2
      obtain ⟨w, hw1, hw2, hw3⟩ := A5 u h1' h2'
      rw [hv3, hw3]
      exact hP5 v w hv1 hv2 hw1 hw2 s hs
    have hXP : ∀ t : Int, low ≤ t → t ≤ high → t ≠ pJ pidx l low high depth →
        ∀ s : Nat, depth + s < pND pidx l low high depth →
        strByte (itemAt (pArr pidx l low high depth) t).ptr (depth + s)
          = strByte (itemAt l (pidx low high)).ptr (depth + s) := by
      intro t h1 h2 hne s hs
      have hsr : s < resetSentinel (partitionAt pidx l low high depth).2.2 := by
        omega
      have h9 := A9 t h1 h2 hne s hsr
      rw [A6] at h9
      exact h9
    by_cases hc2 : low < pJ pidx l low high depth - 1
    · obtain ⟨PL3, PL4, PL5⟩ := prep_hyps (pArr pidx l low high depth) low
        (pJ pidx l low high depth - 1) depth (pND pidx l low high depth)
        (itemAt l (pidx low high)).ptr hlow (by omega) hdn
        (fun t h1 h2 => hX3 t h1 (by omega))
        (fun t h1 h2 => hX4 t h1 (by omega))
        (fun t u h1 h2 h1' h2' s hs => hX5 t u h1 (by omega) h1' (by omega) s hs)
        (fun t h1 h2 s hs => hXP t h1 (by omega) (by omega) s hs)
      have hlenPL : pJ pidx l low high depth - 1 <
          ((prepRange (pArr pidx l low high depth) low
            (pJ pidx l low high depth - 1) depth
            (pND pidx l low high depth)).length : Int) := by
        rw [length_prepRange]
        omega
      obtain ⟨L1, L2, L3, L4, L5⟩ := ihL hc2 hlow hlenPL PL3 PL4 PL5
      have hY1 : (orasort_recursive pidx
          (prepRange (pArr pidx l low high depth) low
            (pJ pidx l low high depth - 1) depth (pND pidx l low high depth))
          low (pJ pidx l low high depth - 1)
          (pND pidx l low high depth)).length = l.length := by
        rw [L1, length_prepRange, A1]
      have hY2 : ((orasort_recursive pidx
          (prepRange (pArr pidx l low high depth) low
            (pJ pidx l low high depth - 1) depth (pND pidx l low high depth))
          low (pJ pidx l low high depth - 1)
          (pND pidx l low high depth)).map StringItem.ptr).Perm
          (l.map StringItem.ptr) := by
        have h := L2
        rw [map_ptr_prepRange] at h
        exact h.trans (A2.map StringItem.ptr)
      have hY3 : ∀ t : Int, 0 ≤ t → (t < low ∨ high < t) →
          itemAt (orasort_recursive pidx
            (prepRange (pArr pidx l low high depth) low
              (pJ pidx l low high depth - 1) depth (pND pidx l low high depth))
            low (pJ pidx l low high depth - 1) (pND pidx l low high depth)) t
            = itemAt l t := by
        intro t ht hside
        rw [L3 t ht (by omega),
          itemAt_prepRange_out (pArr pidx l low high depth) low
            (pJ pidx l low high depth - 1) depth (pND pidx l low high depth) t
            ht (by omega),
          A3 t ht hside]
      have hY4 : ∀ t : Int, pJ pidx l low high depth ≤ t → t ≤ high →
          itemAt (orasort_recursive pidx
            (prepRange (pArr pidx l low high depth) low
              (pJ pidx l low high depth - 1) depth (pND pidx l low high depth))
            low (pJ pidx l low high depth - 1) (pND pidx l low high depth)) t
            = itemAt (pArr pidx l low high depth) t := by
        intro t h1 h2
        rw [L3 t (by omega) (by omega),
          itemAt_prepRange_out (pArr pidx l low high depth) low
            (pJ pidx l low high depth - 1) depth (pND pidx l low high depth) t
            (by omega) (by omega)]
      have hY6 : ∀ t : Int, low ≤ t → t ≤ pJ pidx l low high depth - 1 →
          ∃ u : Int, low ≤ u ∧ u ≤ pJ pidx l low high depth - 1 ∧
          (itemAt (orasort_recursive pidx
            (prepRange (pArr pidx l low high depth) low
              (pJ pidx l low high depth - 1) depth (pND pidx l low high depth))
            low (pJ pidx l low high depth - 1) (pND pidx l low high depth)) t).ptr
            = (itemAt (pArr pidx l low high depth) u).ptr := by
        intro t h1 h2
        obtain ⟨u, hu1, hu2, hu3⟩ := L4 t h1 h2
        refine ⟨u, hu1, hu2, ?_⟩
        rw [hu3, ptr_prepRange]
      rw [dif_pos hc2] at ihR
      obtain ⟨PR3, PR4, PR5⟩ := prep_hyps (orasort_recursive pidx
          (prepRange (pArr pidx l low high depth) low
            (pJ pidx l low high depth - 1) depth (pND pidx l low high depth))
          low (pJ pidx l low high depth - 1) (pND pidx l low high depth))
        (pJ pidx l low high depth + 1) high depth (pND pidx l low high depth)
        (itemAt l (pidx low high)).ptr (by omega) (by omega) hdn
        (fun t h1 h2 => by
          rw [hY4 t (by omega) h2]
          exact hX3 t (by omega) h2)
        (fun t h1 h2 => by
          rw [hY4 t (by omega) h2]
          exact hX4 t (by omega) h2)
        (fun t u h1 h2 h1' h2' s hs => by
          rw [hY4 t (by omega) h2, hY4 u (by omega) h2']
          exact hX5 t u (by omega) h2 (by omega) h2' s hs)
        (fun t h1 h2 s hs => by
          rw [hY4 t (by omega) h2]
          exact hXP t (by omega) h2 (by omega) s hs)
      have hlenPR : high < ((prepRange (orasort_recursive pidx
          (prepRange (pArr pidx l low high depth) low
            (pJ pidx l low high depth - 1) depth (pND pidx l low high depth))
          low (pJ pidx l low high depth - 1) (pND pidx l low high depth))
          (pJ pidx l low high depth + 1) high depth
          (pND pidx l low high depth)).length : Int) := by
        rw [length_prepRange]
        omega
      obtain ⟨R1, R2, R3, R4, R5⟩ := ihR (by omega) hlenPR PR3 PR4 PR5
      have hZ1 : (orasort_recursive pidx (prepRange (orasort_recursive pidx
          (prepRange (pArr pidx l low high depth) low
            (pJ pidx l low high depth - 1) depth (pND pidx l low high depth))
          low (pJ pidx l low high depth - 1) (pND pidx l low high depth))
          (pJ pidx l low high depth + 1) high depth (pND pidx l low high depth))
          (pJ pidx l low high depth + 1) high
          (pND pidx l low high depth)).length
          = (orasort_recursive pidx
          (prepRange (pArr pidx l low high depth) low
            (pJ pidx l low high depth - 1) depth (pND pidx l low high depth))
          low (pJ pidx l low high depth - 1)
          (pND pidx l low high depth)).length := by
        rw [R1, length_prepRange]
      have hZ2 : ((orasort_recursive pidx (prepRange (orasort_recursive pidx
          (prepRange (pArr pidx l low high depth) low
            (pJ pidx l low high depth - 1) depth (pND pidx l low high depth))
          low (pJ pidx l low high depth - 1) (pND pidx l low high depth))
          (pJ pidx l low high depth + 1) high depth (pND pidx l low high depth))
          (pJ pidx l low high depth + 1) high
          (pND pidx l low high depth)).map StringItem.ptr).Perm
          ((orasort_recursive pidx
          (prepRange (pArr pidx l low high depth) low
            (pJ pidx l low high depth - 1) depth (pND pidx l low high depth))
          low (pJ pidx l low high depth - 1)
          (pND pidx l low high depth)).map StringItem.ptr) := by
        have h := R2
        rw [map_ptr_prepRange] at h
        exact h
      have hZ3 : ∀ t : Int, 0 ≤ t →
          (t < pJ pidx l low high depth + 1 ∨ high < t) →
          itemAt (orasort_recursive pidx (prepRange (orasort_recursive pidx
            (prepRange (pArr pidx l low high depth) low
              (pJ pidx l low high depth - 1) depth (pND pidx l low high depth))
            low (pJ pidx l low high depth - 1) (pND pidx l low high depth))
            (pJ pidx l low high depth + 1) high depth (pND pidx l low high depth))
            (pJ pidx l low high depth + 1) high (pND pidx l low high depth)) t
          = itemAt (orasort_recursive pidx
            (prepRange (pArr pidx l low high depth) low
              (pJ pidx l low high depth - 1) depth (pND pidx l low high depth))
            low (pJ pidx l low high depth - 1) (pND pidx l low high depth)) t := by
        intro t ht hside
        rw [R3 t ht hside,
          itemAt_prepRange_out (orasort_recursive pidx
            (prepRange (pArr pidx l low high depth) low
              (pJ pidx l low high depth - 1) depth (pND pidx l low high depth))
            low (pJ pidx l low high depth - 1) (pND pidx l low high depth))
            (pJ pidx l low high depth + 1) high depth (pND pidx l low high depth)
            t ht hside]
      have hZ4 : ∀ t : Int, pJ pidx l low high depth + 1 ≤ t → t ≤ high →
          ∃ u : Int, pJ pidx l low high depth + 1 ≤ u ∧ u ≤ high ∧
          (itemAt (orasort_recursive pidx (prepRange (orasort_recursive pidx
            (prepRange (pArr pidx l low high depth) low
              (pJ pidx l low high depth - 1) depth (pND pidx l low high depth))
            low (pJ pidx l low high depth - 1) (pND pidx l low high depth))
            (pJ pidx l low high depth + 1) high depth (pND pidx l low high depth))
            (pJ pidx l low high depth + 1) high (pND pidx l low high depth)) t).ptr
          = (itemAt (orasort_recursive pidx
            (prepRange (pArr pidx l low high depth) low
              (pJ pidx l low high depth - 1) depth (pND pidx l low high depth))
            low (pJ pidx l low high depth - 1)
            (pND pidx l low high depth)) u).ptr := by
        intro t h1 h2
        obtain ⟨u, hu1, hu2, hu3⟩ := R4 t h1 h2
        refine ⟨u, hu1, hu2, ?_⟩
        rw [hu3, ptr_prepRange]
      rw [orasort_recursive, if_neg hge, if_pos hc1, if_pos hc2]
      exact assemble_spec l (pArr pidx l low high depth) _ _ low high
        (pJ pidx l low high depth) hjb hlow hP3 A5 A7 A8
        hY1 hY2 hY3 hY4 hY6 L5 hZ1 hZ2 hZ3 hZ4 R5
    · rw [dif_neg hc2] at ihR
      obtain ⟨PR3, PR4, PR5⟩ := prep_hyps (pArr pidx l low high depth)
        (pJ pidx l low high depth + 1) high depth (pND pidx l low high depth)
        (itemAt l (pidx low high)).ptr (by omega) (by omega) hdn
        (fun t h1 h2 => hX3 t (by omega) h2)
        (fun t h1 h2 => hX4 t (by omega) h2)
        (fun t u h1 h2 h1' h2' s hs => hX5 t u (by omega) h2 (by omega) h2' s hs)
        (fun t h1 h2 s hs => hXP t (by omega) h2 (by omega) s hs)
      have hlenPR : high < ((prepRange (pArr pidx l low high depth)
          (pJ pidx l low high depth + 1) high depth
          (pND pidx l low high depth)).length : Int) := by
        rw [length_prepRange]
        omega
      obtain ⟨R1, R2, R3, R4, R5⟩ := ihR (by omega) hlenPR PR3 PR4 PR5
      have hZ1 : (orasort_recursive pidx (prepRange (pArr pidx l low high depth)
          (pJ pidx l low high depth + 1) high depth (pND pidx l low high depth))
          (pJ pidx l low high depth + 1) high
          (pND pidx l low high depth)).length
          = (pArr pidx l low high depth).length := by
        rw [R1, length_prepRange]
      have hZ2 : ((orasort_recursive pidx (prepRange (pArr pidx l low high depth)
          (pJ pidx l low high depth + 1) high depth (pND pidx l low high depth))
          (pJ pidx l low high depth + 1) high
          (pND pidx l low high depth)).map StringItem.ptr).Perm
          ((pArr pidx l low high depth).map StringItem.ptr) := by
        have h := R2
        rw [map_ptr_prepRange] at h
        exact h
      have hZ3 : ∀ t : Int, 0 ≤ t →
          (t < pJ pidx l low high depth + 1 ∨ high < t) →
          itemAt (orasort_recursive pidx (prepRange (pArr pidx l low high depth)
            (pJ pidx l low high depth + 1) high depth (pND pidx l low high depth))
            (pJ pidx l low high depth + 1) high (pND pidx l low high depth)) t
          = itemAt (pArr pidx l low high depth) t := by
        intro t ht hside
        rw [R3 t ht hside,
          itemAt_prepRange_out (pArr pidx l low high depth)
            (pJ pidx l low high depth + 1) high depth (pND pidx l low high depth)
            t ht hside]
      have hZ4 : ∀ t : Int, pJ pidx l low high depth + 1 ≤ t → t ≤ high →
          ∃ u : Int, pJ pidx l low high depth + 1 ≤ u ∧ u ≤ high ∧
          (itemAt (orasort_recursive pidx (prepRange (pArr pidx l low high depth)
            (pJ pidx l low high depth + 1) high depth (pND pidx l low high depth))
            (pJ pidx l low high depth + 1) high (pND pidx l low high depth)) t).ptr
          = (itemAt (pArr pidx l low high depth) u).ptr := by
        intro t h1 h2
        obtain ⟨u, hu1, hu2, hu3⟩ := R4 t h1 h2
        refine ⟨u, hu1, hu2, ?_⟩
        rw [hu3, ptr_prepRange]
      rw [orasort_recursive, if_neg hge, if_pos hc1, if_neg hc2]
      exact assemble_spec l (pArr pidx l low high depth)
        (pArr pidx l low high depth) _ low high
        (pJ pidx l low high depth) hjb hlow hP3 A5 A7 A8
        A1 (A2.map StringItem.ptr) A3 (fun t _ _ => rfl)
        (fun t h1 h2 => ⟨t, h1, h2, rfl⟩)
        (fun t u h1 h2 h3 => by
          have htu : t = u := by omega
          rw [htu]
          exact le_of_eq (strcmpBytes_self _))
        hZ1 hZ2 hZ3 hZ4 R5
  | case3 l low high depth hge hc1 hc2 ihL =>
    intro hlow hlen hP3 hP4 hP5
    have hlh : low < high := by omega
    obtain ⟨A1, A2, A3, hjb, A5, A6, A7, A8, A9⟩ :=
      partitionAt_spec pidx l low high depth (hpidx low high hlh) hlh hlow hlen
        hP3 hP4 hP5
    have hndrfl : pND pidx l low high depth
        = depth + resetSentinel (partitionAt pidx l low high depth).2.2 := rfl
    have hdn : depth ≤ pND pidx l low high depth := by omega
    have hX3 : ∀ t : Int, low ≤ t → t ≤ high →
        ValidStr (itemAt (pArr pidx l low high depth) t).ptr := by
      intro t h1 h2
      obtain ⟨u, hu1, hu2, hu3⟩ := A5 t h1 h2
      rw [hu3]
      exact hP3 u hu1 hu2
    have hX4 : ∀ t : Int, low ≤ t → t ≤ high →
        (itemAt (pArr pidx l low high depth) t).cache
          = load_window (itemAt (pArr pidx l low high depth) t).ptr depth := by
      intro t h1 h2
      obtain ⟨u, hu1, hu2, hu3⟩ := A5 t h1 h2
      rw [hu3]
      exact hP4 u hu1 hu2
    have hX5 : ∀ t u : Int, low ≤ t → t ≤ high → low ≤ u → u ≤ high → ∀ s < depth,
        strByte (itemAt (pArr pidx l low high depth) t).ptr s
          = strByte (itemAt (pArr pidx l low high depth) u).ptr s := by
      intro t u h1 h2 h1' h2' s hs
      obtain ⟨v, hv1, hv2, hv3⟩ := A5 t h1 h2
      obtain ⟨w, hw1, hw2, hw3⟩ := A5 u h1' h2'
      rw [hv3, hw3]
      exact hP5 v w hv1 hv2 hw1 hw2 s hs
    have hXP : ∀ t : Int, low ≤ t → t ≤ high → t ≠ pJ pidx l low high depth →
        ∀ s : Nat, depth + s < pND pidx l low high depth →
        strByte (itemAt (pArr pidx l low high depth) t).ptr (depth + s)
          = strByte (itemAt l (pidx low high)).ptr (depth + s) := by
      intro t h1 h2 hne s hs
      have hsr : s < resetSentinel (partitionAt pidx l low high depth).2.2 := by
        omega
      have h9 := A9 t h1 h2 hne s hsr
      rw [A6] at h9
      exact h9
    obtain ⟨PL3, PL4, PL5⟩ := prep_hyps (pArr pidx l low high depth) low
      (pJ pidx l low high depth - 1) depth (pND pidx l low high depth)
      (itemAt l (pidx low high)).ptr hlow (by omega) hdn
      (fun t h1 h2 => hX3 t h1 (by omega))
      (fun t h1 h2 => hX4 t h1 (by omega))
      (fun t u h1 h2 h1' h2' s hs => hX5 t u h1 (by omega) h1' (by omega) s hs)
      (fun t h1 h2 s hs => hXP t h1 (by omega) (by omega) s hs)
    have hlenPL : pJ pidx l low high depth - 1 <
        ((prepRange (pArr pidx l low high depth) low
          (pJ pidx l low high depth - 1) depth
          (pND pidx l low high depth)).length : Int) := by
      rw [length_prepRange]
      omega
    obtain ⟨L1, L2, L3, L4, L5⟩ := ihL hlow hlenPL PL3 PL4 PL5
    have hY1 : (orasort_recursive pidx
        (prepRange (pArr pidx l low high depth) low
          (pJ pidx l low high depth - 1) depth (pND pidx l low high depth))
        low (pJ pidx l low high depth - 1)
        (pND pidx l low high depth)).length = l.length := by
      rw [L1, length_prepRange, A1]
    have hY2 : ((orasort_recursive pidx
        (prepRange (pArr pidx l low high depth) low
          (pJ pidx l low high depth - 1) depth (pND pidx l low high depth))
        low (pJ pidx l low high depth - 1)
        (pND pidx l low high depth)).map StringItem.ptr).Perm
        (l.map StringItem.ptr) := by
      have h := L2
      rw [map_ptr_prepRange] at h
      exact h.trans (A2.map StringItem.ptr)
    have hY3 : ∀ t : Int, 0 ≤ t → (t < low ∨ high < t) →
        itemAt (orasort_recursive pidx
          (prepRange (pArr pidx l low high depth) low
            (pJ pidx l low high depth - 1) depth (pND pidx l low high depth))
          low (pJ pidx l low high depth - 1) (pND pidx l low high depth)) t
          = itemAt l t := by
      intro t ht hside
      rw [L3 t ht (by omega),
        itemAt_prepRange_out (pArr pidx l low high depth) low
          (pJ pidx l low high depth - 1) depth (pND pidx l low high depth) t
          ht (by omega),
        A3 t ht hside]
    have hY4 : ∀ t : Int, pJ pidx l low high depth ≤ t → t ≤ high →
        itemAt (orasort_recursive pidx
          (prepRange (pArr pidx l low high depth) low
            (pJ pidx l low high depth - 1) depth (pND pidx l low high depth))
          low (pJ pidx l low high depth - 1) (pND pidx l low high depth)) t
          = itemAt (pArr pidx l low high depth) t := by
      intro t h1 h2
      rw [L3 t (by omega) (by omega),
        itemAt_prepRange_out (pArr pidx l low high depth) low
          (pJ pidx l low high depth - 1) depth (pND pidx l low high depth) t
          (by omega) (by omega)]
    have hY6 : ∀ t : Int, low ≤ t → t ≤ pJ pidx l low high depth - 1 →
        ∃ u : Int, low ≤ u ∧ u ≤ pJ pidx l low high depth - 1 ∧
        (itemAt (orasort_recursive pidx
          (prepRange (pArr pidx l low high depth) low
            (pJ pidx l low high depth - 1) depth (pND pidx l low high depth))
          low (pJ pidx l low high depth - 1) (pND pidx l low high depth)) t).ptr
          = (itemAt (pArr pidx l low high depth) u).ptr := by
      intro t h1 h2
      obtain ⟨u, hu1, hu2, hu3⟩ := L4 t h1 h2
      refine ⟨u, hu1, hu2, ?_⟩
      rw [hu3, ptr_prepRange]
    rw [orasort_recursive, if_neg hge, if_neg hc1, if_pos hc2]
    exact assemble_spec l (pArr pidx l low high depth) _ _ low high
      (pJ pidx l low high depth) hjb hlow hP3 A5 A7 A8
      hY1 hY2 hY3 hY4 hY6 L5
      rfl (List.Perm.refl _) (fun t _ _ => rfl)
      (fun t h1 h2 => ⟨t, h1, h2, rfl⟩)
      (fun t u h1 h2 h3 => by
        have htu : t = u := by omega
        rw [htu]
        exact le_of_eq (strcmpBytes_self _))
  | case4 l low high depth hge hc1 hc2 =>
    intro hlow hlen hP3 hP4 hP5
    have hlh : low < high := by omega
    obtain ⟨A1, A2, A3, hjb, A5, A6, A7, A8, A9⟩ :=
      partitionAt_spec pidx l low high depth (hpidx low high hlh) hlh hlow hlen
        hP3 hP4 hP5
    rw [orasort_recursive, if_neg hge, if_neg hc1, if_neg hc2]
    exact assemble_spec l (pArr pidx l low high depth)
      (pArr pidx l low high depth) (pArr pidx l low high depth) low high
      (pJ pidx l low high depth) hjb hlow hP3 A5 A7 A8
      A1 (A2.map StringItem.ptr) A3 (fun t _ _ => rfl)
      (fun t h1 h2 => ⟨t, h1, h2, rfl⟩)
      (fun t u h1 h2 h3 => by
        have htu : t = u := by omega
        rw [htu]
        exact le_of_eq (strcmpBytes_self _))
      rfl (List.Perm.refl _) (fun t _ _ => rfl)
      (fun t h1 h2 => ⟨t, h1, h2, rfl⟩)
      (fun t u h1 h2 h3 => by
        have htu : t = u := by omega
        rw [htu]
        exact le_of_eq (strcmpBytes_self _))

/-- The parts of the partition-call specification that need no pairwise
byte-agreement hypothesis: length, split bounds, the in-range item-source
mapping, and the raw minimum shared length with the pivot. -/
theorem partitionAt_core (pidx : Int → Int → Int) (l : List StringItem)
    (low high : Int) (depth : Nat)
    (hpx : low ≤ pidx low high ∧ pidx low high ≤ high)
    (hlh : low < high) (hlow : 0 ≤ low) (hlen : high < (l.length : Int))
    (hP3 : ∀ t : Int, low ≤ t → t ≤ high → ValidStr (itemAt l t).ptr)
    (hP4 : ∀ t : Int, low ≤ t → t ≤ high →
      (itemAt l t).cache = load_window (itemAt l t).ptr depth) :
    (pArr pidx l low high depth).length = l.length ∧
    (low ≤ pJ pidx l low high depth ∧ pJ pidx l low high depth ≤ high) ∧
    (∀ t : Int, low ≤ t → t ≤ high → ∃ u : Int, low ≤ u ∧ u ≤ high ∧
      itemAt (pArr pidx l low high depth) t = itemAt l u) ∧
    (∀ t : Int, low ≤ t → t ≤ high → t ≠ pJ pidx l low high depth →
      ∀ s < (partitionAt pidx l low high depth).2.2,
        strByte (itemAt (pArr pidx l low high depth) t).ptr (depth + s)
          = strByte (itemAt (pArr pidx l low high depth)
              (pJ pidx l low high depth)).ptr (depth + s)) := by
  have hpxl : (pidx low high).toNat < l.length := by omega
  have hlowl : low.toNat < l.length := by omega
  have hswap0 : ∀ t : Int, 0 ≤ t →
      itemAt (swap_items l low.toNat (pidx low high).toNat) t =
      if pidx low high = t then itemAt l low
      else if low = t then itemAt l (pidx low high) else itemAt l t := by
    intro t ht
    exact itemAt_swap_items l low (pidx low high) t hlowl hpxl hlow (by omega) ht
  have hpiv : itemAt (swap_items l low.toNat (pidx low high).toNat) low
      = itemAt l (pidx low high) := by
    rw [hswap0 low hlow]
    by_cases hc : pidx low high = low
    · rw [if_pos hc, hc]
    · rw [if_neg hc, if_pos rfl]
  have hV1 : ∀ t : Int, low ≤ t → t ≤ high →
      ValidItem (itemAt (swap_items l low.toNat (pidx low high).toNat) t) depth := by
    intro t h1 h2
    rw [hswap0 t (by omega)]
    by_cases hc1 : pidx low high = t
    · rw [if_pos hc1]
      exact ⟨hP3 low le_rfl (by omega), hP4 low le_rfl (by omega)⟩
    · rw [if_neg hc1]
      by_cases hc2 : low = t
      · rw [if_pos hc2]
        exact ⟨hP3 _ hpx.1 hpx.2, hP4 _ hpx.1 hpx.2⟩
      · rw [if_neg hc2]
        exact ⟨hP3 t h1 h2, hP4 t h1 h2⟩
  have hlen1 : high < ((swap_items l low.toNat (pidx low high).toNat).length : Int) := by
    rw [length_swap_items]
    exact hlen
  have hpvI : ValidItem ((swap_items l low.toNat (pidx low high).toNat).getD
      low.toNat default) depth := hV1 low le_rfl (by omega)
  have hml : ∀ t : Int, low + 1 ≤ t → t ≤ high →
      ∀ s < (compare_and_count
        (itemAt (swap_items l low.toNat (pidx low high).toNat) t)
        ((swap_items l low.toNat (pidx low high).toNat).getD low.toNat default)
        depth).2,
      strByte (itemAt (swap_items l low.toNat (pidx low high).toNat) t).ptr (depth + s)
        = strByte ((swap_items l low.toNat (pidx low high).toNat).getD
            low.toNat default).ptr (depth + s) := by
    intro t h1 h2
    exact compare_and_count_matchLen (hV1 t (by omega) h2) hpvI
  have hspec := partitionLoop_spec low high
    (swap_items l low.toNat (pidx low high).toNat)
    ((swap_items l low.toNat (pidx low high).toNat).getD low.toNat default)
    depth (low + 1) high 2147483647 hlow hlen1 le_rfl (by omega) le_rfl
    (fun t h1 h2 => absurd h2 (by omega))
    (fun t h1 h2 => absurd h1 (by omega))
    (fun t h1 h2 hside => absurd hside (by omega))
    hml
  obtain ⟨r1, r2, r3, r4, r5, r6, r7, r8, r9, r10⟩ := hspec
  have hJdef : pJ pidx l low high depth =
      (partitionLoop (swap_items l low.toNat (pidx low high).toNat)
        ((swap_items l low.toNat (pidx low high).toNat).getD low.toNat default)
        depth (low + 1) high 2147483647).2.1 := rfl
  have hArr : pArr pidx l low high depth =
      swap_items (partitionLoop (swap_items l low.toNat (pidx low high).toNat)
        ((swap_items l low.toNat (pidx low high).toNat).getD low.toNat default)
        depth (low + 1) high 2147483647).1 low.toNat (pJ pidx l low high depth).toNat :=
    rfl
  have hJb : low ≤ pJ pidx l low high depth ∧ pJ pidx l low high depth ≤ high :=
    pJ_bounds pidx l low high depth hlh
  have hlen2 : (partitionLoop (swap_items l low.toNat (pidx low high).toNat)
      ((swap_items l low.toNat (pidx low high).toNat).getD low.toNat default)
      depth (low + 1) high 2147483647).1.length = l.length := by
    rw [r1, length_swap_items]
  have hlowl2 : low.toNat < (partitionLoop (swap_items l low.toNat
      (pidx low high).toNat)
      ((swap_items l low.toNat (pidx low high).toNat).getD low.toNat default)
      depth (low + 1) high 2147483647).1.length := by omega
  have hJl2 : (pJ pidx l low high depth).toNat < (partitionLoop (swap_items l low.toNat
      (pidx low high).toNat)
      ((swap_items l low.toNat (pidx low high).toNat).getD low.toNat default)
      depth (low + 1) high 2147483647).1.length := by omega
  have hswap2 : ∀ t : Int, 0 ≤ t → itemAt (pArr pidx l low high depth) t =
      if pJ pidx l low high depth = t then
        itemAt (partitionLoop (swap_items l low.toNat (pidx low high).toNat)
          ((swap_items l low.toNat (pidx low high).toNat).getD low.toNat default)
          depth (low + 1) high 2147483647).1 low
      else if low = t then
        itemAt (partitionLoop (swap_items l low.toNat (pidx low high).toNat)
          ((swap_items l low.toNat (pidx low high).toNat).getD low.toNat default)
          depth (low + 1) high 2147483647).1 (pJ pidx l low high depth)
      else itemAt (partitionLoop (swap_items l low.toNat (pidx low high).toNat)
          ((swap_items l low.toNat (pidx low high).toNat).getD low.toNat default)
          depth (low + 1) high 2147483647).1 t := by
    intro t ht
    rw [hArr]
    exact itemAt_swap_items _ _ _ t hlowl2 hJl2 hlow (by omega) ht
  have hlowval : itemAt (partitionLoop (swap_items l low.toNat (pidx low high).toNat)
      ((swap_items l low.toNat (pidx low high).toNat).getD low.toNat default)
      depth (low + 1) high 2147483647).1 low
      = itemAt l (pidx low high) := by
    rw [r3 low (by omega)]
    exact hpiv
  have hjfval : itemAt (pArr pidx l low high depth) (pJ pidx l low high depth)
      = itemAt l (pidx low high) := by
    rw [hswap2 _ (by omega), if_pos rfl]
    exact hlowval
  have hpivarg : (swap_items l low.toNat (pidx low high).toNat).getD low.toNat default
      = itemAt l (pidx low high) := hpiv
  have hmap : ∀ t : Int, low ≤ t → t ≤ high → ∃ u : Int, low ≤ u ∧ u ≤ high ∧
      itemAt (pArr pidx l low high depth) t = itemAt l u := by
    intro t h1 h2
    have step2 : ∃ v : Int, low ≤ v ∧ v ≤ high ∧
        itemAt (pArr pidx l low high depth) t =
        itemAt (partitionLoop (swap_items l low.toNat (pidx low high).toNat)
          ((swap_items l low.toNat (pidx low high).toNat).getD low.toNat default)
          depth (low + 1) high 2147483647).1 v := by
      rw [hswap2 t (by omega)]
      by_cases hc1 : pJ pidx l low high depth = t
      · rw [if_pos hc1]
        exact ⟨low, le_rfl, by omega, rfl⟩
      · rw [if_neg hc1]
        by_cases hc2 : low = t
        · rw [if_pos hc2]
          exact ⟨pJ pidx l low high depth, hJb.1, hJb.2, rfl⟩
        · rw [if_neg hc2]
          exact ⟨t, h1, h2, rfl⟩
    obtain ⟨v, hv1, hv2, hv3⟩ := step2
    have step1 : ∃ w : Int, low ≤ w ∧ w ≤ high ∧
        itemAt (partitionLoop (swap_items l low.toNat (pidx low high).toNat)
          ((swap_items l low.toNat (pidx low high).toNat).getD low.toNat default)
          depth (low + 1) high 2147483647).1 v =
        itemAt (swap_items l low.toNat (pidx low high).toNat) w := by
      by_cases hcv : low + 1 ≤ v
      · obtain ⟨w, hw1, hw2, hw3⟩ := r10 v hcv hv2
        exact ⟨w, by omega, hw2, hw3⟩
      · have hveq : v = low := by omega
        refine ⟨low, le_rfl, by omega, ?_⟩
        rw [hveq]
        exact r3 low (by omega)
    obtain ⟨w, hw1, hw2, hw3⟩ := step1
    have step0 : ∃ u : Int, low ≤ u ∧ u ≤ high ∧
        itemAt (swap_items l low.toNat (pidx low high).toNat) w = itemAt l u := by
      rw [hswap0 w (by omega)]
      by_cases hc1 : pidx low high = w
      · rw [if_pos hc1]
        exact ⟨low, le_rfl, by omega, rfl⟩
      · rw [if_neg hc1]
        by_cases hc2 : low = w
        · rw [if_pos hc2]
          exact ⟨pidx low high, hpx.1, hpx.2, rfl⟩
        · rw [if_neg hc2]
          exact ⟨w, hw1, hw2, rfl⟩
    obtain ⟨u, hu1, hu2, hu3⟩ := step0
    exact ⟨u, hu1, hu2, by rw [hv3, hw3, hu3]⟩
  refine ⟨?_, hJb, hmap, ?_⟩
  · rw [hArr, length_swap_items, hlen2]
  · intro t h1 h2 hne s hs
    have hs' : s < (partitionLoop (swap_items l low.toNat (pidx low high).toNat)
        ((swap_items l low.toNat (pidx low high).toNat).getD low.toNat default)
        depth (low + 1) high 2147483647).2.2 := hs
    rw [hjfval]
    have hpivptr : ((swap_items l low.toNat (pidx low high).toNat).getD
        low.toNat default).ptr = (itemAt l (pidx low high)).ptr := by
      rw [hpivarg]
    rw [hswap2 t (by omega), if_neg (by omega)]
    by_cases hc2 : low = t
    · rw [if_pos hc2]
      have h8 := r8 (pJ pidx l low high depth) (by omega) hJb.2 s hs'
      rw [hpivptr] at h8
      exact h8
    · rw [if_neg hc2]
      have h8 := r8 t (by omega) h2 s hs'
      rw [hpivptr] at h8
      exact h8

/-! ## Top-level wrappers -/

theorem mid_pivot_in_range : ∀ a b : Int, a < b →
    a ≤ mid_pivot_index a b ∧ mid_pivot_index a b ≤ b := by
  intro a b h
  rw [mid_pivot_index]
  omega

theorem rand_pivot_in_range (rng : Int → Int → Nat) : ∀ a b : Int, a < b →
    a ≤ rand_pivot_index (rng a b) a b ∧ rand_pivot_index (rng a b) a b ≤ b := by
  intro a b h
  rw [rand_pivot_index]
  have h1 : 0 ≤ ((rng a b : Nat) : Int) % (b - a + 1) :=
    Int.emod_nonneg _ (by omega)
  have h2 : ((rng a b : Nat) : Int) % (b - a + 1) < b - a + 1 :=
    Int.emod_lt_of_pos _ (by omega)
  omega

theorem map_ptr_mk (strings : List (List Nat)) :
    (strings.map fun s => StringItem.mk s (load_window s 0)).map StringItem.ptr
      = strings := by
  induction strings with
  | nil => rfl
  | cons a as ih => simp [ih]

theorem sorted_of_len_le_one {l : List (List Nat)} (h : l.length ≤ 1) :
    List.Sorted (fun x y : List Nat => x ≤ y) l := by
  cases l with
  | nil => exact List.sorted_nil
  | cons a t =>
    cases t with
    | nil => exact List.sorted_singleton a
    | cons b t2 =>
      rw [List.length_cons, List.length_cons] at h
      omega

/-- The common core of both top-level entry points: wrapping the strings
as depth-0 items and running the recursive driver over the whole index
range yields a sorted permutation of the input. -/
theorem orasort_wrap_spec (pidx : Int → Int → Int)
    (hpidx : ∀ a b : Int, a < b → a ≤ pidx a b ∧ pidx a b ≤ b)
    (strings : List (List Nat)) (hv : ∀ s ∈ strings, ValidStr s) :
    ((orasort_recursive pidx (strings.map fun s => StringItem.mk s (load_window s 0))
        0 ((strings.length : Int) - 1) 0).map StringItem.ptr).Perm strings ∧
    List.Sorted (fun x y : List Nat => x ≤ y)
      ((orasort_recursive pidx (strings.map fun s => StringItem.mk s (load_window s 0))
        0 ((strings.length : Int) - 1) 0).map StringItem.ptr) := by
  have hmlen : (strings.map fun s => StringItem.mk s (load_window s 0)).length
      = strings.length := List.length_map _ _
  have hitem : ∀ t : Int, 0 ≤ t → t ≤ (strings.length : Int) - 1 →
      itemAt (strings.map fun s => StringItem.mk s (load_window s 0)) t
        = StringItem.mk (strings.getD t.toNat [])
            (load_window (strings.getD t.toNat []) 0) := by
    intro t h1 h2
    have ht : t.toNat < strings.length := by omega
    rw [itemAt, List.getD_eq_getElem?_getD, List.getElem?_map,
      List.getElem?_eq_getElem ht, List.getD_eq_getElem?_getD,
      List.getElem?_eq_getElem ht]
    rfl
  have hgetDmem : ∀ t : Int, 0 ≤ t → t ≤ (strings.length : Int) - 1 →
      strings.getD t.toNat [] ∈ strings := by
    intro t h1 h2
    have ht : t.toNat < strings.length := by omega
    rw [List.getD_eq_getElem?_getD, List.getElem?_eq_getElem ht]
    exact List.getElem_mem ht
  have hP3 : ∀ t : Int, 0 ≤ t → t ≤ (strings.length : Int) - 1 →
      ValidStr (itemAt (strings.map fun s => StringItem.mk s (load_window s 0)) t).ptr := by
    intro t h1 h2
    rw [hitem t h1 h2]
    exact hv _ (hgetDmem t h1 h2)
  have hP4 : ∀ t : Int, 0 ≤ t → t ≤ (strings.length : Int) - 1 →
      (itemAt (strings.map fun s => StringItem.mk s (load_window s 0)) t).cache
        = load_window
          (itemAt (strings.map fun s => StringItem.mk s (load_window s 0)) t).ptr 0 := by
    intro t h1 h2
    rw [hitem t h1 h2]
  obtain ⟨O1, O2, O3, O4, O5⟩ := orasort_recursive_spec pidx hpidx
    (strings.map fun s => StringItem.mk s (load_window s 0)) 0
    ((strings.length : Int) - 1) 0 le_rfl (by omega) hP3 hP4
    (fun t u _ _ _ _ s hs => absurd hs (by omega))
  have hperm : ((orasort_recursive pidx
      (strings.map fun s => StringItem.mk s (load_window s 0)) 0
      ((strings.length : Int) - 1) 0).map StringItem.ptr).Perm strings := by
    have h := O2
    rw [map_ptr_mk] at h
    exact h
  refine ⟨hperm, ?_⟩
  apply List.pairwise_iff_getElem.mpr
  intro i j hi hj hij
  rw [List.length_map] at hi hj
  have hRlen : (orasort_recursive pidx
      (strings.map fun s => StringItem.mk s (load_window s 0)) 0
      ((strings.length : Int) - 1) 0).length = strings.length := by
    rw [O1, hmlen]
  have hgi : itemAt (orasort_recursive pidx
      (strings.map fun s => StringItem.mk s (load_window s 0)) 0
      ((strings.length : Int) - 1) 0) ((i : Nat) : Int)
      = (orasort_recursive pidx
        (strings.map fun s => StringItem.mk s (load_window s 0)) 0
        ((strings.length : Int) - 1) 0)[i] := by
    rw [itemAt, Int.toNat_natCast, List.getD_eq_getElem?_getD,
      List.getElem?_eq_getElem hi]
    rfl
  have hgj : itemAt (orasort_recursive pidx
      (strings.map fun s => StringItem.mk s (load_window s 0)) 0
      ((strings.length : Int) - 1) 0) ((j : Nat) : Int)
      = (orasort_recursive pidx
        (strings.map fun s => StringItem.mk s (load_window s 0)) 0
        ((strings.length : Int) - 1) 0)[j] := by
    rw [itemAt, Int.toNat_natCast, List.getD_eq_getElem?_getD,
      List.getElem?_eq_getElem hj]
    rfl
  have hvalid : ∀ k : Nat, ∀ hk : k < (orasort_recursive pidx
      (strings.map fun s => StringItem.mk s (load_window s 0)) 0
      ((strings.length : Int) - 1) 0).length,
      ValidStr ((orasort_recursive pidx
        (strings.map fun s => StringItem.mk s (load_window s 0)) 0
        ((strings.length : Int) - 1) 0)[k]).ptr := by
    intro k hk
    obtain ⟨u, hu1, hu2, hu3⟩ := O4 ((k : Nat) : Int) (by omega) (by omega)
    have hgk : itemAt (orasort_recursive pidx
        (strings.map fun s => StringItem.mk s (load_window s 0)) 0
        ((strings.length : Int) - 1) 0) ((k : Nat) : Int)
        = (orasort_recursive pidx
          (strings.map fun s => StringItem.mk s (load_window s 0)) 0
          ((strings.length : Int) - 1) 0)[k] := by
      rw [itemAt, Int.toNat_natCast, List.getD_eq_getElem?_getD,
        List.getElem?_eq_getElem hk]
      rfl
    rw [hgk] at hu3
    rw [hu3, hitem u hu1 hu2]
    exact hv _ (hgetDmem u hu1 hu2)
  have h5 := O5 ((i : Nat) : Int) ((j : Nat) : Int) (by omega) (by omega)
    (by omega)
  rw [hgi, hgj] at h5
  rw [List.getElem_map, List.getElem_map]
  exact (strcmpBytes_nonpos_iff (hvalid i (by omega)) (hvalid j (by omega))).mp h5

/-! ## Claim theorems -/

/-- C1: for every input sequence of byte strings with no embedded NUL
bytes, the output of the top-level sort (`optimized_orasort` of orasort2.c
and `OptimizedOrasort::sort` of orasort2.cpp, the latter for any values
drawn from the random source) is sorted: adjacent output pairs are
lexicographically ordered under unsigned byte comparison. -/
theorem claim_C1_sorted_output (strings data : List (List Nat))
    (rng : Int → Int → Nat)
    (hv : ∀ s ∈ strings, ValidStr s) (hd : ∀ s ∈ data, ValidStr s) :
    List.Sorted (fun x y : List Nat => x ≤ y) (optimized_orasort strings) ∧
    List.Sorted (fun x y : List Nat => x ≤ y) (OptimizedOrasort.sort rng data) := by
  constructor
  · by_cases h : strings.length ≤ 1
    · have he : optimized_orasort strings = strings := by
        rw [optimized_orasort, if_pos h]
      rw [he]
      exact sorted_of_len_le_one h
    · have he : optimized_orasort strings = (orasort_recursive mid_pivot_index
          (strings.map fun s => StringItem.mk s (load_window s 0)) 0
          ((strings.length : Int) - 1) 0).map StringItem.ptr := by
        rw [optimized_orasort, if_neg h]
      rw [he]
      exact (orasort_wrap_spec mid_pivot_index mid_pivot_in_range strings hv).2
  · cases data with
    | nil =>
      have he : OptimizedOrasort.sort rng [] = [] := rfl
      rw [he]
      exact List.sorted_nil
    | cons d ds =>
      have he : OptimizedOrasort.sort rng (d :: ds) = (orasort_recursive
          (fun lo hi => rand_pivot_index (rng lo hi) lo hi)
          ((d :: ds).map fun s => StringItem.mk s (load_window s 0)) 0
          (((d :: ds).length : Int) - 1) 0).map StringItem.ptr := rfl
      rw [he]
      exact (orasort_wrap_spec _ (rand_pivot_in_range rng) (d :: ds) hd).2

/-- C1 witness at concrete inputs. -/
theorem claim_C1_witness :
    (∀ s ∈ [[98, 97], [97]], ValidStr s) ∧
    List.Sorted (fun x y : List Nat => x ≤ y) (optimized_orasort [[98, 97], [97]]) ∧
    List.Sorted (fun x y : List Nat => x ≤ y)
      (OptimizedOrasort.sort (fun _ _ => 0) [[99], [97], [98]]) := by
  have h := claim_C1_sorted_output [[98, 97], [97]] [[99], [97], [98]]
    (fun _ _ => 0) (by decide) (by decide)
  exact ⟨by decide, h.1, h.2⟩

/-- C2: for every input sequence of NUL-free byte strings, both top-level
sorts output a permutation of the input: the same multiset of string
values, none of them mutated. -/
theorem claim_C2_permutation (strings data : List (List Nat))
    (rng : Int → Int → Nat)
    (hv : ∀ s ∈ strings, ValidStr s) (hd : ∀ s ∈ data, ValidStr s) :
    (optimized_orasort strings).Perm strings ∧
    (OptimizedOrasort.sort rng data).Perm data := by
  constructor
  · by_cases h : strings.length ≤ 1
    · have he : optimized_orasort strings = strings := by
        rw [optimized_orasort, if_pos h]
      rw [he]
    · have he : optimized_orasort strings = (orasort_recursive mid_pivot_index
          (strings.map fun s => StringItem.mk s (load_window s 0)) 0
          ((strings.length : Int) - 1) 0).map StringItem.ptr := by
        rw [optimized_orasort, if_neg h]
      rw [he]
      exact (orasort_wrap_spec mid_pivot_index mid_pivot_in_range strings hv).1
  · cases data with
    | nil =>
      have he : OptimizedOrasort.sort rng [] = [] := rfl
      rw [he]
    | cons d ds =>
      have he : OptimizedOrasort.sort rng (d :: ds) = (orasort_recursive
          (fun lo hi => rand_pivot_index (rng lo hi) lo hi)
          ((d :: ds).map fun s => StringItem.mk s (load_window s 0)) 0
          (((d :: ds).length : Int) - 1) 0).map StringItem.ptr := rfl
      rw [he]
      exact (orasort_wrap_spec _ (rand_pivot_in_range rng) (d :: ds) hd).1

/-- C2 witness at concrete inputs. -/
theorem claim_C2_witness :
    (∀ s ∈ [[98], [97], [98]], ValidStr s) ∧
    (optimized_orasort [[98], [97], [98]]).Perm [[98], [97], [98]] ∧
    (OptimizedOrasort.sort (fun _ _ => 1) [[97, 97], [97]]).Perm [[97, 97], [97]] := by
  have h := claim_C2_permutation [[98], [97], [98]] [[97, 97], [97]]
    (fun _ _ => 1) (by decide) (by decide)
  exact ⟨by decide, h.1, h.2⟩

/-- C3: for every partition call on `[low, high]` with `low < high` at
depth `d`, over valid items cached at `d`, the computed
`min_common_with_pivot` is a true lower bound on the bytes beyond `d`
(read with zero padding past the terminator) that every item of both
resulting sub-ranges shares with the pivot in its final slot `j`. -/
theorem claim_C3_shared_prefix_bound (pidx : Int → Int → Int)
    (l : List StringItem) (low high : Int) (depth : Nat)
    (hpx : low ≤ pidx low high ∧ pidx low high ≤ high)
    (hlh : low < high) (hlow : 0 ≤ low) (hlen : high < (l.length : Int))
    (hP3 : ∀ t : Int, low ≤ t → t ≤ high → ValidStr (itemAt l t).ptr)
    (hP4 : ∀ t : Int, low ≤ t → t ≤ high →
      (itemAt l t).cache = load_window (itemAt l t).ptr depth) :
    ∀ t : Int, low ≤ t → t ≤ high → t ≠ pJ pidx l low high depth →
      ∀ s < (partitionAt pidx l low high depth).2.2,
        strByte (itemAt (pArr pidx l low high depth) t).ptr (depth + s)
          = strByte (itemAt (pArr pidx l low high depth)
              (pJ pidx l low high depth)).ptr (depth + s) :=
  (partitionAt_core pidx l low high depth hpx hlh hlow hlen hP3 hP4).2.2.2

/-- C3 witness at a concrete two-item array. -/
theorem claim_C3_witness :
    (0 : Int) < 1 ∧
    (∀ t : Int, 0 ≤ t → t ≤ 1 →
      t ≠ pJ mid_pivot_index [StringItem.mk [97, 99] (load_window [97, 99] 0),
        StringItem.mk [97, 98] (load_window [97, 98] 0)] 0 1 0 →
      ∀ s < (partitionAt mid_pivot_index
          [StringItem.mk [97, 99] (load_window [97, 99] 0),
           StringItem.mk [97, 98] (load_window [97, 98] 0)] 0 1 0).2.2,
        strByte (itemAt (pArr mid_pivot_index
          [StringItem.mk [97, 99] (load_window [97, 99] 0),
           StringItem.mk [97, 98] (load_window [97, 98] 0)] 0 1 0) t).ptr (0 + s)
          = strByte (itemAt (pArr mid_pivot_index
              [StringItem.mk [97, 99] (load_window [97, 99] 0),
               StringItem.mk [97, 98] (load_window [97, 98] 0)] 0 1 0)
              (pJ mid_pivot_index [StringItem.mk [97, 99] (load_window [97, 99] 0),
                StringItem.mk [97, 98] (load_window [97, 98] 0)] 0 1 0)).ptr
            (0 + s)) := by
  refine ⟨by decide, ?_⟩
  exact claim_C3_shared_prefix_bound mid_pivot_index
    [StringItem.mk [97, 99] (load_window [97, 99] 0),
     StringItem.mk [97, 98] (load_window [97, 98] 0)] 0 1 0
    (by decide) (by decide) (by decide) (by decide)
    (by
      intro t h1 h2
      have ht : t = 0 ∨ t = 1 := by omega
      rcases ht with h | h <;> subst h <;> decide)
    (by
      intro t h1 h2
      have ht : t = 0 ∨ t = 1 := by omega
      rcases ht with h | h <;> subst h <;> decide)

/-- C4: the window loader yields 0 at or past the string's end, otherwise
packs the zero-padded 8-byte slice big-endian; window equality is equality
of the 8-byte slices, and when the windows differ their unsigned order is
the lexicographic byte order of the suffixes (which is decided within
those 8 bytes). -/
theorem claim_C4_load_window (s t : List Nat) (d : Nat)
    (hs : ValidStr s) (ht : ValidStr t) :
    (s.length ≤ d → load_window s d = 0) ∧
    load_window s d = padVal 8 (s.drop d) ∧
    (load_window s d = load_window t d ↔ (s.drop d).take 8 = (t.drop d).take 8) ∧
    (load_window s d ≠ load_window t d →
      (load_window s d < load_window t d ↔
        strcmpBytes (s.drop d) (t.drop d) < 0)) := by
  refine ⟨?_, load_window_eq_padVal s d, ?_, ?_⟩
  · intro h
    rw [load_window, if_pos h]
  · rw [load_window_eq_padVal, load_window_eq_padVal]
    exact padVal_eq_iff (hs.drop d) (ht.drop d) 8
  · intro hne
    rw [load_window_eq_padVal, load_window_eq_padVal] at hne ⊢
    exact padVal_lt_iff (hs.drop d) (ht.drop d) 8 hne

/-- C4 witness at concrete strings. -/
theorem claim_C4_witness :
    ValidStr [97, 98, 99] ∧
    ((([97, 98, 99] : List Nat).length ≤ 1 → load_window [97, 98, 99] 1 = 0) ∧
    load_window [97, 98, 99] 1 = padVal 8 (([97, 98, 99] : List Nat).drop 1) ∧
    (load_window [97, 98, 99] 1 = load_window [98, 100] 1 ↔
      (([97, 98, 99] : List Nat).drop 1).take 8
        = (([98, 100] : List Nat).drop 1).take 8) ∧
    (load_window [97, 98, 99] 1 ≠ load_window [98, 100] 1 →
      (load_window [97, 98, 99] 1 < load_window [98, 100] 1 ↔
        strcmpBytes (([97, 98, 99] : List Nat).drop 1)
          (([98, 100] : List Nat).drop 1) < 0))) :=
  ⟨by decide, claim_C4_load_window [97, 98, 99] [98, 100] 1 (by decide) (by decide)⟩

/-- C5: on the fast path (differing windows below `2 ^ 64`), the
comparator returns `match_len = clz64(a.window XOR b.window) / 8`, which
is at most 7, equals the exact number of leading window bytes on which the
two windows agree (the next byte differs), and the ordering sign is the
unsigned comparison of the windows. -/
theorem claim_C5_fast_path (a b : StringItem) (d : Nat)
    (ha : a.cache < 2 ^ 64) (hb : b.cache < 2 ^ 64) (hne : a.cache ≠ b.cache) :
    (compare_and_count a b d).2 = clz64 (a.cache ^^^ b.cache) / 8 ∧
    (compare_and_count a b d).2 ≤ 7 ∧
    (∀ i < (compare_and_count a b d).2, winByte a.cache i = winByte b.cache i) ∧
    winByte a.cache (compare_and_count a b d).2
      ≠ winByte b.cache (compare_and_count a b d).2 ∧
    ((compare_and_count a b d).1 < 0 ↔ a.cache < b.cache) ∧
    (0 < (compare_and_count a b d).1 ↔ b.cache < a.cache) := by
  have hmeq : (compare_and_count a b d).2 = clz64 (a.cache ^^^ b.cache) / 8 := by
    rw [compare_and_count, if_pos hne]
  have hs := clz64_spec ha hb hne
  rw [hmeq]
  have hsign : (compare_and_count a b d).1
      = if a.cache < b.cache then (-1 : Int) else 1 := by
    rw [compare_and_count, if_pos hne]
  refine ⟨rfl, hs.1, hs.2.1, hs.2.2, ?_, ?_⟩
  · rw [hsign]
    by_cases hlt : a.cache < b.cache
    · rw [if_pos hlt]
      constructor
      · intro _
        exact hlt
      · intro _
        norm_num
    · rw [if_neg hlt]
      constructor
      · intro hcon
        omega
      · intro hcon
        exact absurd hcon hlt
  · rw [hsign]
    by_cases hlt : a.cache < b.cache
    · rw [if_pos hlt]
      constructor
      · intro hcon
        omega
      · intro hcon
        omega
    · rw [if_neg hlt]
      constructor
      · intro _
        omega
      · intro _
        norm_num

/-- C5 witness at concrete items. -/
theorem claim_C5_witness :
    load_window [97, 98] 0 ≠ load_window [98] 0 ∧
    ((compare_and_count (StringItem.mk [97, 98] (load_window [97, 98] 0))
        (StringItem.mk [98] (load_window [98] 0)) 0).2
      = clz64 (load_window [97, 98] 0 ^^^ load_window [98] 0) / 8 ∧
    (compare_and_count (StringItem.mk [97, 98] (load_window [97, 98] 0))
        (StringItem.mk [98] (load_window [98] 0)) 0).2 ≤ 7 ∧
    (∀ i < (compare_and_count (StringItem.mk [97, 98] (load_window [97, 98] 0))
        (StringItem.mk [98] (load_window [98] 0)) 0).2,
      winByte (load_window [97, 98] 0) i = winByte (load_window [98] 0) i) ∧
    winByte (load_window [97, 98] 0)
        (compare_and_count (StringItem.mk [97, 98] (load_window [97, 98] 0))
          (StringItem.mk [98] (load_window [98] 0)) 0).2
      ≠ winByte (load_window [98] 0)
        (compare_and_count (StringItem.mk [97, 98] (load_window [97, 98] 0))
          (StringItem.mk [98] (load_window [98] 0)) 0).2 ∧
    ((compare_and_count (StringItem.mk [97, 98] (load_window [97, 98] 0))
        (StringItem.mk [98] (load_window [98] 0)) 0).1 < 0 ↔
      load_window [97, 98] 0 < load_window [98] 0) ∧
    (0 < (compare_and_count (StringItem.mk [97, 98] (load_window [97, 98] 0))
        (StringItem.mk [98] (load_window [98] 0)) 0).1 ↔
      load_window [98] 0 < load_window [97, 98] 0)) :=
  ⟨by decide, claim_C5_fast_path (StringItem.mk [97, 98] (load_window [97, 98] 0))
    (StringItem.mk [98] (load_window [98] 0)) 0
    (show load_window [97, 98] 0 < 2 ^ 64 by decide)
    (show load_window [98] 0 < 2 ^ 64 by decide)
    (show load_window [97, 98] 0 ≠ load_window [98] 0 by decide)⟩

/-- C6: the claimed slow-path safety fails: for the NUL-free string "ab"
paired with itself at depth 0 the windows are equal, yet the scan's very
first read is at offset 8, past both strings' terminators (length 2), so
`slowScanInBounds` is violated. -/
theorem claim_C6_slow_path_oob :
    ValidStr [97, 98] ∧
    (StringItem.mk [97, 98] (load_window [97, 98] 0)).cache
      = (StringItem.mk [97, 98] (load_window [97, 98] 0)).cache ∧
    ¬ slowScanInBounds (StringItem.mk [97, 98] (load_window [97, 98] 0))
      (StringItem.mk [97, 98] (load_window [97, 98] 0)) 0 := by
  refine ⟨by decide, rfl, ?_⟩
  intro h
  have := (h 0 (by decide)).1
  simp [StringItem.mk] at this

/-- C8 counterexample: the C cached variant's pivot choice is the middle
element, independent of any random draw; on the range `[0, 1]` no draw can
make it select index 1, refuting "selected at random over the full
range". -/
theorem claim_C8_counterexample :
    ¬ ∀ k : Int, 0 ≤ k → k ≤ 1 → ∃ _r : Nat, mid_pivot_index 0 1 = k := by
  intro h
  obtain ⟨_, hr⟩ := h 1 (by norm_num) le_rfl
  rw [mid_pivot_index] at hr
  omega

/-- C8 (amended): the C variant (orasort2.c line 118) picks the fixed
middle index `low + (high - low) / 2`, always within `[low, high]`; only
the C++ variant (orasort2.cpp line 138) draws `low + rand() % (high - low
+ 1)`, which is within `[low, high]` and reaches every index of the range
for a suitable draw. -/
theorem claim_C8_pivot_selection :
    (∀ low high : Int, mid_pivot_index low high = low + (high - low) / 2) ∧
    (∀ low high : Int, low < high →
      low ≤ mid_pivot_index low high ∧ mid_pivot_index low high ≤ high) ∧
    (∀ (r : Nat) (low high : Int), low < high →
      low ≤ rand_pivot_index r low high ∧ rand_pivot_index r low high ≤ high) ∧
    (∀ low high k : Int, low ≤ k → k ≤ high →
      ∃ r : Nat, rand_pivot_index r low high = k) := by
  refine ⟨fun low high => rfl, mid_pivot_in_range, ?_, ?_⟩
  · intro r low high h
    rw [rand_pivot_index]
    have h1 : 0 ≤ ((r : Nat) : Int) % (high - low + 1) :=
      Int.emod_nonneg _ (by omega)
    have h2 : ((r : Nat) : Int) % (high - low + 1) < high - low + 1 :=
      Int.emod_lt_of_pos _ (by omega)
    omega
  · intro low high k h1 h2
    refine ⟨(k - low).toNat, ?_⟩
    rw [rand_pivot_index]
    have hc : (((k - low).toNat : Nat) : Int) = k - low :=
      Int.toNat_of_nonneg (by omega)
    rw [hc, Int.emod_eq_of_lt (by omega) (by omega)]
    omega

/-- C8 witness at concrete ranges. -/
theorem claim_C8_witness :
    mid_pivot_index 0 5 = 0 + (5 - 0) / 2 ∧
    (0 ≤ mid_pivot_index 0 5 ∧ mid_pivot_index 0 5 ≤ 5) ∧
    (0 ≤ rand_pivot_index 7 0 5 ∧ rand_pivot_index 7 0 5 ≤ 5) ∧
    (∃ r : Nat, rand_pivot_index r 0 5 = 4) :=
  ⟨claim_C8_pivot_selection.1 0 5,
   claim_C8_pivot_selection.2.1 0 5 (by norm_num),
   claim_C8_pivot_selection.2.2.1 7 0 5 (by norm_num),
   claim_C8_pivot_selection.2.2.2 0 5 4 (by norm_num) (by norm_num)⟩

/-- C7: the window-validity invariant is re-established for both recursive
calls: starting from a range of valid items cached at `depth`, the
argument arrays of the left and right recursions (conditionally refreshed
ranges of the partitioned array) have every in-range window equal to the
loaded window of its string at the new depth. -/
theorem claim_C7_window_invariant (pidx : Int → Int → Int)
    (l : List StringItem) (low high : Int) (depth : Nat)
    (hpx : low ≤ pidx low high ∧ pidx low high ≤ high)
    (hlh : low < high) (hlow : 0 ≤ low) (hlen : high < (l.length : Int))
    (hP3 : ∀ t : Int, low ≤ t → t ≤ high → ValidStr (itemAt l t).ptr)
    (hP4 : ∀ t : Int, low ≤ t → t ≤ high →
      (itemAt l t).cache = load_window (itemAt l t).ptr depth) :
    (∀ t : Int, low ≤ t → t ≤ pJ pidx l low high depth - 1 →
      (itemAt (prepRange (pArr pidx l low high depth) low
          (pJ pidx l low high depth - 1) depth (pND pidx l low high depth)) t).cache
        = load_window (itemAt (prepRange (pArr pidx l low high depth) low
            (pJ pidx l low high depth - 1) depth (pND pidx l low high depth)) t).ptr
          (pND pidx l low high depth)) ∧
    (∀ t : Int, pJ pidx l low high depth + 1 ≤ t → t ≤ high →
      (itemAt (prepRange (pArr pidx l low high depth)
          (pJ pidx l low high depth + 1) high depth
          (pND pidx l low high depth)) t).cache
        = load_window (itemAt (prepRange (pArr pidx l low high depth)
            (pJ pidx l low high depth + 1) high depth
            (pND pidx l low high depth)) t).ptr
          (pND pidx l low high depth)) := by
  obtain ⟨hA1, hJb, hmap, _⟩ :=
    partitionAt_core pidx l low high depth hpx hlh hlow hlen hP3 hP4
  have hndrfl : pND pidx l low high depth
      = depth + resetSentinel (partitionAt pidx l low high depth).2.2 := rfl
  have hdn : depth ≤ pND pidx l low high depth := by omega
  have hX4 : ∀ t : Int, low ≤ t → t ≤ high →
      (itemAt (pArr pidx l low high depth) t).cache
        = load_window (itemAt (pArr pidx l low high depth) t).ptr depth := by
    intro t h1 h2
    obtain ⟨u, hu1, hu2, hu3⟩ := hmap t h1 h2
    rw [hu3]
    exact hP4 u hu1 hu2
  constructor
  · intro t h1 h2
    exact cache_prepRange_in (pArr pidx l low high depth) low
      (pJ pidx l low high depth - 1) depth (pND pidx l low high depth) t h1 h2
      hlow (by omega) hdn (hX4 t h1 (by omega))
  · intro t h1 h2
    exact cache_prepRange_in (pArr pidx l low high depth)
      (pJ pidx l low high depth + 1) high depth (pND pidx l low high depth) t h1 h2
      (by omega) (by omega) hdn (hX4 t (by omega) h2)

/-- C7 witness at a concrete two-item array. -/
theorem claim_C7_witness :
    (0 : Int) < 1 ∧
    ((∀ t : Int, 0 ≤ t →
      t ≤ pJ mid_pivot_index [StringItem.mk [98] (load_window [98] 0),
        StringItem.mk [97] (load_window [97] 0)] 0 1 0 - 1 →
      (itemAt (prepRange (pArr mid_pivot_index
          [StringItem.mk [98] (load_window [98] 0),
           StringItem.mk [97] (load_window [97] 0)] 0 1 0) 0
          (pJ mid_pivot_index [StringItem.mk [98] (load_window [98] 0),
            StringItem.mk [97] (load_window [97] 0)] 0 1 0 - 1) 0
          (pND mid_pivot_index [StringItem.mk [98] (load_window [98] 0),
            StringItem.mk [97] (load_window [97] 0)] 0 1 0)) t).cache
        = load_window (itemAt (prepRange (pArr mid_pivot_index
            [StringItem.mk [98] (load_window [98] 0),
             StringItem.mk [97] (load_window [97] 0)] 0 1 0) 0
            (pJ mid_pivot_index [StringItem.mk [98] (load_window [98] 0),
              StringItem.mk [97] (load_window [97] 0)] 0 1 0 - 1) 0
            (pND mid_pivot_index [StringItem.mk [98] (load_window [98] 0),
              StringItem.mk [97] (load_window [97] 0)] 0 1 0)) t).ptr
          (pND mid_pivot_index [StringItem.mk [98] (load_window [98] 0),
            StringItem.mk [97] (load_window [97] 0)] 0 1 0)) ∧
    (∀ t : Int,
      pJ mid_pivot_index [StringItem.mk [98] (load_window [98] 0),
        StringItem.mk [97] (load_window [97] 0)] 0 1 0 + 1 ≤ t → t ≤ 1 →
      (itemAt (prepRange (pArr mid_pivot_index
          [StringItem.mk [98] (load_window [98] 0),
           StringItem.mk [97] (load_window [97] 0)] 0 1 0)
          (pJ mid_pivot_index [StringItem.mk [98] (load_window [98] 0),
            StringItem.mk [97] (load_window [97] 0)] 0 1 0 + 1) 1 0
          (pND mid_pivot_index [StringItem.mk [98] (load_window [98] 0),
            StringItem.mk [97] (load_window [97] 0)] 0 1 0)) t).cache
        = load_window (itemAt (prepRange (pArr mid_pivot_index
            [StringItem.mk [98] (load_window [98] 0),
             StringItem.mk [97] (load_window [97] 0)] 0 1 0)
            (pJ mid_pivot_index [StringItem.mk [98] (load_window [98] 0),
              StringItem.mk [97] (load_window [97] 0)] 0 1 0 + 1) 1 0
            (pND mid_pivot_index [StringItem.mk [98] (load_window [98] 0),
              StringItem.mk [97] (load_window [97] 0)] 0 1 0)) t).ptr
          (pND mid_pivot_index [StringItem.mk [98] (load_window [98] 0),
            StringItem.mk [97] (load_window [97] 0)] 0 1 0))) := by
  refine ⟨by decide, ?_⟩
  exact claim_C7_window_invariant mid_pivot_index
    [StringItem.mk [98] (load_window [98] 0),
     StringItem.mk [97] (load_window [97] 0)] 0 1 0
    (by decide) (by decide) (by decide) (by decide)
    (by
      intro t h1 h2
      have ht : t = 0 ∨ t = 1 := by omega
      rcases ht with h | h <;> subst h <;> decide)
    (by
      intro t h1 h2
      have ht : t = 0 ∨ t = 1 := by omega
      rcases ht with h | h <;> subst h <;> decide)

/-- C9: when the item-array allocation fails, `optimized_orasort`
(orasort2.c lines 198-199) returns silently: the caller's array is left
unchanged and no failure is signalled — contradicting the spec's demand
for an explicit failure result. -/
theorem claim_C9_alloc_failure_silent (strings : List (List Nat)) :
    optimized_orasort_alloc false strings = strings := by
  rw [optimized_orasort_alloc]
  split
  · rfl
  · rw [if_pos rfl]

/-! ## Naive variant: scan characterizations and the partition loop -/

theorem getD_listSwap_int (l : List (List Nat)) (p q t : Int)
    (hpl : p.toNat < l.length) (hql : q.toNat < l.length)
    (hp : 0 ≤ p) (hq : 0 ≤ q) (ht : 0 ≤ t) :
    (listSwap l p.toNat q.toNat []).getD t.toNat [] =
      if q = t then l.getD p.toNat [] else if p = t then l.getD q.toNat []
      else l.getD t.toNat [] := by
  rw [getD_listSwap _ _ _ _ _ hpl hql]
  by_cases h1 : q = t
  · rw [if_pos (show q.toNat = t.toNat by omega), if_pos h1]
  · rw [if_neg (show ¬q.toNat = t.toNat by omega), if_neg h1]
    by_cases h2 : p = t
    · rw [if_pos (show p.toNat = t.toNat by omega), if_pos h2]
    · rw [if_neg (show ¬p.toNat = t.toNat by omega), if_neg h2]

theorem lscan_ub (l : List (List Nat)) (pivot : List Nat) (nd : Nat) (i high : Int) :
    i ≤ high + 1 → lscan l pivot nd i high ≤ high + 1 := by
  induction i, high using lscan.induct l pivot nd with
  | case1 i high h ih =>
    intro _
    rw [lscan, if_pos h]
    exact ih (by omega)
  | case2 i high h =>
    intro hle
    rw [lscan, if_neg h]
    exact hle

theorem lscan_passed (l : List (List Nat)) (pivot : List Nat) (nd : Nat)
    (i high : Int) :
    ∀ t : Int, i ≤ t → t < lscan l pivot nd i high →
      compare_skip (l.getD t.toNat []) pivot nd < 0 := by
  induction i, high using lscan.induct l pivot nd with
  | case1 i high h ih =>
    intro t h1 h2
    rw [lscan, if_pos h] at h2
    by_cases hti : t = i
    · rw [hti]
      exact h.2
    · exact ih t (by omega) h2
  | case2 i high h =>
    intro t h1 h2
    rw [lscan, if_neg h] at h2
    omega

theorem lscan_stopped (l : List (List Nat)) (pivot : List Nat) (nd : Nat)
    (i high : Int) :
    lscan l pivot nd i high ≤ high →
      0 ≤ compare_skip (l.getD (lscan l pivot nd i high).toNat []) pivot nd := by
  induction i, high using lscan.induct l pivot nd with
  | case1 i high h ih =>
    intro hle
    rw [lscan, if_pos h] at hle ⊢
    exact ih hle
  | case2 i high h =>
    intro hle
    rw [lscan, if_neg h] at hle ⊢
    rcases not_and_or.mp h with h1 | h2
    · omega
    · omega

theorem rscan_lb (l : List (List Nat)) (pivot : List Nat) (nd : Nat) (j low : Int) :
    low ≤ j → low ≤ rscan l pivot nd j low := by
  induction j, low using rscan.induct l pivot nd with
  | case1 j low h ih =>
    intro _
    rw [rscan, if_pos h]
    exact ih (by omega)
  | case2 j low h =>
    intro hle
    rw [rscan, if_neg h]
    exact hle

theorem rscan_passed (l : List (List Nat)) (pivot : List Nat) (nd : Nat)
    (j low : Int) :
    ∀ t : Int, rscan l pivot nd j low < t → t ≤ j →
      0 < compare_skip (l.getD t.toNat []) pivot nd := by
  induction j, low using rscan.induct l pivot nd with
  | case1 j low h ih =>
    intro t h1 h2
    rw [rscan, if_pos h] at h1
    by_cases htj : t = j
    · rw [htj]
      exact h.2
    · exact ih t h1 (by omega)
  | case2 j low h =>
    intro t h1 h2
    rw [rscan, if_neg h] at h1
    omega

theorem rscan_stopped (l : List (List Nat)) (pivot : List Nat) (nd : Nat)
    (j low : Int) :
    low < rscan l pivot nd j low →
      compare_skip (l.getD (rscan l pivot nd j low).toNat []) pivot nd ≤ 0 := by
  induction j, low using rscan.induct l pivot nd with
  | case1 j low h ih =>
    intro hlt
    rw [rscan, if_pos h] at hlt ⊢
    exact ih hlt
  | case2 j low h =>
    intro hlt
    rw [rscan, if_neg h] at hlt ⊢
    rcases not_and_or.mp h with h1 | h2
    · omega
    · omega

/-- Invariants of the naive partition loop (orasort.c lines 64-73): the
result keeps the length, is a permutation, leaves `[low + 1, high]`'s
complement unchanged, crosses its cursors, compares at most 0 left of the
final `i`, at least 0 right of the final `j`, and draws every in-range
value from the input range. -/
theorem lgLoop_spec (l : List (List Nat)) (pivot : List Nat) (nd : Nat)
    (low high i j : Int) :
    0 ≤ low → high < (l.length : Int) →
    low + 1 ≤ i → i ≤ high + 1 → low ≤ j → j ≤ high →
    (∀ t : Int, low + 1 ≤ t → t < i →
      compare_skip (l.getD t.toNat []) pivot nd ≤ 0) →
    (∀ t : Int, j < t → t ≤ high →
      0 ≤ compare_skip (l.getD t.toNat []) pivot nd) →
    (lgLoop l pivot nd low high i j).1.length = l.length ∧
    (lgLoop l pivot nd low high i j).1.Perm l ∧
    (∀ t : Int, (t < i ∨ j < t) →
      (lgLoop l pivot nd low high i j).1.getD t.toNat [] = l.getD t.toNat []) ∧
    (low ≤ (lgLoop l pivot nd low high i j).2.2 ∧
      (lgLoop l pivot nd low high i j).2.2 ≤ j) ∧
    (low + 1 ≤ (lgLoop l pivot nd low high i j).2.1 ∧
      (lgLoop l pivot nd low high i j).2.1 ≤ high + 1) ∧
    (lgLoop l pivot nd low high i j).2.2 < (lgLoop l pivot nd low high i j).2.1 ∧
    (∀ t : Int, low + 1 ≤ t → t < (lgLoop l pivot nd low high i j).2.1 →
      compare_skip ((lgLoop l pivot nd low high i j).1.getD t.toNat []) pivot nd
        ≤ 0) ∧
    (∀ t : Int, (lgLoop l pivot nd low high i j).2.2 < t → t ≤ high →
      0 ≤ compare_skip ((lgLoop l pivot nd low high i j).1.getD t.toNat [])
        pivot nd) ∧
    (∀ t : Int, low + 1 ≤ t → t ≤ high → ∃ u : Int, low + 1 ≤ u ∧ u ≤ high ∧
      (lgLoop l pivot nd low high i j).1.getD t.toNat [] = l.getD u.toNat []) := by
  induction l, pivot, nd, low, high, i, j using lgLoop.induct with
  | case1 l pivot nd low high i j hij hle ih =>
    intro hlow hlen h1i h2i h1j h2j hB hC
    have hIi := lscan_ge l pivot nd i high
    have hJj := rscan_le l pivot nd j low
    have hIh : lscan l pivot nd i high ≤ high := by omega
    have hJl : low + 1 ≤ rscan l pivot nd j low := by omega
    have hIl : (lscan l pivot nd i high).toNat < l.length := by omega
    have hJle : (rscan l pivot nd j low).toNat < l.length := by omega
    have hswap : ∀ t : Int,
        (listSwap l (lscan l pivot nd i high).toNat
          (rscan l pivot nd j low).toNat []).getD t.toNat [] =
        if rscan l pivot nd j low = t then l.getD (lscan l pivot nd i high).toNat []
        else if lscan l pivot nd i high = t then
          l.getD (rscan l pivot nd j low).toNat []
        else l.getD t.toNat [] := by
      intro t
      by_cases ht : 0 ≤ t
      · exact getD_listSwap_int l _ _ t hIl hJle (by omega) (by omega) ht
      · rw [if_neg (by omega), if_neg (by omega)]
        have h0 : t.toNat = 0 := by omega
        rw [h0, getD_listSwap _ _ _ _ _ hIl hJle,
          if_neg (show ¬(rscan l pivot nd j low).toNat = 0 by omega),
          if_neg (show ¬(lscan l pivot nd i high).toNat = 0 by omega)]
    have hlen' : high < ((listSwap l (lscan l pivot nd i high).toNat
        (rscan l pivot nd j low).toNat []).length : Int) := by
      rw [length_listSwap]
      exact hlen
    have hstopL := lscan_stopped l pivot nd i high hIh
    have hstopR := rscan_stopped l pivot nd j low (by omega)
    have hB' : ∀ t : Int, low + 1 ≤ t → t < lscan l pivot nd i high + 1 →
        compare_skip ((listSwap l (lscan l pivot nd i high).toNat
          (rscan l pivot nd j low).toNat []).getD t.toNat []) pivot nd ≤ 0 := by
      intro t ht1 ht2
      rw [hswap t]
      by_cases hq : rscan l pivot nd j low = t
      · rw [if_pos hq]
        have hIJ : lscan l pivot nd i high = rscan l pivot nd j low := by omega
        rw [hIJ]
        exact hstopR
      · rw [if_neg hq]
        by_cases hp : lscan l pivot nd i high = t
        · rw [if_pos hp]
          exact hstopR
        · rw [if_neg hp]
          by_cases hti : t < i
          · exact hB t ht1 hti
          · exact le_of_lt (lscan_passed l pivot nd i high t (by omega) (by omega))
    have hC' : ∀ t : Int, rscan l pivot nd j low - 1 < t → t ≤ high →
        0 ≤ compare_skip ((listSwap l (lscan l pivot nd i high).toNat
          (rscan l pivot nd j low).toNat []).getD t.toNat []) pivot nd := by
      intro t ht1 ht2
      rw [hswap t]
      by_cases hq : rscan l pivot nd j low = t
      · rw [if_pos hq]
        exact hstopL
      · rw [if_neg hq]
        by_cases hp : lscan l pivot nd i high = t
        · rw [if_pos hp]
          have hIJ : lscan l pivot nd i high = rscan l pivot nd j low := by omega
          rw [← hIJ]
          exact hstopL
        · rw [if_neg hp]
          by_cases htj : j < t
          · exact hC t htj ht2
          · exact le_of_lt (rscan_passed l pivot nd j low t (by omega) (by omega))
    obtain ⟨r1, r2, r3, r4, r5, r6, r7, r8, r9⟩ := ih hlow hlen'
      (by omega) (by omega) (by omega) (by omega) hB' hC'
    rw [lgLoop, if_pos hij, if_pos hle]
    refine ⟨by rw [r1, length_listSwap], r2.trans (listSwap_perm [] l _ _ hIl hJle),
      ?_, by omega, by omega, by omega, r7, r8, ?_⟩
    · intro t hside
      rw [r3 t (by omega), hswap t, if_neg (by omega), if_neg (by omega)]
    · intro t ht1 ht2
      obtain ⟨u, hu1, hu2, hu3⟩ := r9 t ht1 ht2
      rw [hu3, hswap u]
      by_cases hq : rscan l pivot nd j low = u
      · rw [if_pos hq]
        exact ⟨lscan l pivot nd i high, by omega, by omega, rfl⟩
      · rw [if_neg hq]
        by_cases hp : lscan l pivot nd i high = u
        · rw [if_pos hp]
          exact ⟨rscan l pivot nd j low, by omega, by omega, rfl⟩
        · rw [if_neg hp]
          exact ⟨u, hu1, hu2, rfl⟩
  | case2 l pivot nd low high i j hij hle =>
    intro hlow hlen h1i h2i h1j h2j hB hC
    have hIi := lscan_ge l pivot nd i high
    have hJj := rscan_le l pivot nd j low
    have hJlb := rscan_lb l pivot nd j low (by omega)
    have hIub := lscan_ub l pivot nd i high (by omega)
    rw [lgLoop, if_pos hij, if_neg hle]
    refine ⟨rfl, List.Perm.refl l, fun t _ => rfl, ?_, ?_, ?_, ?_, ?_,
      fun t ht1 ht2 => ⟨t, ht1, ht2, rfl⟩⟩
    · constructor <;> dsimp only <;> omega
    · constructor <;> dsimp only <;> omega
    · dsimp only
      omega
    · intro t ht1 ht2
      dsimp only at ht2 ⊢
      by_cases hti : t < i
      · exact hB t ht1 hti
      · exact le_of_lt (lscan_passed l pivot nd i high t (by omega) ht2)
    · intro t ht1 ht2
      dsimp only at ht1 ⊢
      by_cases htj : j < t
      · exact hC t htj ht2
      · exact le_of_lt (rscan_passed l pivot nd j low t ht1 (by omega))
  | case3 l pivot nd low high i j hij =>
    intro hlow hlen h1i h2i h1j h2j hB hC
    rw [lgLoop, if_neg hij]
    refine ⟨rfl, List.Perm.refl l, fun t _ => rfl, ?_, ?_, ?_, ?_, ?_,
      fun t ht1 ht2 => ⟨t, ht1, ht2, rfl⟩⟩
    · constructor <;> dsimp only <;> omega
    · constructor <;> dsimp only <;> omega
    · dsimp only
      omega
    · intro t ht1 ht2
      dsimp only at ht2 ⊢
      exact hB t ht1 ht2
    · intro t ht1 ht2
      dsimp only at ht1 ⊢
      exact hC t ht1 ht2

/-! ## Naive variant: the common-prefix scan -/

theorem gcpLoop_le_acc (l : List (List Nat)) (ref : List Nat) (depth : Nat)
    (i high : Int) (acc : Option Nat) :
    ∀ m : Nat, acc = some m → (gcpLoop l ref depth i high acc).getD 0 ≤ m := by
  induction i, high, acc using gcpLoop.induct l ref depth with
  | case1 i high acc h ih =>
    intro m hm
    subst hm
    rw [gcpLoop, if_pos h]
    have hstep := ih _ rfl
    rw [Option.getD_some] at hstep
    rw [Option.getD_some]
    omega
  | case2 i high acc h =>
    intro m hm
    rw [gcpLoop, if_neg h, hm, Option.getD_some]

theorem gcpLoop_le (l : List (List Nat)) (ref : List Nat) (depth : Nat)
    (i high : Int) (acc : Option Nat) :
    ∀ t : Int, i ≤ t → t ≤ high →
      (gcpLoop l ref depth i high acc).getD 0
        ≤ scanMatch (ref.drop depth) ((l.getD t.toNat []).drop depth) := by
  induction i, high, acc using gcpLoop.induct l ref depth with
  | case1 i high acc h ih =>
    intro t h1 h2
    rw [gcpLoop, if_pos h]
    by_cases hti : t = i
    · have hstep := gcpLoop_le_acc l ref depth (i + 1) high
        (some (min (acc.getD (scanMatch (ref.drop depth)
          ((l.getD i.toNat []).drop depth)))
          (scanMatch (ref.drop depth) ((l.getD i.toNat []).drop depth)))) _ rfl
      rw [hti]
      omega
    · exact ih t (by omega) h2
  | case2 i high acc h =>
    intro t h1 h2
    omega

/-- `get_common_prefix` (orasort.c lines 14-41) is a lower bound: every
element of `[low, high]` agrees with `arr[low]` on the first
`get_common_prefix` bytes beyond `depth` (bytes read as 0 past the end). -/
theorem gcp_agrees (l : List (List Nat)) (low high : Int) (depth : Nat)
    (hlh : low < high) :
    ∀ t : Int, low ≤ t → t ≤ high →
      ∀ s : Nat, s < get_common_prefixLen l low high depth →
        strByte (l.getD t.toNat []) (depth + s)
          = strByte (l.getD low.toNat []) (depth + s) := by
  intro t h1 h2 s hs
  by_cases hteq : t = low
  · rw [hteq]
  · rw [get_common_prefixLen, if_neg (by omega : ¬low ≥ high)] at hs
    have hle := gcpLoop_le l (l.getD low.toNat []) depth (low + 1) high none t
      (by omega) h2
    have hsm : s < scanMatch ((l.getD low.toNat []).drop depth)
        ((l.getD t.toNat []).drop depth) := by omega
    have hag := scanMatch_agrees _ _ s hsm
    rw [getD_drop, getD_drop] at hag
    exact hag.symm

/-- One full partition call of the naive variant at the advanced depth
`nd` (orasort.c lines 55-74): bounds of the final cursors, frame, item
sources, the pivot's final slot, full-string ordering of the two halves
against the pivot, and equality to the pivot across the cursor gap. -/
theorem lgPartitionAt_spec (pidx : Int → Int → Int) (l : List (List Nat))
    (low high : Int) (nd : Nat)
    (hpx : low ≤ pidx low high ∧ pidx low high ≤ high)
    (hlh : low < high) (hlow : 0 ≤ low) (hlen : high < (l.length : Int))
    (hP3 : ∀ t : Int, low ≤ t → t ≤ high → ValidStr (l.getD t.toNat []))
    (hAg : ∀ t u : Int, low ≤ t → t ≤ high → low ≤ u → u ≤ high →
      ∀ s < nd, strByte (l.getD t.toNat []) s = strByte (l.getD u.toNat []) s) :
    (lgArr pidx l low high nd).length = l.length ∧
    (lgArr pidx l low high nd).Perm l ∧
    (∀ t : Int, 0 ≤ t → (t < low ∨ high < t) →
      (lgArr pidx l low high nd).getD t.toNat [] = l.getD t.toNat []) ∧
    (low ≤ lgJf pidx l low high nd ∧ lgJf pidx l low high nd ≤ high ∧
      lgJf pidx l low high nd < lgI pidx l low high nd ∧
      low + 1 ≤ lgI pidx l low high nd ∧ lgI pidx l low high nd ≤ high + 1) ∧
    (∀ t : Int, low ≤ t → t ≤ high → ∃ u : Int, low ≤ u ∧ u ≤ high ∧
      (lgArr pidx l low high nd).getD t.toNat [] = l.getD u.toNat []) ∧
    (lgArr pidx l low high nd).getD (lgJf pidx l low high nd).toNat []
      = l.getD (pidx low high).toNat [] ∧
    (∀ t : Int, low ≤ t → t ≤ lgJf pidx l low high nd - 1 →
      strcmpBytes ((lgArr pidx l low high nd).getD t.toNat [])
        ((lgArr pidx l low high nd).getD (lgJf pidx l low high nd).toNat []) ≤ 0) ∧
    (∀ t : Int, lgJf pidx l low high nd + 1 ≤ t → t ≤ high →
      strcmpBytes ((lgArr pidx l low high nd).getD (lgJf pidx l low high nd).toNat [])
        ((lgArr pidx l low high nd).getD t.toNat []) ≤ 0) ∧
    (∀ t : Int, lgJf pidx l low high nd + 1 ≤ t → t ≤ lgI pidx l low high nd - 1 →
      (lgArr pidx l low high nd).getD t.toNat []
        = (lgArr pidx l low high nd).getD (lgJf pidx l low high nd).toNat []) := by
  have hpxl : (pidx low high).toNat < l.length := by omega
  have hlowl : low.toNat < l.length := by omega
  have hswap0 : ∀ t : Int, 0 ≤ t →
      (listSwap l low.toNat (pidx low high).toNat []).getD t.toNat [] =
      if pidx low high = t then l.getD low.toNat []
      else if low = t then l.getD (pidx low high).toNat []
      else l.getD t.toNat [] := by
    intro t ht
    exact getD_listSwap_int l low (pidx low high) t hlowl hpxl hlow (by omega) ht
  have hpiv : (listSwap l low.toNat (pidx low high).toNat []).getD low.toNat []
      = l.getD (pidx low high).toNat [] := by
    have h := hswap0 low hlow
    rw [show low.toNat = (low : Int).toNat from rfl] at h
    rw [h]
    by_cases hc : pidx low high = low
    · rw [if_pos hc, hc]
    · rw [if_neg hc, if_pos rfl]
  have hlen1 : high < ((listSwap l low.toNat (pidx low high).toNat []).length : Int) := by
    rw [length_listSwap]
    exact hlen
  obtain ⟨r1, r2, r3, r4, r5, r6, r7, r8, r9⟩ := lgLoop_spec
    (listSwap l low.toNat (pidx low high).toNat [])
    ((listSwap l low.toNat (pidx low high).toNat []).getD low.toNat [])
    nd low high (low + 1) high hlow hlen1 le_rfl (by omega) (by omega) le_rfl
    (fun t h1 h2 => absurd h2 (by omega))
    (fun t h1 h2 => absurd h1 (by omega))
  have hJdef : lgJf pidx l low high nd = (lgLoop
      (listSwap l low.toNat (pidx low high).toNat [])
      ((listSwap l low.toNat (pidx low high).toNat []).getD low.toNat [])
      nd low high (low + 1) high).2.2 := rfl
  have hIdef : lgI pidx l low high nd = (lgLoop
      (listSwap l low.toNat (pidx low high).toNat [])
      ((listSwap l low.toNat (pidx low high).toNat []).getD low.toNat [])
      nd low high (low + 1) high).2.1 := rfl
  have hArr : lgArr pidx l low high nd = listSwap (lgLoop
      (listSwap l low.toNat (pidx low high).toNat [])
      ((listSwap l low.toNat (pidx low high).toNat []).getD low.toNat [])
      nd low high (low + 1) high).1 low.toNat (lgJf pidx l low high nd).toNat [] :=
    rfl
  have hJb : low ≤ lgJf pidx l low high nd ∧ lgJf pidx l low high nd ≤ high := by
    rw [hJdef]
    omega
  have hIb : low + 1 ≤ lgI pidx l low high nd ∧
      lgI pidx l low high nd ≤ high + 1 := by
    rw [hIdef]
    omega
  have hJI : lgJf pidx l low high nd < lgI pidx l low high nd := by
    rw [hJdef, hIdef]
    exact r6
  have hlen2 : (lgLoop (listSwap l low.toNat (pidx low high).toNat [])
      ((listSwap l low.toNat (pidx low high).toNat []).getD low.toNat [])
      nd low high (low + 1) high).1.length = l.length := by
    rw [r1, length_listSwap]
  have hlowl2 : low.toNat < (lgLoop (listSwap l low.toNat (pidx low high).toNat [])
      ((listSwap l low.toNat (pidx low high).toNat []).getD low.toNat [])
      nd low high (low + 1) high).1.length := by omega
  have hJl2 : (lgJf pidx l low high nd).toNat < (lgLoop
      (listSwap l low.toNat (pidx low high).toNat [])
      ((listSwap l low.toNat (pidx low high).toNat []).getD low.toNat [])
      nd low high (low + 1) high).1.length := by omega
  have hswap2 : ∀ t : Int, 0 ≤ t → (lgArr pidx l low high nd).getD t.toNat [] =
      if lgJf pidx l low high nd = t then
        (lgLoop (listSwap l low.toNat (pidx low high).toNat [])
          ((listSwap l low.toNat (pidx low high).toNat []).getD low.toNat [])
          nd low high (low + 1) high).1.getD low.toNat []
      else if low = t then
        (lgLoop (listSwap l low.toNat (pidx low high).toNat [])
          ((listSwap l low.toNat (pidx low high).toNat []).getD low.toNat [])
          nd low high (low + 1) high).1.getD (lgJf pidx l low high nd).toNat []
      else (lgLoop (listSwap l low.toNat (pidx low high).toNat [])
          ((listSwap l low.toNat (pidx low high).toNat []).getD low.toNat [])
          nd low high (low + 1) high).1.getD t.toNat [] := by
    intro t ht
    rw [hArr]
    exact getD_listSwap_int _ low (lgJf pidx l low high nd) t hlowl2 hJl2 hlow
      (by omega) ht
  have hlowval : (lgLoop (listSwap l low.toNat (pidx low high).toNat [])
      ((listSwap l low.toNat (pidx low high).toNat []).getD low.toNat [])
      nd low high (low + 1) high).1.getD low.toNat []
      = l.getD (pidx low high).toNat [] := by
    have h := r3 low (by omega)
    rw [show (low : Int).toNat = low.toNat from rfl] at h
    rw [h]
    exact hpiv
  have hjfval : (lgArr pidx l low high nd).getD (lgJf pidx l low high nd).toNat []
      = l.getD (pidx low high).toNat [] := by
    rw [hswap2 _ (by omega), if_pos rfl]
    exact hlowval
  have hmap1 : ∀ t : Int, low ≤ t → t ≤ high → ∃ u : Int, low ≤ u ∧ u ≤ high ∧
      (lgLoop (listSwap l low.toNat (pidx low high).toNat [])
        ((listSwap l low.toNat (pidx low high).toNat []).getD low.toNat [])
        nd low high (low + 1) high).1.getD t.toNat [] = l.getD u.toNat [] := by
    intro t h1 h2
    by_cases hcv : low + 1 ≤ t
    · obtain ⟨w, hw1, hw2, hw3⟩ := r9 t hcv h2
      rw [hw3, hswap0 w (by omega)]
      by_cases hc1 : pidx low high = w
      · rw [if_pos hc1]
        exact ⟨low, le_rfl, by omega, rfl⟩
      · rw [if_neg hc1]
        by_cases hc2 : low = w
        · rw [if_pos hc2]
          exact ⟨pidx low high, hpx.1, hpx.2, rfl⟩
        · rw [if_neg hc2]
          exact ⟨w, by omega, hw2, rfl⟩
    · have hteq : t = low := by omega
      rw [hteq]
      exact ⟨pidx low high, hpx.1, hpx.2, hlowval⟩
  have hmapA : ∀ t : Int, low ≤ t → t ≤ high → ∃ u : Int, low ≤ u ∧ u ≤ high ∧
      (lgArr pidx l low high nd).getD t.toNat [] = l.getD u.toNat [] := by
    intro t h1 h2
    rw [hswap2 t (by omega)]
    by_cases hc1 : lgJf pidx l low high nd = t
    · rw [if_pos hc1]
      exact ⟨pidx low high, hpx.1, hpx.2, hlowval⟩
    · rw [if_neg hc1]
      by_cases hc2 : low = t
      · rw [if_pos hc2]
        exact hmap1 (lgJf pidx l low high nd) hJb.1 hJb.2
      · rw [if_neg hc2]
        exact hmap1 t h1 h2
  have hliftle : ∀ u : Int, low ≤ u → u ≤ high →
      compare_skip (l.getD u.toNat []) (l.getD (pidx low high).toNat []) nd ≤ 0 →
      strcmpBytes (l.getD u.toNat []) (l.getD (pidx low high).toNat []) ≤ 0 := by
    intro u h1 h2 hc
    apply strcmpBytes_le_lift (hP3 u h1 h2) (hP3 _ hpx.1 hpx.2) nd _ hc
    intro s hs
    exact hAg u (pidx low high) h1 h2 hpx.1 hpx.2 s hs
  have hliftge : ∀ u : Int, low ≤ u → u ≤ high →
      0 ≤ compare_skip (l.getD u.toNat []) (l.getD (pidx low high).toNat []) nd →
      strcmpBytes (l.getD (pidx low high).toNat []) (l.getD u.toNat []) ≤ 0 := by
    intro u h1 h2 hc
    have ha := strcmpBytes_antisymm ((l.getD u.toNat []).drop nd)
      ((l.getD (pidx low high).toNat []).drop nd)
    have hc' : strcmpBytes ((l.getD (pidx low high).toNat []).drop nd)
        ((l.getD u.toNat []).drop nd) ≤ 0 := by
      have hcc : strcmpBytes ((l.getD u.toNat []).drop nd)
          ((l.getD (pidx low high).toNat []).drop nd) = compare_skip
          (l.getD u.toNat []) (l.getD (pidx low high).toNat []) nd := rfl
      omega
    apply strcmpBytes_le_lift (hP3 _ hpx.1 hpx.2) (hP3 u h1 h2) nd _ hc'
    intro s hs
    exact hAg (pidx low high) u hpx.1 hpx.2 h1 h2 s hs
  have hlifteq : ∀ u : Int, low ≤ u → u ≤ high →
      compare_skip (l.getD u.toNat []) (l.getD (pidx low high).toNat []) nd = 0 →
      l.getD u.toNat [] = l.getD (pidx low high).toNat [] := by
    intro u h1 h2 hc
    have hx := hP3 u h1 h2
    have hy := hP3 _ hpx.1 hpx.2
    rcases strBytes_agree_cases hx hy nd
      (fun s hs => hAg u (pidx low high) h1 h2 hpx.1 hpx.2 s hs) with hto | hto
    · have heq := strcmpBytes_drop_of_take_eq hx hy nd hto
      have hz : strcmpBytes (l.getD u.toNat []) (l.getD (pidx low high).toNat [])
          = 0 := by
        rw [heq]
        exact hc
      exact (strcmpBytes_eq_zero_iff hx hy).mp hz
    · exact hto
  have hcmp7 : ∀ t : Int, low + 1 ≤ t → t < lgI pidx l low high nd →
      compare_skip ((lgLoop (listSwap l low.toNat (pidx low high).toNat [])
        ((listSwap l low.toNat (pidx low high).toNat []).getD low.toNat [])
        nd low high (low + 1) high).1.getD t.toNat [])
        (l.getD (pidx low high).toNat []) nd ≤ 0 := by
    intro t h1 h2
    rw [← hpiv]
    exact r7 t h1 (by rw [← hIdef]; omega)
  have hcmp8 : ∀ t : Int, lgJf pidx l low high nd < t → t ≤ high →
      0 ≤ compare_skip ((lgLoop (listSwap l low.toNat (pidx low high).toNat [])
        ((listSwap l low.toNat (pidx low high).toNat []).getD low.toNat [])
        nd low high (low + 1) high).1.getD t.toNat [])
        (l.getD (pidx low high).toNat []) nd := by
    intro t h1 h2
    rw [← hpiv]
    exact r8 t (by rw [← hJdef]; omega) h2
  refine ⟨?_, ?_, ?_, ⟨hJb.1, hJb.2, hJI, hIb.1, hIb.2⟩, hmapA, hjfval, ?_, ?_, ?_⟩
  · rw [hArr, length_listSwap, hlen2]
  · rw [hArr]
    exact (listSwap_perm [] _ _ _ hlowl2 hJl2).trans
      (r2.trans (listSwap_perm [] l _ _ hlowl hpxl))
  · intro t ht hside
    rw [hswap2 t ht, if_neg (by omega), if_neg (by omega), r3 t (by omega),
      hswap0 t ht, if_neg (by omega), if_neg (by omega)]
  · -- left half: ≤ pivot on whole strings
    intro t h1 h2
    rw [hjfval]
    have hJge : low + 1 ≤ lgJf pidx l low high nd := by omega
    rw [hswap2 t (by omega), if_neg (by omega)]
    by_cases hc2 : low = t
    · rw [if_pos hc2]
      obtain ⟨u, hu1, hu2, hu3⟩ := hmap1 (lgJf pidx l low high nd) hJb.1 hJb.2
      have hcle := hcmp7 (lgJf pidx l low high nd) hJge (by omega)
      rw [hu3] at hcle ⊢
      exact hliftle u hu1 hu2 hcle
    · rw [if_neg hc2]
      obtain ⟨u, hu1, hu2, hu3⟩ := hmap1 t (by omega) (by omega)
      have hcle := hcmp7 t (by omega) (by omega)
      rw [hu3] at hcle ⊢
      exact hliftle u hu1 hu2 hcle
  · -- right half: ≥ pivot on whole strings
    intro t h1 h2
    rw [hjfval]
    rw [hswap2 t (by omega), if_neg (by omega), if_neg (by omega)]
    obtain ⟨u, hu1, hu2, hu3⟩ := hmap1 t (by omega) h2
    have hcge := hcmp8 t (by omega) h2
    rw [hu3] at hcge ⊢
    exact hliftge u hu1 hu2 hcge
  · -- the cursor gap holds copies of the pivot
    intro t h1 h2
    rw [hjfval]
    rw [hswap2 t (by omega), if_neg (by omega), if_neg (by omega)]
    obtain ⟨u, hu1, hu2, hu3⟩ := hmap1 t (by omega) (by omega)
    have hcle := hcmp7 t (by omega) (by omega)
    have hcge := hcmp8 t (by omega) (by omega)
    rw [hu3] at hcle hcge ⊢
    exact hlifteq u hu1 hu2 (by omega)

/-- Composing one naive partition step (array `A`, split `jf`, left cursor
`ii`) with a sorted left half `Y` and a sorted right half `Z`: between the
final cursors every slot holds a copy of the pivot, so sorting `[low,
jf - 1]` and `[ii, high]` sorts the whole range. -/
theorem lgAssemble (l A Y Z : List (List Nat)) (low high jf ii : Int)
    (hjb : low ≤ jf ∧ jf ≤ high) (hji : jf < ii) (hlow : 0 ≤ low)
    (hP3 : ∀ t : Int, low ≤ t → t ≤ high → ValidStr (l.getD t.toNat []))
    (hA1 : A.length = l.length)
    (hA2 : A.Perm l)
    (hA3 : ∀ t : Int, 0 ≤ t → (t < low ∨ high < t) →
      A.getD t.toNat [] = l.getD t.toNat [])
    (hA5 : ∀ t : Int, low ≤ t → t ≤ high → ∃ u : Int, low ≤ u ∧ u ≤ high ∧
      A.getD t.toNat [] = l.getD u.toNat [])
    (hA7 : ∀ t : Int, low ≤ t → t ≤ jf - 1 →
      strcmpBytes (A.getD t.toNat []) (A.getD jf.toNat []) ≤ 0)
    (hA8 : ∀ t : Int, jf + 1 ≤ t → t ≤ high →
      strcmpBytes (A.getD jf.toNat []) (A.getD t.toNat []) ≤ 0)
    (hA9 : ∀ t : Int, jf + 1 ≤ t → t ≤ ii - 1 →
      A.getD t.toNat [] = A.getD jf.toNat [])
    (hY1 : Y.length = A.length)
    (hY2 : Y.Perm A)
    (hY3 : ∀ t : Int, 0 ≤ t → (t < low ∨ jf - 1 < t) →
      Y.getD t.toNat [] = A.getD t.toNat [])
    (hY4 : ∀ t : Int, low ≤ t → t ≤ jf - 1 → ∃ u : Int, low ≤ u ∧ u ≤ jf - 1 ∧
      Y.getD t.toNat [] = A.getD u.toNat [])
    (hY5 : ∀ t u : Int, low ≤ t → t ≤ u → u ≤ jf - 1 →
      strcmpBytes (Y.getD t.toNat []) (Y.getD u.toNat []) ≤ 0)
    (hZ1 : Z.length = Y.length)
    (hZ2 : Z.Perm Y)
    (hZ3 : ∀ t : Int, 0 ≤ t → (t < ii ∨ high < t) →
      Z.getD t.toNat [] = Y.getD t.toNat [])
    (hZ4 : ∀ t : Int, ii ≤ t → t ≤ high → ∃ u : Int, ii ≤ u ∧ u ≤ high ∧
      Z.getD t.toNat [] = Y.getD u.toNat [])
    (hZ5 : ∀ t u : Int, ii ≤ t → t ≤ u → u ≤ high →
      strcmpBytes (Z.getD t.toNat []) (Z.getD u.toNat []) ≤ 0) :
    Z.length = l.length ∧
    Z.Perm l ∧
    (∀ t : Int, 0 ≤ t → (t < low ∨ high < t) →
      Z.getD t.toNat [] = l.getD t.toNat []) ∧
    (∀ t : Int, low ≤ t → t ≤ high → ∃ u : Int, low ≤ u ∧ u ≤ high ∧
      Z.getD t.toNat [] = l.getD u.toNat []) ∧
    (∀ t u : Int, low ≤ t → t ≤ u → u ≤ high →
      strcmpBytes (Z.getD t.toNat []) (Z.getD u.toNat []) ≤ 0) := by
  have hZjf : Z.getD jf.toNat [] = A.getD jf.toNat [] := by
    rw [hZ3 jf (by omega) (by omega), hY3 jf (by omega) (by omega)]
  have hZgap : ∀ t : Int, jf + 1 ≤ t → t ≤ ii - 1 →
      Z.getD t.toNat [] = A.getD jf.toNat [] := by
    intro t h1 h2
    rw [hZ3 t (by omega) (by omega), hY3 t (by omega) (by omega), hA9 t h1 h2]
  have hZleft : ∀ t : Int, low ≤ t → t ≤ jf - 1 →
      Z.getD t.toNat [] = Y.getD t.toNat [] := by
    intro t h1 h2
    exact hZ3 t (by omega) (by omega)
  have hO4 : ∀ t : Int, low ≤ t → t ≤ high → ∃ u : Int, low ≤ u ∧ u ≤ high ∧
      Z.getD t.toNat [] = l.getD u.toNat [] := by
    intro t h1 h2
    by_cases hc1 : ii ≤ t
    · obtain ⟨u, hu1, hu2, hu3⟩ := hZ4 t hc1 h2
      have hy := hY3 u (by omega) (by omega)
      obtain ⟨v, hv1, hv2, hv3⟩ := hA5 u (by omega) hu2
      exact ⟨v, hv1, hv2, by rw [hu3, hy, hv3]⟩
    · by_cases hc2 : t ≤ jf - 1
      · obtain ⟨u, hu1, hu2, hu3⟩ := hY4 t h1 hc2
        obtain ⟨v, hv1, hv2, hv3⟩ := hA5 u hu1 (by omega)
        refine ⟨v, hv1, hv2, ?_⟩
        rw [hZleft t h1 hc2, hu3, hv3]
      · by_cases hc3 : t = jf
        · obtain ⟨v, hv1, hv2, hv3⟩ := hA5 jf hjb.1 hjb.2
          refine ⟨v, hv1, hv2, ?_⟩
          rw [hc3, hZjf, hv3]
        · obtain ⟨v, hv1, hv2, hv3⟩ := hA5 jf hjb.1 hjb.2
          refine ⟨v, hv1, hv2, ?_⟩
          rw [hZgap t (by omega) (by omega), hv3]
  have hZv : ∀ t : Int, low ≤ t → t ≤ high → ValidStr (Z.getD t.toNat []) := by
    intro t h1 h2
    obtain ⟨u, hu1, hu2, hu3⟩ := hO4 t h1 h2
    rw [hu3]
    exact hP3 u hu1 hu2
  have hAjv : ValidStr (A.getD jf.toNat []) := by
    obtain ⟨v, hv1, hv2, hv3⟩ := hA5 jf hjb.1 hjb.2
    rw [hv3]
    exact hP3 v hv1 hv2
  have hleft : ∀ t : Int, low ≤ t → t ≤ jf - 1 →
      strcmpBytes (Z.getD t.toNat []) (A.getD jf.toNat []) ≤ 0 := by
    intro t h1 h2
    obtain ⟨u, hu1, hu2, hu3⟩ := hY4 t h1 h2
    rw [hZleft t h1 h2, hu3]
    exact hA7 u hu1 hu2
  have hright : ∀ u : Int, jf + 1 ≤ u → u ≤ high →
      strcmpBytes (A.getD jf.toNat []) (Z.getD u.toNat []) ≤ 0 := by
    intro u h1 h2
    by_cases hc1 : ii ≤ u
    · obtain ⟨w, hw1, hw2, hw3⟩ := hZ4 u hc1 h2
      rw [hw3, hY3 w (by omega) (by omega)]
      exact hA8 w (by omega) hw2
    · rw [hZgap u h1 (by omega)]
      exact le_of_eq (strcmpBytes_self _)
  refine ⟨by rw [hZ1, hY1, hA1], hZ2.trans (hY2.trans hA2), ?_, hO4, ?_⟩
  · intro t ht hside
    rw [hZ3 t ht (by omega), hY3 t ht (by omega), hA3 t ht hside]
  · intro t u h1 h2 h3
    by_cases hcu : u ≤ jf - 1
    · rw [hZleft t h1 (by omega), hZleft u (by omega) hcu]
      exact hY5 t u h1 h2 hcu
    · by_cases hct : ii ≤ t
      · exact hZ5 t u hct h2 h3
      · by_cases hct2 : t ≤ jf - 1
        · by_cases hcu2 : u = jf
          · rw [hcu2, hZjf]
            exact hleft t h1 hct2
          · by_cases hcu3 : u ≤ ii - 1
            · rw [hZgap u (by omega) hcu3]
              exact hleft t h1 hct2
            · exact strcmpBytes_trans (hZv t h1 (by omega)) hAjv
                (hZv u (by omega) h3) (hleft t h1 hct2)
                (hright u (by omega) h3)
        · by_cases hct3 : t = jf
          · by_cases hcu2 : u = jf
            · rw [hct3, hcu2]
              exact le_of_eq (strcmpBytes_self _)
            · by_cases hcu3 : u ≤ ii - 1
              · rw [hct3, hZjf, hZgap u (by omega) hcu3]
                exact le_of_eq (strcmpBytes_self _)
              · rw [hct3, hZjf]
                exact hright u (by omega) h3
          · -- t lies in the cursor gap
            by_cases hcu3 : u ≤ ii - 1
            · rw [hZgap t (by omega) (by omega), hZgap u (by omega) hcu3]
              exact le_of_eq (strcmpBytes_self _)
            · rw [hZgap t (by omega) (by omega)]
              exact hright u (by omega) h3

/-- Full positional specification of `common_prefix_quicksort_recursive`
(orasort.c lines 48-81): on valid strings pairwise agreeing below `depth`,
the naive driver keeps the length, permutes the values, leaves positions
outside `[low, high]` untouched, draws every in-range value from an
in-range input position, and sorts the range by full-string `strcmp`. -/
theorem cpqr_spec (pidx : Int → Int → Int)
    (hpidx : ∀ a b : Int, a < b → a ≤ pidx a b ∧ pidx a b ≤ b)
    (l : List (List Nat)) (low high : Int) (depth : Nat) :
    0 ≤ low → high < (l.length : Int) →
    (∀ t : Int, low ≤ t → t ≤ high → ValidStr (l.getD t.toNat [])) →
    (∀ t u : Int, low ≤ t → t ≤ high → low ≤ u → u ≤ high →
      ∀ s < depth, strByte (l.getD t.toNat []) s = strByte (l.getD u.toNat []) s) →
    (common_prefix_quicksort_recursive pidx l low high depth).length = l.length ∧
    (common_prefix_quicksort_recursive pidx l low high depth).Perm l ∧
    (∀ t : Int, 0 ≤ t → (t < low ∨ high < t) →
      (common_prefix_quicksort_recursive pidx l low high depth).getD t.toNat []
        = l.getD t.toNat []) ∧
    (∀ t : Int, low ≤ t → t ≤ high → ∃ u : Int, low ≤ u ∧ u ≤ high ∧
      (common_prefix_quicksort_recursive pidx l low high depth).getD t.toNat []
        = l.getD u.toNat []) ∧
    (∀ t u : Int, low ≤ t → t ≤ u → u ≤ high →
      strcmpBytes
        ((common_prefix_quicksort_recursive pidx l low high depth).getD t.toNat [])
        ((common_prefix_quicksort_recursive pidx l low high depth).getD u.toNat [])
        ≤ 0) := by
  induction l, low, high, depth using common_prefix_quicksort_recursive.induct pidx with
  | case1 l low high depth hge =>
    intro hlow hlen hP3 hP5
    rw [common_prefix_quicksort_recursive, if_pos hge]
    refine ⟨rfl, List.Perm.refl _, fun t _ _ => rfl,
      fun t h1 h2 => ⟨t, h1, h2, rfl⟩, ?_⟩
    intro t u h1 h2 h3
    have htu : t = u := by omega
    rw [htu]
    exact le_of_eq (strcmpBytes_self _)
  | case2 l low high depth hge ihL ihR =>
    intro hlow hlen hP3 hP5
    have hlh : low < high := by omega
    have hAg : ∀ t u : Int, low ≤ t → t ≤ high → low ≤ u → u ≤ high →
        ∀ s < lgND l low high depth,
        strByte (l.getD t.toNat []) s = strByte (l.getD u.toNat []) s := by
      intro t u h1 h2 h3 h4 s hs
      have hndrfl : lgND l low high depth
          = depth + get_common_prefixLen l low high depth := rfl
      by_cases hsd : s < depth
      · exact hP5 t u h1 h2 h3 h4 s hsd
      · have hs' : s - depth < get_common_prefixLen l low high depth := by omega
        have h1' := gcp_agrees l low high depth hlh t h1 h2 (s - depth) hs'
        have h2' := gcp_agrees l low high depth hlh u h3 h4 (s - depth) hs'
        have he : depth + (s - depth) = s := by omega
        rw [he] at h1' h2'
        rw [h1', h2']
    obtain ⟨a1, a2, a3, ⟨hb1, hb2, hb3, hb4, hb5⟩, a5, a6, a7, a8, a9⟩ :=
      lgPartitionAt_spec pidx l low high (lgND l low high depth)
        (hpidx low high hlh) hlh hlow hlen hP3 hAg
    have hX3A : ∀ t : Int, low ≤ t → t ≤ high →
        ValidStr ((lgArr pidx l low high (lgND l low high depth)).getD t.toNat []) := by
      intro t h1 h2
      obtain ⟨u, hu1, hu2, hu3⟩ := a5 t h1 h2
      rw [hu3]
      exact hP3 u hu1 hu2
    have hAgA : ∀ t u : Int, low ≤ t → t ≤ high → low ≤ u → u ≤ high →
        ∀ s < lgND l low high depth,
        strByte ((lgArr pidx l low high (lgND l low high depth)).getD t.toNat []) s
          = strByte ((lgArr pidx l low high (lgND l low high depth)).getD u.toNat []) s := by
      intro t u h1 h2 h3 h4 s hs
      obtain ⟨v, hv1, hv2, hv3⟩ := a5 t h1 h2
      obtain ⟨w, hw1, hw2, hw3⟩ := a5 u h3 h4
      rw [hv3, hw3]
      exact hAg v w hv1 hv2 hw1 hw2 s hs
    have hlenL : lgJf pidx l low high (lgND l low high depth) - 1 <
        ((lgArr pidx l low high (lgND l low high depth)).length : Int) := by
      omega
    obtain ⟨L1, L2, L3, L4, L5⟩ := ihL hlow hlenL
      (fun t h1 h2 => hX3A t h1 (by omega))
      (fun t u h1 h2 h3 h4 s hs => hAgA t u h1 (by omega) h3 (by omega) s hs)
    have hX3Y : ∀ t : Int, lgI pidx l low high (lgND l low high depth) ≤ t →
        t ≤ high →
        ValidStr ((common_prefix_quicksort_recursive pidx
          (lgArr pidx l low high (lgND l low high depth)) low
          (lgJf pidx l low high (lgND l low high depth) - 1)
          (lgND l low high depth)).getD t.toNat []) := by
      intro t h1 h2
      rw [L3 t (by omega) (by omega)]
      exact hX3A t (by omega) h2
    have hAgY : ∀ t u : Int, lgI pidx l low high (lgND l low high depth) ≤ t →
        t ≤ high → lgI pidx l low high (lgND l low high depth) ≤ u → u ≤ high →
        ∀ s < lgND l low high depth,
        strByte ((common_prefix_quicksort_recursive pidx
          (lgArr pidx l low high (lgND l low high depth)) low
          (lgJf pidx l low high (lgND l low high depth) - 1)
          (lgND l low high depth)).getD t.toNat []) s
          = strByte ((common_prefix_quicksort_recursive pidx
            (lgArr pidx l low high (lgND l low high depth)) low
            (lgJf pidx l low high (lgND l low high depth) - 1)
            (lgND l low high depth)).getD u.toNat []) s := by
      intro t u h1 h2 h3 h4 s hs
      rw [L3 t (by omega) (by omega), L3 u (by omega) (by omega)]
      exact hAgA t u (by omega) h2 (by omega) h4 s hs
    have hlenR : high < ((common_prefix_quicksort_recursive pidx
        (lgArr pidx l low high (lgND l low high depth)) low
        (lgJf pidx l low high (lgND l low high depth) - 1)
        (lgND l low high depth)).length : Int) := by
      rw [L1]
      omega
    obtain ⟨R1, R2, R3, R4, R5⟩ := ihR (by omega) hlenR hX3Y hAgY
    rw [common_prefix_quicksort_recursive, if_neg hge]
    exact lgAssemble l (lgArr pidx l low high (lgND l low high depth))
      (common_prefix_quicksort_recursive pidx
        (lgArr pidx l low high (lgND l low high depth)) low
        (lgJf pidx l low high (lgND l low high depth) - 1) (lgND l low high depth))
      (common_prefix_quicksort_recursive pidx
        (common_prefix_quicksort_recursive pidx
          (lgArr pidx l low high (lgND l low high depth)) low
          (lgJf pidx l low high (lgND l low high depth) - 1) (lgND l low high depth))
        (lgI pidx l low high (lgND l low high depth)) high (lgND l low high depth))
      low high (lgJf pidx l low high (lgND l low high depth))
      (lgI pidx l low high (lgND l low high depth))
      ⟨hb1, hb2⟩ hb3 hlow hP3 a1 a2 a3 a5 a7 a8 a9 L1 L2 L3 L4 L5 R1 R2 R3 R4 R5

/-- `legrand_sort` (orasort.c lines 83-86) outputs a sorted permutation of
its input, for every sequence of random draws. -/
theorem legrand_wrap_spec (rng : Int → Int → Nat) (arr : List (List Nat))
    (hv : ∀ s ∈ arr, ValidStr s) :
    (legrand_sort rng arr).Perm arr ∧
    List.Sorted (fun x y : List Nat => x ≤ y) (legrand_sort rng arr) := by
  have hgetDmem : ∀ t : Int, 0 ≤ t → t ≤ (arr.length : Int) - 1 →
      arr.getD t.toNat [] ∈ arr := by
    intro t h1 h2
    have ht : t.toNat < arr.length := by omega
    rw [List.getD_eq_getElem?_getD, List.getElem?_eq_getElem ht]
    exact List.getElem_mem ht
  have hP3 : ∀ t : Int, 0 ≤ t → t ≤ (arr.length : Int) - 1 →
      ValidStr (arr.getD t.toNat []) := by
    intro t h1 h2
    exact hv _ (hgetDmem t h1 h2)
  obtain ⟨O1, O2, O3, O4, O5⟩ := cpqr_spec
    (fun lo hi => rand_pivot_index (rng lo hi) lo hi) (rand_pivot_in_range rng)
    arr 0 ((arr.length : Int) - 1) 0 le_rfl (by omega) hP3
    (fun t u _ _ _ _ s hs => absurd hs (by omega))
  have hdef : legrand_sort rng arr = common_prefix_quicksort_recursive
      (fun lo hi => rand_pivot_index (rng lo hi) lo hi) arr 0
      ((arr.length : Int) - 1) 0 := rfl
  rw [hdef]
  refine ⟨O2, ?_⟩
  apply List.pairwise_iff_getElem.mpr
  intro i j hi hj hij
  have hRlen : (common_prefix_quicksort_recursive
      (fun lo hi => rand_pivot_index (rng lo hi) lo hi) arr 0
      ((arr.length : Int) - 1) 0).length = arr.length := O1
  have hgat : ∀ (k : Nat) (hk : k < (common_prefix_quicksort_recursive
      (fun lo hi => rand_pivot_index (rng lo hi) lo hi) arr 0
      ((arr.length : Int) - 1) 0).length),
      (common_prefix_quicksort_recursive
        (fun lo hi => rand_pivot_index (rng lo hi) lo hi) arr 0
        ((arr.length : Int) - 1) 0).getD ((k : Nat) : Int).toNat []
      = (common_prefix_quicksort_recursive
        (fun lo hi => rand_pivot_index (rng lo hi) lo hi) arr 0
        ((arr.length : Int) - 1) 0)[k] := by
    intro k hk
    rw [Int.toNat_natCast, List.getD_eq_getElem?_getD, List.getElem?_eq_getElem hk]
    rfl
  have hvalid : ∀ k : Nat, ∀ hk : k < (common_prefix_quicksort_recursive
      (fun lo hi => rand_pivot_index (rng lo hi) lo hi) arr 0
      ((arr.length : Int) - 1) 0).length,
      ValidStr ((common_prefix_quicksort_recursive
        (fun lo hi => rand_pivot_index (rng lo hi) lo hi) arr 0
        ((arr.length : Int) - 1) 0)[k]) := by
    intro k hk
    obtain ⟨u, hu1, hu2, hu3⟩ := O4 ((k : Nat) : Int) (by omega) (by omega)
    rw [hgat k hk] at hu3
    rw [hu3]
    exact hP3 u hu1 hu2
  have h5 := O5 ((i : Nat) : Int) ((j : Nat) : Int) (by omega) (by omega) (by omega)
  rw [hgat i hi, hgat j hj] at h5
  exact (strcmpBytes_nonpos_iff (hvalid i hi) (hvalid j hj)).mp h5

/-- `optimized_orasort` outputs a sorted permutation of its input. -/
theorem optimized_wrap (strings : List (List Nat))
    (hv : ∀ s ∈ strings, ValidStr s) :
    (optimized_orasort strings).Perm strings ∧
    List.Sorted (fun x y : List Nat => x ≤ y) (optimized_orasort strings) := by
  by_cases h : strings.length ≤ 1
  · have he : optimized_orasort strings = strings := by
      rw [optimized_orasort, if_pos h]
    rw [he]
    exact ⟨List.Perm.refl _, sorted_of_len_le_one h⟩
  · have he : optimized_orasort strings = (orasort_recursive mid_pivot_index
        (strings.map fun s => StringItem.mk s (load_window s 0)) 0
        ((strings.length : Int) - 1) 0).map StringItem.ptr := by
      rw [optimized_orasort, if_neg h]
    rw [he]
    obtain ⟨h1, h2⟩ := orasort_wrap_spec mid_pivot_index mid_pivot_in_range
      strings hv
    exact ⟨h1, h2⟩

/-- `OptimizedOrasort::sort` outputs a sorted permutation of its input. -/
theorem optimized_cpp_wrap (rng : Int → Int → Nat) (data : List (List Nat))
    (hd : ∀ s ∈ data, ValidStr s) :
    (OptimizedOrasort.sort rng data).Perm data ∧
    List.Sorted (fun x y : List Nat => x ≤ y) (OptimizedOrasort.sort rng data) := by
  cases data with
  | nil =>
    have he : OptimizedOrasort.sort rng [] = [] := rfl
    rw [he]
    exact ⟨List.Perm.refl _, List.sorted_nil⟩
  | cons d ds =>
    have he : OptimizedOrasort.sort rng (d :: ds) = (orasort_recursive
        (fun lo hi => rand_pivot_index (rng lo hi) lo hi)
        ((d :: ds).map fun s => StringItem.mk s (load_window s 0)) 0
        (((d :: ds).length : Int) - 1) 0).map StringItem.ptr := rfl
    rw [he]
    obtain ⟨h1, h2⟩ := orasort_wrap_spec _ (rand_pivot_in_range rng) (d :: ds) hd
    exact ⟨h1, h2⟩

/-! ## The naive C++ port: scans, loop, partition, driver -/

theorem ppLscan_cases (l : List (List Nat)) (pivot : List Nat) (nd : Nat)
    (i j : Int) :
    ppLscan l pivot nd i j ≤ j + 1 ∨ ppLscan l pivot nd i j = i := by
  induction i, j using ppLscan.induct l pivot nd with
  | case1 i j h ih =>
    rw [ppLscan, if_pos h]
    left
    rcases ih with h1 | h1
    · exact h1
    · omega
  | case2 i j h =>
    rw [ppLscan, if_neg h]
    right
    rfl

theorem ppLscan_passed (l : List (List Nat)) (pivot : List Nat) (nd : Nat)
    (i j : Int) :
    ∀ t : Int, i ≤ t → t < ppLscan l pivot nd i j →
      compare_skip (l.getD t.toNat []) pivot nd < 0 := by
  induction i, j using ppLscan.induct l pivot nd with
  | case1 i j h ih =>
    intro t h1 h2
    rw [ppLscan, if_pos h] at h2
    by_cases hti : t = i
    · rw [hti]
      exact h.2
    · exact ih t (by omega) h2
  | case2 i j h =>
    intro t h1 h2
    rw [ppLscan, if_neg h] at h2
    omega

theorem ppLscan_stopped (l : List (List Nat)) (pivot : List Nat) (nd : Nat)
    (i j : Int) :
    ppLscan l pivot nd i j ≤ j →
      0 ≤ compare_skip (l.getD (ppLscan l pivot nd i j).toNat []) pivot nd := by
  induction i, j using ppLscan.induct l pivot nd with
  | case1 i j h ih =>
    intro hle
    rw [ppLscan, if_pos h] at hle ⊢
    exact ih hle
  | case2 i j h =>
    intro hle
    rw [ppLscan, if_neg h] at hle ⊢
    rcases not_and_or.mp h with h1 | h2
    · omega
    · omega

theorem ppRscan_cases (l : List (List Nat)) (pivot : List Nat) (nd : Nat)
    (i j : Int) :
    i - 1 ≤ ppRscan l pivot nd i j ∨ ppRscan l pivot nd i j = j := by
  induction j using ppRscan.induct l pivot nd i with
  | case1 j h ih =>
    rw [ppRscan, if_pos h]
    left
    rcases ih with h1 | h1
    · exact h1
    · omega
  | case2 j h =>
    rw [ppRscan, if_neg h]
    right
    rfl

theorem ppRscan_passed (l : List (List Nat)) (pivot : List Nat) (nd : Nat)
    (i j : Int) :
    ∀ t : Int, ppRscan l pivot nd i j < t → t ≤ j →
      0 < compare_skip (l.getD t.toNat []) pivot nd := by
  induction j using ppRscan.induct l pivot nd i with
  | case1 j h ih =>
    intro t h1 h2
    rw [ppRscan, if_pos h] at h1
    by_cases htj : t = j
    · rw [htj]
      exact h.2
    · exact ih t h1 (by omega)
  | case2 j h =>
    intro t h1 h2
    rw [ppRscan, if_neg h] at h1
    omega

theorem ppRscan_stopped (l : List (List Nat)) (pivot : List Nat) (nd : Nat)
    (i j : Int) :
    i ≤ ppRscan l pivot nd i j →
      compare_skip (l.getD (ppRscan l pivot nd i j).toNat []) pivot nd ≤ 0 := by
  induction j using ppRscan.induct l pivot nd i with
  | case1 j h ih =>
    intro hle
    rw [ppRscan, if_pos h] at hle ⊢
    exact ih hle
  | case2 j h =>
    intro hle
    rw [ppRscan, if_neg h] at hle ⊢
    rcases not_and_or.mp h with h1 | h2
    · omega
    · omega

/-- Invariants of the C++ naive partition loop (orasort.cpp lines 71-82),
whose scans are both bounded by the other cursor: same conclusions as the
C variant's `lgLoop_spec`. -/
theorem ppLoop_spec (l : List (List Nat)) (pivot : List Nat) (nd : Nat)
    (low high : Int) :
    ∀ i j : Int,
    0 ≤ low → high < (l.length : Int) →
    low + 1 ≤ i → i ≤ high + 1 → low ≤ j → j ≤ high →
    (∀ t : Int, low + 1 ≤ t → t < i →
      compare_skip (l.getD t.toNat []) pivot nd ≤ 0) →
    (∀ t : Int, j < t → t ≤ high →
      0 ≤ compare_skip (l.getD t.toNat []) pivot nd) →
    (ppLoop l pivot nd i j).1.length = l.length ∧
    (ppLoop l pivot nd i j).1.Perm l ∧
    (∀ t : Int, (t < i ∨ j < t) →
      (ppLoop l pivot nd i j).1.getD t.toNat [] = l.getD t.toNat []) ∧
    (low ≤ (ppLoop l pivot nd i j).2.2 ∧ (ppLoop l pivot nd i j).2.2 ≤ j) ∧
    (low + 1 ≤ (ppLoop l pivot nd i j).2.1 ∧
      (ppLoop l pivot nd i j).2.1 ≤ high + 1) ∧
    (ppLoop l pivot nd i j).2.2 < (ppLoop l pivot nd i j).2.1 ∧
    (∀ t : Int, low + 1 ≤ t → t < (ppLoop l pivot nd i j).2.1 →
      compare_skip ((ppLoop l pivot nd i j).1.getD t.toNat []) pivot nd ≤ 0) ∧
    (∀ t : Int, (ppLoop l pivot nd i j).2.2 < t → t ≤ high →
      0 ≤ compare_skip ((ppLoop l pivot nd i j).1.getD t.toNat []) pivot nd) ∧
    (∀ t : Int, low + 1 ≤ t → t ≤ high → ∃ u : Int, low + 1 ≤ u ∧ u ≤ high ∧
      (ppLoop l pivot nd i j).1.getD t.toNat [] = l.getD u.toNat []) := by
  intro i0 j0
  induction l, pivot, nd, i0, j0 using ppLoop.induct with
  | case1 l pivot nd i j hle ih =>
    intro hlow hlen h1i h2i h1j h2j hB hC
    have hIi := ppLscan_ge l pivot nd i j
    have hJj := ppRscan_le l pivot nd (ppLscan l pivot nd i j) j
    have hIj : ppLscan l pivot nd i j ≤ j := by omega
    have hIl : (ppLscan l pivot nd i j).toNat < l.length := by omega
    have hJle : (ppRscan l pivot nd (ppLscan l pivot nd i j) j).toNat < l.length := by
      omega
    have hstopL := ppLscan_stopped l pivot nd i j hIj
    have hstopR := ppRscan_stopped l pivot nd (ppLscan l pivot nd i j) j hle
    have hswap : ∀ t : Int,
        (listSwap l (ppLscan l pivot nd i j).toNat
          (ppRscan l pivot nd (ppLscan l pivot nd i j) j).toNat []).getD t.toNat [] =
        if ppRscan l pivot nd (ppLscan l pivot nd i j) j = t then
          l.getD (ppLscan l pivot nd i j).toNat []
        else if ppLscan l pivot nd i j = t then
          l.getD (ppRscan l pivot nd (ppLscan l pivot nd i j) j).toNat []
        else l.getD t.toNat [] := by
      intro t
      by_cases ht : 0 ≤ t
      · exact getD_listSwap_int l _ _ t hIl hJle (by omega) (by omega) ht
      · rw [if_neg (by omega), if_neg (by omega)]
        have h0 : t.toNat = 0 := by omega
        rw [h0, getD_listSwap _ _ _ _ _ hIl hJle,
          if_neg (show ¬(ppRscan l pivot nd (ppLscan l pivot nd i j) j).toNat = 0
            by omega),
          if_neg (show ¬(ppLscan l pivot nd i j).toNat = 0 by omega)]
    have hlen' : high < ((listSwap l (ppLscan l pivot nd i j).toNat
        (ppRscan l pivot nd (ppLscan l pivot nd i j) j).toNat []).length : Int) := by
      rw [length_listSwap]
      exact hlen
    have hB' : ∀ t : Int, low + 1 ≤ t → t < ppLscan l pivot nd i j + 1 →
        compare_skip ((listSwap l (ppLscan l pivot nd i j).toNat
          (ppRscan l pivot nd (ppLscan l pivot nd i j) j).toNat []).getD t.toNat [])
          pivot nd ≤ 0 := by
      intro t ht1 ht2
      rw [hswap t]
      by_cases hq : ppRscan l pivot nd (ppLscan l pivot nd i j) j = t
      · rw [if_pos hq]
        have hIJ : ppLscan l pivot nd i j
            = ppRscan l pivot nd (ppLscan l pivot nd i j) j := by omega
        rw [hIJ]
        exact hstopR
      · rw [if_neg hq]
        by_cases hp : ppLscan l pivot nd i j = t
        · rw [if_pos hp]
          exact hstopR
        · rw [if_neg hp]
          by_cases hti : t < i
          · exact hB t ht1 hti
          · exact le_of_lt (ppLscan_passed l pivot nd i j t (by omega) (by omega))
    have hC' : ∀ t : Int, ppRscan l pivot nd (ppLscan l pivot nd i j) j - 1 < t →
        t ≤ high →
        0 ≤ compare_skip ((listSwap l (ppLscan l pivot nd i j).toNat
          (ppRscan l pivot nd (ppLscan l pivot nd i j) j).toNat []).getD t.toNat [])
          pivot nd := by
      intro t ht1 ht2
      rw [hswap t]
      by_cases hq : ppRscan l pivot nd (ppLscan l pivot nd i j) j = t
      · rw [if_pos hq]
        exact hstopL
      · rw [if_neg hq]
        by_cases hp : ppLscan l pivot nd i j = t
        · rw [if_pos hp]
          have hIJ : ppLscan l pivot nd i j
              = ppRscan l pivot nd (ppLscan l pivot nd i j) j := by omega
          rw [← hIJ]
          exact hstopL
        · rw [if_neg hp]
          by_cases htj : j < t
          · exact hC t htj ht2
          · exact le_of_lt (ppRscan_passed l pivot nd (ppLscan l pivot nd i j) j t
              (by omega) (by omega))
    obtain ⟨r1, r2, r3, r4, r5, r6, r7, r8, r9⟩ := ih hlow hlen'
      (by omega) (by omega) (by omega) (by omega) hB' hC'
    rw [ppLoop, if_pos hle]
    refine ⟨by rw [r1, length_listSwap], r2.trans (listSwap_perm [] l _ _ hIl hJle),
      ?_, by omega, by omega, by omega, r7, r8, ?_⟩
    · intro t hside
      rw [r3 t (by omega), hswap t, if_neg (by omega), if_neg (by omega)]
    · intro t ht1 ht2
      obtain ⟨u, hu1, hu2, hu3⟩ := r9 t ht1 ht2
      rw [hu3, hswap u]
      by_cases hq : ppRscan l pivot nd (ppLscan l pivot nd i j) j = u
      · rw [if_pos hq]
        exact ⟨ppLscan l pivot nd i j, by omega, by omega, rfl⟩
      · rw [if_neg hq]
        by_cases hp : ppLscan l pivot nd i j = u
        · rw [if_pos hp]
          exact ⟨ppRscan l pivot nd (ppLscan l pivot nd i j) j, by omega, by omega,
            rfl⟩
        · rw [if_neg hp]
          exact ⟨u, hu1, hu2, rfl⟩
  | case2 l pivot nd i j hle =>
    intro hlow hlen h1i h2i h1j h2j hB hC
    have hIi := ppLscan_ge l pivot nd i j
    have hJj := ppRscan_le l pivot nd (ppLscan l pivot nd i j) j
    have hIcases := ppLscan_cases l pivot nd i j
    have hJcases := ppRscan_cases l pivot nd (ppLscan l pivot nd i j) j
    rw [ppLoop, if_neg hle]
    refine ⟨rfl, List.Perm.refl l, fun t _ => rfl, ?_, ?_, ?_, ?_, ?_,
      fun t ht1 ht2 => ⟨t, ht1, ht2, rfl⟩⟩
    · constructor <;> dsimp only <;> omega
    · constructor <;> dsimp only <;> omega
    · dsimp only
      omega
    · intro t ht1 ht2
      dsimp only at ht2 ⊢
      by_cases hti : t < i
      · exact hB t ht1 hti
      · exact le_of_lt (ppLscan_passed l pivot nd i j t (by omega) ht2)
    · intro t ht1 ht2
      dsimp only at ht1 ⊢
      by_cases htj : j < t
      · exact hC t htj ht2
      · exact le_of_lt (ppRscan_passed l pivot nd (ppLscan l pivot nd i j) j t ht1
          (by omega))

/-- One full partition call of the C++ naive variant at the advanced
depth `nd` (orasort.cpp lines 62-84): same conclusions as the C variant's
`lgPartitionAt_spec`. -/
theorem ppPartitionAt_spec (pidx : Int → Int → Int) (l : List (List Nat))
    (low high : Int) (nd : Nat)
    (hpx : low ≤ pidx low high ∧ pidx low high ≤ high)
    (hlh : low < high) (hlow : 0 ≤ low) (hlen : high < (l.length : Int))
    (hP3 : ∀ t : Int, low ≤ t → t ≤ high → ValidStr (l.getD t.toNat []))
    (hAg : ∀ t u : Int, low ≤ t → t ≤ high → low ≤ u → u ≤ high →
      ∀ s < nd, strByte (l.getD t.toNat []) s = strByte (l.getD u.toNat []) s) :
    (ppArr pidx l low high nd).length = l.length ∧
    (ppArr pidx l low high nd).Perm l ∧
    (∀ t : Int, 0 ≤ t → (t < low ∨ high < t) →
      (ppArr pidx l low high nd).getD t.toNat [] = l.getD t.toNat []) ∧
    (low ≤ ppJf pidx l low high nd ∧ ppJf pidx l low high nd ≤ high ∧
      ppJf pidx l low high nd < ppI pidx l low high nd ∧
      low + 1 ≤ ppI pidx l low high nd ∧ ppI pidx l low high nd ≤ high + 1) ∧
    (∀ t : Int, low ≤ t → t ≤ high → ∃ u : Int, low ≤ u ∧ u ≤ high ∧
      (ppArr pidx l low high nd).getD t.toNat [] = l.getD u.toNat []) ∧
    (ppArr pidx l low high nd).getD (ppJf pidx l low high nd).toNat []
      = l.getD (pidx low high).toNat [] ∧
    (∀ t : Int, low ≤ t → t ≤ ppJf pidx l low high nd - 1 →
      strcmpBytes ((ppArr pidx l low high nd).getD t.toNat [])
        ((ppArr pidx l low high nd).getD (ppJf pidx l low high nd).toNat []) ≤ 0) ∧
    (∀ t : Int, ppJf pidx l low high nd + 1 ≤ t → t ≤ high →
      strcmpBytes ((ppArr pidx l low high nd).getD (ppJf pidx l low high nd).toNat [])
        ((ppArr pidx l low high nd).getD t.toNat []) ≤ 0) ∧
    (∀ t : Int, ppJf pidx l low high nd + 1 ≤ t → t ≤ ppI pidx l low high nd - 1 →
      (ppArr pidx l low high nd).getD t.toNat []
        = (ppArr pidx l low high nd).getD (ppJf pidx l low high nd).toNat []) := by
  have hpxl : (pidx low high).toNat < l.length := by omega
  have hlowl : low.toNat < l.length := by omega
  have hswap0 : ∀ t : Int, 0 ≤ t →
      (listSwap l low.toNat (pidx low high).toNat []).getD t.toNat [] =
      if pidx low high = t then l.getD low.toNat []
      else if low = t then l.getD (pidx low high).toNat []
      else l.getD t.toNat [] := by
    intro t ht
    exact getD_listSwap_int l low (pidx low high) t hlowl hpxl hlow (by omega) ht
  have hpiv : (listSwap l low.toNat (pidx low high).toNat []).getD low.toNat []
      = l.getD (pidx low high).toNat [] := by
    have h := hswap0 low hlow
    rw [show low.toNat = (low : Int).toNat from rfl] at h
    rw [h]
    by_cases hc : pidx low high = low
    · rw [if_pos hc, hc]
    · rw [if_neg hc, if_pos rfl]
  have hlen1 : high < ((listSwap l low.toNat (pidx low high).toNat []).length : Int) := by
    rw [length_listSwap]
    exact hlen
  obtain ⟨r1, r2, r3, r4, r5, r6, r7, r8, r9⟩ := ppLoop_spec
    (listSwap l low.toNat (pidx low high).toNat [])
    ((listSwap l low.toNat (pidx low high).toNat []).getD low.toNat [])
    nd low high (low + 1) high hlow hlen1 le_rfl (by omega) (by omega) le_rfl
    (fun t h1 h2 => absurd h2 (by omega))
    (fun t h1 h2 => absurd h1 (by omega))
  have hJdef : ppJf pidx l low high nd = (ppLoop
      (listSwap l low.toNat (pidx low high).toNat [])
      ((listSwap l low.toNat (pidx low high).toNat []).getD low.toNat [])
      nd (low + 1) high).2.2 := rfl
  have hIdef : ppI pidx l low high nd = (ppLoop
      (listSwap l low.toNat (pidx low high).toNat [])
      ((listSwap l low.toNat (pidx low high).toNat []).getD low.toNat [])
      nd (low + 1) high).2.1 := rfl
  have hArr : ppArr pidx l low high nd = listSwap (ppLoop
      (listSwap l low.toNat (pidx low high).toNat [])
      ((listSwap l low.toNat (pidx low high).toNat []).getD low.toNat [])
      nd (low + 1) high).1 low.toNat (ppJf pidx l low high nd).toNat [] :=
    rfl
  have hJb : low ≤ ppJf pidx l low high nd ∧ ppJf pidx l low high nd ≤ high := by
    rw [hJdef]
    omega
  have hIb : low + 1 ≤ ppI pidx l low high nd ∧
      ppI pidx l low high nd ≤ high + 1 := by
    rw [hIdef]
    omega
  have hJI : ppJf pidx l low high nd < ppI pidx l low high nd := by
    rw [hJdef, hIdef]
    exact r6
  have hlen2 : (ppLoop (listSwap l low.toNat (pidx low high).toNat [])
      ((listSwap l low.toNat (pidx low high).toNat []).getD low.toNat [])
      nd (low + 1) high).1.length = l.length := by
    rw [r1, length_listSwap]
  have hlowl2 : low.toNat < (ppLoop (listSwap l low.toNat (pidx low high).toNat [])
      ((listSwap l low.toNat (pidx low high).toNat []).getD low.toNat [])
      nd (low + 1) high).1.length := by omega
  have hJl2 : (ppJf pidx l low high nd).toNat < (ppLoop
      (listSwap l low.toNat (pidx low high).toNat [])
      ((listSwap l low.toNat (pidx low high).toNat []).getD low.toNat [])
      nd (low + 1) high).1.length := by omega
  have hswap2 : ∀ t : Int, 0 ≤ t → (ppArr pidx l low high nd).getD t.toNat [] =
      if ppJf pidx l low high nd = t then
        (ppLoop (listSwap l low.toNat (pidx low high).toNat [])
          ((listSwap l low.toNat (pidx low high).toNat []).getD low.toNat [])
          nd (low + 1) high).1.getD low.toNat []
      else if low = t then
        (ppLoop (listSwap l low.toNat (pidx low high).toNat [])
          ((listSwap l low.toNat (pidx low high).toNat []).getD low.toNat [])
          nd (low + 1) high).1.getD (ppJf pidx l low high nd).toNat []
      else (ppLoop (listSwap l low.toNat (pidx low high).toNat [])
          ((listSwap l low.toNat (pidx low high).toNat []).getD low.toNat [])
          nd (low + 1) high).1.getD t.toNat [] := by
    intro t ht
    rw [hArr]
    exact getD_listSwap_int _ low (ppJf pidx l low high nd) t hlowl2 hJl2 hlow
      (by omega) ht
  have hlowval : (ppLoop (listSwap l low.toNat (pidx low high).toNat [])
      ((listSwap l low.toNat (pidx low high).toNat []).getD low.toNat [])
      nd (low + 1) high).1.getD low.toNat []
      = l.getD (pidx low high).toNat [] := by
    have h := r3 low (by omega)
    rw [show (low : Int).toNat = low.toNat from rfl] at h
    rw [h]
    exact hpiv
  have hjfval : (ppArr pidx l low high nd).getD (ppJf pidx l low high nd).toNat []
      = l.getD (pidx low high).toNat [] := by
    rw [hswap2 _ (by omega), if_pos rfl]
    exact hlowval
  have hmap1 : ∀ t : Int, low ≤ t → t ≤ high → ∃ u : Int, low ≤ u ∧ u ≤ high ∧
      (ppLoop (listSwap l low.toNat (pidx low high).toNat [])
        ((listSwap l low.toNat (pidx low high).toNat []).getD low.toNat [])
        nd (low + 1) high).1.getD t.toNat [] = l.getD u.toNat [] := by
    intro t h1 h2
    by_cases hcv : low + 1 ≤ t
    · obtain ⟨w, hw1, hw2, hw3⟩ := r9 t hcv h2
      rw [hw3, hswap0 w (by omega)]
      by_cases hc1 : pidx low high = w
      · rw [if_pos hc1]
        exact ⟨low, le_rfl, by omega, rfl⟩
      · rw [if_neg hc1]
        by_cases hc2 : low = w
        · rw [if_pos hc2]
          exact ⟨pidx low high, hpx.1, hpx.2, rfl⟩
        · rw [if_neg hc2]
          exact ⟨w, by omega, hw2, rfl⟩
    · have hteq : t = low := by omega
      rw [hteq]
      exact ⟨pidx low high, hpx.1, hpx.2, hlowval⟩
  have hmapA : ∀ t : Int, low ≤ t → t ≤ high → ∃ u : Int, low ≤ u ∧ u ≤ high ∧
      (ppArr pidx l low high nd).getD t.toNat [] = l.getD u.toNat [] := by
    intro t h1 h2
    rw [hswap2 t (by omega)]
    by_cases hc1 : ppJf pidx l low high nd = t
    · rw [if_pos hc1]
      exact ⟨pidx low high, hpx.1, hpx.2, hlowval⟩
    · rw [if_neg hc1]
      by_cases hc2 : low = t
      · rw [if_pos hc2]
        exact hmap1 (ppJf pidx l low high nd) hJb.1 hJb.2
      · rw [if_neg hc2]
        exact hmap1 t h1 h2
  have hliftle : ∀ u : Int, low ≤ u → u ≤ high →
      compare_skip (l.getD u.toNat []) (l.getD (pidx low high).toNat []) nd ≤ 0 →
      strcmpBytes (l.getD u.toNat []) (l.getD (pidx low high).toNat []) ≤ 0 := by
    intro u h1 h2 hc
    apply strcmpBytes_le_lift (hP3 u h1 h2) (hP3 _ hpx.1 hpx.2) nd _ hc
    intro s hs
    exact hAg u (pidx low high) h1 h2 hpx.1 hpx.2 s hs
  have hliftge : ∀ u : Int, low ≤ u → u ≤ high →
      0 ≤ compare_skip (l.getD u.toNat []) (l.getD (pidx low high).toNat []) nd →
      strcmpBytes (l.getD (pidx low high).toNat []) (l.getD u.toNat []) ≤ 0 := by
    intro u h1 h2 hc
    have ha := strcmpBytes_antisymm ((l.getD u.toNat []).drop nd)
      ((l.getD (pidx low high).toNat []).drop nd)
    have hc' : strcmpBytes ((l.getD (pidx low high).toNat []).drop nd)
        ((l.getD u.toNat []).drop nd) ≤ 0 := by
      have hcc : strcmpBytes ((l.getD u.toNat []).drop nd)
          ((l.getD (pidx low high).toNat []).drop nd) = compare_skip
          (l.getD u.toNat []) (l.getD (pidx low high).toNat []) nd := rfl
      omega
    apply strcmpBytes_le_lift (hP3 _ hpx.1 hpx.2) (hP3 u h1 h2) nd _ hc'
    intro s hs
    exact hAg (pidx low high) u hpx.1 hpx.2 h1 h2 s hs
  have hlifteq : ∀ u : Int, low ≤ u → u ≤ high →
      compare_skip (l.getD u.toNat []) (l.getD (pidx low high).toNat []) nd = 0 →
      l.getD u.toNat [] = l.getD (pidx low high).toNat [] := by
    intro u h1 h2 hc
    have hx := hP3 u h1 h2
    have hy := hP3 _ hpx.1 hpx.2
    rcases strBytes_agree_cases hx hy nd
      (fun s hs => hAg u (pidx low high) h1 h2 hpx.1 hpx.2 s hs) with hto | hto
    · have heq := strcmpBytes_drop_of_take_eq hx hy nd hto
      have hz : strcmpBytes (l.getD u.toNat []) (l.getD (pidx low high).toNat [])
          = 0 := by
        rw [heq]
        exact hc
      exact (strcmpBytes_eq_zero_iff hx hy).mp hz
    · exact hto
  have hcmp7 : ∀ t : Int, low + 1 ≤ t → t < ppI pidx l low high nd →
      compare_skip ((ppLoop (listSwap l low.toNat (pidx low high).toNat [])
        ((listSwap l low.toNat (pidx low high).toNat []).getD low.toNat [])
        nd (low + 1) high).1.getD t.toNat [])
        (l.getD (pidx low high).toNat []) nd ≤ 0 := by
    intro t h1 h2
    rw [← hpiv]
    exact r7 t h1 (by rw [← hIdef]; omega)
  have hcmp8 : ∀ t : Int, ppJf pidx l low high nd < t → t ≤ high →
      0 ≤ compare_skip ((ppLoop (listSwap l low.toNat (pidx low high).toNat [])
        ((listSwap l low.toNat (pidx low high).toNat []).getD low.toNat [])
        nd (low + 1) high).1.getD t.toNat [])
        (l.getD (pidx low high).toNat []) nd := by
    intro t h1 h2
    rw [← hpiv]
    exact r8 t (by rw [← hJdef]; omega) h2
  refine ⟨?_, ?_, ?_, ⟨hJb.1, hJb.2, hJI, hIb.1, hIb.2⟩, hmapA, hjfval, ?_, ?_, ?_⟩
  · rw [hArr, length_listSwap, hlen2]
  · rw [hArr]
    exact (listSwap_perm [] _ _ _ hlowl2 hJl2).trans
      (r2.trans (listSwap_perm [] l _ _ hlowl hpxl))
  · intro t ht hside
    rw [hswap2 t ht, if_neg (by omega), if_neg (by omega), r3 t (by omega),
      hswap0 t ht, if_neg (by omega), if_neg (by omega)]
  · intro t h1 h2
    rw [hjfval]
    have hJge : low + 1 ≤ ppJf pidx l low high nd := by omega
    rw [hswap2 t (by omega), if_neg (by omega)]
    by_cases hc2 : low = t
    · rw [if_pos hc2]
      obtain ⟨u, hu1, hu2, hu3⟩ := hmap1 (ppJf pidx l low high nd) hJb.1 hJb.2
      have hcle := hcmp7 (ppJf pidx l low high nd) hJge (by omega)
      rw [hu3] at hcle ⊢
      exact hliftle u hu1 hu2 hcle
    · rw [if_neg hc2]
      obtain ⟨u, hu1, hu2, hu3⟩ := hmap1 t (by omega) (by omega)
      have hcle := hcmp7 t (by omega) (by omega)
      rw [hu3] at hcle ⊢
      exact hliftle u hu1 hu2 hcle
  · intro t h1 h2
    rw [hjfval]
    rw [hswap2 t (by omega), if_neg (by omega), if_neg (by omega)]
    obtain ⟨u, hu1, hu2, hu3⟩ := hmap1 t (by omega) h2
    have hcge := hcmp8 t (by omega) h2
    rw [hu3] at hcge ⊢
    exact hliftge u hu1 hu2 hcge
  · intro t h1 h2
    rw [hjfval]
    rw [hswap2 t (by omega), if_neg (by omega), if_neg (by omega)]
    obtain ⟨u, hu1, hu2, hu3⟩ := hmap1 t (by omega) (by omega)
    have hcle := hcmp7 t (by omega) (by omega)
    have hcge := hcmp8 t (by omega) (by omega)
    rw [hu3] at hcle hcge ⊢
    exact hlifteq u hu1 hu2 (by omega)

/-- Full positional specification of `LegrandSort::sort_recursive`
(orasort.cpp lines 55-89), with the same conclusions as the C naive
driver's `cpqr_spec`. -/
theorem ppSortRecursive_spec (pidx : Int → Int → Int)
    (hpidx : ∀ a b : Int, a < b → a ≤ pidx a b ∧ pidx a b ≤ b)
    (l : List (List Nat)) (low high : Int) (depth : Nat) :
    0 ≤ low → high < (l.length : Int) →
    (∀ t : Int, low ≤ t → t ≤ high → ValidStr (l.getD t.toNat [])) →
    (∀ t u : Int, low ≤ t → t ≤ high → low ≤ u → u ≤ high →
      ∀ s < depth, strByte (l.getD t.toNat []) s = strByte (l.getD u.toNat []) s) →
    (LegrandSort.sort_recursive pidx l low high depth).length = l.length ∧
    (LegrandSort.sort_recursive pidx l low high depth).Perm l ∧
    (∀ t : Int, 0 ≤ t → (t < low ∨ high < t) →
      (LegrandSort.sort_recursive pidx l low high depth).getD t.toNat []
        = l.getD t.toNat []) ∧
    (∀ t : Int, low ≤ t → t ≤ high → ∃ u : Int, low ≤ u ∧ u ≤ high ∧
      (LegrandSort.sort_recursive pidx l low high depth).getD t.toNat []
        = l.getD u.toNat []) ∧
    (∀ t u : Int, low ≤ t → t ≤ u → u ≤ high →
      strcmpBytes
        ((LegrandSort.sort_recursive pidx l low high depth).getD t.toNat [])
        ((LegrandSort.sort_recursive pidx l low high depth).getD u.toNat [])
        ≤ 0) := by
  induction l, low, high, depth using LegrandSort.sort_recursive.induct pidx with
  | case1 l low high depth hge =>
    intro hlow hlen hP3 hP5
    rw [LegrandSort.sort_recursive, if_pos hge]
    refine ⟨rfl, List.Perm.refl _, fun t _ _ => rfl,
      fun t h1 h2 => ⟨t, h1, h2, rfl⟩, ?_⟩
    intro t u h1 h2 h3
    have htu : t = u := by omega
    rw [htu]
    exact le_of_eq (strcmpBytes_self _)
  | case2 l low high depth hge ihL ihR =>
    intro hlow hlen hP3 hP5
    have hlh : low < high := by omega
    have hAg : ∀ t u : Int, low ≤ t → t ≤ high → low ≤ u → u ≤ high →
        ∀ s < lgND l low high depth,
        strByte (l.getD t.toNat []) s = strByte (l.getD u.toNat []) s := by
      intro t u h1 h2 h3 h4 s hs
      have hndrfl : lgND l low high depth
          = depth + get_common_prefixLen l low high depth := rfl
      by_cases hsd : s < depth
      · exact hP5 t u h1 h2 h3 h4 s hsd
      · have hs' : s - depth < get_common_prefixLen l low high depth := by omega
        have h1' := gcp_agrees l low high depth hlh t h1 h2 (s - depth) hs'
        have h2' := gcp_agrees l low high depth hlh u h3 h4 (s - depth) hs'
        have he : depth + (s - depth) = s := by omega
        rw [he] at h1' h2'
        rw [h1', h2']
    obtain ⟨a1, a2, a3, ⟨hb1, hb2, hb3, hb4, hb5⟩, a5, a6, a7, a8, a9⟩ :=
      ppPartitionAt_spec pidx l low high (lgND l low high depth)
        (hpidx low high hlh) hlh hlow hlen hP3 hAg
    have hX3A : ∀ t : Int, low ≤ t → t ≤ high →
        ValidStr ((ppArr pidx l low high (lgND l low high depth)).getD t.toNat []) := by
      intro t h1 h2
      obtain ⟨u, hu1, hu2, hu3⟩ := a5 t h1 h2
      rw [hu3]
      exact hP3 u hu1 hu2
    have hAgA : ∀ t u : Int, low ≤ t → t ≤ high → low ≤ u → u ≤ high →
        ∀ s < lgND l low high depth,
        strByte ((ppArr pidx l low high (lgND l low high depth)).getD t.toNat []) s
          = strByte ((ppArr pidx l low high (lgND l low high depth)).getD u.toNat []) s := by
      intro t u h1 h2 h3 h4 s hs
      obtain ⟨v, hv1, hv2, hv3⟩ := a5 t h1 h2
      obtain ⟨w, hw1, hw2, hw3⟩ := a5 u h3 h4
      rw [hv3, hw3]
      exact hAg v w hv1 hv2 hw1 hw2 s hs
    have hlenL : ppJf pidx l low high (lgND l low high depth) - 1 <
        ((ppArr pidx l low high (lgND l low high depth)).length : Int) := by
      omega
    obtain ⟨L1, L2, L3, L4, L5⟩ := ihL hlow hlenL
      (fun t h1 h2 => hX3A t h1 (by omega))
      (fun t u h1 h2 h3 h4 s hs => hAgA t u h1 (by omega) h3 (by omega) s hs)
    have hX3Y : ∀ t : Int, ppI pidx l low high (lgND l low high depth) ≤ t →
        t ≤ high →
        ValidStr ((LegrandSort.sort_recursive pidx
          (ppArr pidx l low high (lgND l low high depth)) low
          (ppJf pidx l low high (lgND l low high depth) - 1)
          (lgND l low high depth)).getD t.toNat []) := by
      intro t h1 h2
      rw [L3 t (by omega) (by omega)]
      exact hX3A t (by omega) h2
    have hAgY : ∀ t u : Int, ppI pidx l low high (lgND l low high depth) ≤ t →
        t ≤ high → ppI pidx l low high (lgND l low high depth) ≤ u → u ≤ high →
        ∀ s < lgND l low high depth,
        strByte ((LegrandSort.sort_recursive pidx
          (ppArr pidx l low high (lgND l low high depth)) low
          (ppJf pidx l low high (lgND l low high depth) - 1)
          (lgND l low high depth)).getD t.toNat []) s
          = strByte ((LegrandSort.sort_recursive pidx
            (ppArr pidx l low high (lgND l low high depth)) low
            (ppJf pidx l low high (lgND l low high depth) - 1)
            (lgND l low high depth)).getD u.toNat []) s := by
      intro t u h1 h2 h3 h4 s hs
      rw [L3 t (by omega) (by omega), L3 u (by omega) (by omega)]
      exact hAgA t u (by omega) h2 (by omega) h4 s hs
    have hlenR : high < ((LegrandSort.sort_recursive pidx
        (ppArr pidx l low high (lgND l low high depth)) low
        (ppJf pidx l low high (lgND l low high depth) - 1)
        (lgND l low high depth)).length : Int) := by
      rw [L1]
      omega
    obtain ⟨R1, R2, R3, R4, R5⟩ := ihR (by omega) hlenR hX3Y hAgY
    rw [LegrandSort.sort_recursive, if_neg hge]
    exact lgAssemble l (ppArr pidx l low high (lgND l low high depth))
      (LegrandSort.sort_recursive pidx
        (ppArr pidx l low high (lgND l low high depth)) low
        (ppJf pidx l low high (lgND l low high depth) - 1) (lgND l low high depth))
      (LegrandSort.sort_recursive pidx
        (LegrandSort.sort_recursive pidx
          (ppArr pidx l low high (lgND l low high depth)) low
          (ppJf pidx l low high (lgND l low high depth) - 1) (lgND l low high depth))
        (ppI pidx l low high (lgND l low high depth)) high (lgND l low high depth))
      low high (ppJf pidx l low high (lgND l low high depth))
      (ppI pidx l low high (lgND l low high depth))
      ⟨hb1, hb2⟩ hb3 hlow hP3 a1 a2 a3 a5 a7 a8 a9 L1 L2 L3 L4 L5 R1 R2 R3 R4 R5

/-- A positional full-string ordering over the whole index range gives
`List.Sorted` on the lexicographic order, via `strcmpBytes`. -/
theorem sorted_of_positional (R : List (List Nat))
    (hval : ∀ k : Nat, ∀ hk : k < R.length, ValidStr (R[k]))
    (hord : ∀ t u : Int, 0 ≤ t → t ≤ u → u ≤ (R.length : Int) - 1 →
      strcmpBytes (R.getD t.toNat []) (R.getD u.toNat []) ≤ 0) :
    List.Sorted (fun x y : List Nat => x ≤ y) R := by
  apply List.pairwise_iff_getElem.mpr
  intro i j hi hj hij
  have hgi : R.getD ((i : Nat) : Int).toNat [] = R[i] := by
    rw [Int.toNat_natCast, List.getD_eq_getElem?_getD, List.getElem?_eq_getElem hi]
    rfl
  have hgj : R.getD ((j : Nat) : Int).toNat [] = R[j] := by
    rw [Int.toNat_natCast, List.getD_eq_getElem?_getD, List.getElem?_eq_getElem hj]
    rfl
  have h5 := hord ((i : Nat) : Int) ((j : Nat) : Int) (by omega) (by omega)
    (by omega)
  rw [hgi, hgj] at h5
  exact (strcmpBytes_nonpos_iff (hval i hi) (hval j hj)).mp h5

/-- `LegrandSort::sort` (orasort.cpp lines 9-12) outputs a sorted
permutation of its input, for every sequence of random draws. -/
theorem legrand_cpp_wrap (rng : Int → Int → Nat) (arr : List (List Nat))
    (hv : ∀ s ∈ arr, ValidStr s) :
    (LegrandSort.sort rng arr).Perm arr ∧
    List.Sorted (fun x y : List Nat => x ≤ y) (LegrandSort.sort rng arr) := by
  cases arr with
  | nil =>
    have he : LegrandSort.sort rng [] = [] := rfl
    rw [he]
    exact ⟨List.Perm.refl _, List.sorted_nil⟩
  | cons d ds =>
    have he : LegrandSort.sort rng (d :: ds) = LegrandSort.sort_recursive
        (fun lo hi => rand_pivot_index (rng lo hi) lo hi) (d :: ds) 0
        (((d :: ds).length : Int) - 1) 0 := rfl
    rw [he]
    have hgetDmem : ∀ t : Int, 0 ≤ t → t ≤ ((d :: ds).length : Int) - 1 →
        (d :: ds).getD t.toNat [] ∈ d :: ds := by
      intro t h1 h2
      have ht : t.toNat < (d :: ds).length := by omega
      rw [List.getD_eq_getElem?_getD, List.getElem?_eq_getElem ht]
      exact List.getElem_mem ht
    have hP3 : ∀ t : Int, 0 ≤ t → t ≤ ((d :: ds).length : Int) - 1 →
        ValidStr ((d :: ds).getD t.toNat []) := by
      intro t h1 h2
      exact hv _ (hgetDmem t h1 h2)
    obtain ⟨O1, O2, O3, O4, O5⟩ := ppSortRecursive_spec
      (fun lo hi => rand_pivot_index (rng lo hi) lo hi) (rand_pivot_in_range rng)
      (d :: ds) 0 (((d :: ds).length : Int) - 1) 0 le_rfl (by omega) hP3
      (fun t u _ _ _ _ s hs => absurd hs (by omega))
    refine ⟨O2, ?_⟩
    apply sorted_of_positional
    · intro k hk
      obtain ⟨u, hu1, hu2, hu3⟩ := O4 ((k : Nat) : Int) (by omega)
        (by rw [O1] at hk; omega)
      have hgk : (LegrandSort.sort_recursive
          (fun lo hi => rand_pivot_index (rng lo hi) lo hi) (d :: ds) 0
          (((d :: ds).length : Int) - 1) 0).getD ((k : Nat) : Int).toNat []
          = (LegrandSort.sort_recursive
            (fun lo hi => rand_pivot_index (rng lo hi) lo hi) (d :: ds) 0
            (((d :: ds).length : Int) - 1) 0)[k] := by
        rw [Int.toNat_natCast, List.getD_eq_getElem?_getD,
          List.getElem?_eq_getElem hk]
        rfl
      rw [hgk] at hu3
      rw [hu3]
      exact hP3 u hu1 hu2
    · intro t u h1 h2 h3
      exact O5 t u h1 h2 (by rw [O1] at h3; omega)

/-- C10: on every input of NUL-free byte strings, both naive reference
variants (`legrand_sort` of orasort.c and `LegrandSort::sort` of
orasort.cpp, for any random draws) and both cached variants
(`optimized_orasort` of orasort2.c, `OptimizedOrasort::sort` of
orasort2.cpp for any draws) produce the same output sequence of string
values: each is the unique sorted permutation of the input. -/
theorem claim_C10_variants_agree (strings : List (List Nat))
    (rng rng2 rng3 : Int → Int → Nat) (hv : ∀ s ∈ strings, ValidStr s) :
    legrand_sort rng strings = optimized_orasort strings ∧
    LegrandSort.sort rng3 strings = optimized_orasort strings ∧
    OptimizedOrasort.sort rng2 strings = optimized_orasort strings := by
  haveI : IsAntisymm (List Nat) (fun x y : List Nat => x ≤ y) :=
    ⟨fun a b h1 h2 => le_antisymm h1 h2⟩
  obtain ⟨hp1, hs1⟩ := legrand_wrap_spec rng strings hv
  obtain ⟨hp2, hs2⟩ := optimized_wrap strings hv
  obtain ⟨hp3, hs3⟩ := optimized_cpp_wrap rng2 strings hv
  obtain ⟨hp4, hs4⟩ := legrand_cpp_wrap rng3 strings hv
  refine ⟨?_, ?_, ?_⟩
  · exact List.eq_of_perm_of_sorted (hp1.trans hp2.symm) hs1 hs2
  · exact List.eq_of_perm_of_sorted (hp4.trans hp2.symm) hs4 hs2
  · exact List.eq_of_perm_of_sorted (hp3.trans hp2.symm) hs3 hs2

/-- C10 witness at a concrete input. -/
theorem claim_C10_witness :
    (∀ s ∈ [[98, 97], [97, 99], [97]], ValidStr s) ∧
    legrand_sort (fun _ _ => 2) [[98, 97], [97, 99], [97]]
      = optimized_orasort [[98, 97], [97, 99], [97]] ∧
    LegrandSort.sort (fun _ _ => 1) [[98, 97], [97, 99], [97]]
      = optimized_orasort [[98, 97], [97, 99], [97]] ∧
    OptimizedOrasort.sort (fun _ _ => 5) [[98, 97], [97, 99], [97]]
      = optimized_orasort [[98, 97], [97, 99], [97]] := by
  have h := claim_C10_variants_agree [[98, 97], [97, 99], [97]]
    (fun _ _ => 2) (fun _ _ => 5) (fun _ _ => 1) (by decide)
  exact ⟨by decide, h.1, h.2.1, h.2.2⟩

end Orasort
